import Mathlib

/-!
# go-runapi: a shallow embedding of the documentation extractor

The development models the parts of `internal/parser/parser.go` and
`pkg/generator/generator.go` that resolve type references, flatten struct
declarations into parameter tables and diff two documentation snapshots, and
the merge of page contents of `pkg/types/mapper.go`.

Conventions of the embedding:

* Go strings are modelled by `String`; every string primitive of the Go
  standard library that the code calls is written here as a structural
  function over the list of characters, so that it evaluates in the kernel.
  `len` of a string is its UTF-8 byte length.
* A Go `map[string]V` is an association list with pairwise distinct keys.  The
  order of the list is the order in which one `range` over the map enumerates
  it; theorems that hold for every enumeration quantify over the list.
* `deepParseStruct` is recursive without a bound in the source; the model
  carries a fuel argument and returns `none` when the fuel runs out.
-/

namespace RunApi

/-! ## String primitives (`strings` package) -/

/-- Go `strings.HasPrefix(s, pre)`. -/
def hasPrefix (s pre : String) : Bool := pre.data.isPrefixOf s.data

/-- Go `strings.HasSuffix(s, suf)`. -/
def hasSuffix (s suf : String) : Bool := suf.data.reverse.isPrefixOf s.data.reverse

/-- Go `strings.TrimPrefix(s, pre)`. -/
def trimPrefix (s pre : String) : String :=
  if hasPrefix s pre then ⟨s.data.drop pre.data.length⟩ else s

/-- Go `strings.TrimSuffix(s, suf)`. -/
def trimSuffix (s suf : String) : String :=
  if hasSuffix s suf then ⟨s.data.take (s.data.length - suf.data.length)⟩ else s

/-- Substring test on character lists. -/
def containsList : List Char → List Char → Bool
  | [], sub => sub.isEmpty
  | c :: cs, sub => sub.isPrefixOf (c :: cs) || containsList cs sub

/-- Go `strings.Contains(s, sub)`. -/
def containsStr (s sub : String) : Bool := containsList s.data sub.data

/-- Go `unicode.IsSpace`. -/
def isSpace (c : Char) : Bool :=
  let n := c.toNat
  (9 ≤ n && n ≤ 13) || n == 32 || n == 0x85 || n == 0xA0 || n == 0x1680 ||
  (0x2000 ≤ n && n ≤ 0x200A) || n == 0x2028 || n == 0x2029 || n == 0x202F ||
  n == 0x205F || n == 0x3000

/-- Go `strings.TrimSpace(s)`. -/
def trimSpace (s : String) : String :=
  ⟨((s.data.dropWhile isSpace).reverse.dropWhile isSpace).reverse⟩

/-- Go `strings.Trim(s, cutset)` for a cutset of a single character. -/
def trimChar (s : String) (c : Char) : String :=
  ⟨((s.data.dropWhile (· == c)).reverse.dropWhile (· == c)).reverse⟩

/-- The text before the first occurrence of `c` and the text after it, when
`c` occurs (`strings.Index` followed by the two slices). -/
def cutList (c : Char) : List Char → Option (List Char × List Char)
  | [] => none
  | x :: xs =>
    if x == c then some ([], xs)
    else match cutList c xs with
      | some (a, b) => some (x :: a, b)
      | none => none

/-- Go `strings.Split(s, sep)` for a separator of a single character, on
character lists. -/
def splitList (c : Char) : List Char → List (List Char)
  | [] => [[]]
  | x :: xs =>
    if x == c then [] :: splitList c xs
    else match splitList c xs with
      | [] => [[x]]
      | p :: ps => (x :: p) :: ps

/-- Go `strings.Split(s, sep)` for a separator of a single character. -/
def splitChar (s : String) (c : Char) : List String := (splitList c s.data).map String.mk

/-- Go `len(s)`: the number of bytes of the UTF-8 encoding. -/
def byteLen (s : String) : Nat := (s.data.map Char.utf8Size).sum

/-! ## Data model (`pkg/types/types.go`) -/

/-- Go `types.ResponseParam`. -/
structure ResponseParam where
  Name : String
  Typ : String
  Required : Bool
  Remark : String
  deriving DecidableEq, Repr

/-- Go `types.RequestParam`. -/
structure RequestParam where
  Name : String
  Typ : String
  Require : String
  Remark : String
  deriving DecidableEq, Repr

/-- Go `types.StructInfo`. -/
structure StructInfo where
  Name : String
  Package : String
  PackagePath : String
  Fields : List ResponseParam
  deriving DecidableEq, Repr

/-- A Go `map[string]V`: the entries in the order of one enumeration. -/
abbrev GoMap (V : Type) := List (String × V)

/-- Map lookup `m[key]` with its presence flag. -/
def GoMap.lookup {V : Type} : GoMap V → String → Option V
  | [], _ => none
  | (k, v) :: rest, key => if k = key then some v else GoMap.lookup rest key

/-- Map assignment `m[key] = v`: an existing key gets the new value, a new key
is added. -/
def GoMap.assign {V : Type} : GoMap V → String → V → GoMap V
  | [], key, v => [(key, v)]
  | (k, w) :: rest, key, v =>
    if k = key then (k, v) :: rest else (k, w) :: GoMap.assign rest key v

/-- The keys of a map are pairwise distinct. -/
def GoMap.WF {V : Type} (m : GoMap V) : Prop := (m.map Prod.fst).Nodup

instance {V : Type} (m : GoMap V) : Decidable m.WF := by
  unfold GoMap.WF; infer_instance

/-- The registry `Parser.structInfos`, a `map[string]types.StructInfo`. -/
abbrev Registry := GoMap StructInfo

/-! ## Type mapping (`mapGoTypeToResponseType`, `mapGoTypeToRequestType`) -/

/-- Go `Parser.mapGoTypeToRequestType`. -/
def mapGoTypeToRequestType (goType : String) : String :=
  let goType := if hasPrefix goType "*" then ⟨goType.data.drop 1⟩ else goType
  if hasPrefix goType "[]" then "array"
  else if goType = "string" then "string"
  else if goType ∈ ["int", "int8", "int16", "int32", "uint", "uint8", "uint16", "uint32"] then "int"
  else if goType ∈ ["int64", "uint64"] then "long"
  else if goType = "float32" then "float"
  else if goType = "float64" then "double"
  else if goType = "bool" then "boolean"
  else if goType = "file" then "file"
  else if goType = "interface{}" then "object"
  else "object"

/-- Go `Parser.mapGoTypeToResponseType`. -/
def mapGoTypeToResponseType (goType : String) : String :=
  let goType := if hasPrefix goType "*" then ⟨goType.data.drop 1⟩ else goType
  if hasPrefix goType "[]" then "array"
  else if goType = "string" then "string"
  else if goType ∈ ["int", "int8", "int16", "int32", "uint", "uint8", "uint16", "uint32"] then "int"
  else if goType ∈ ["int64", "uint64"] then "long"
  else if goType ∈ ["float32", "float64"] then "number"
  else if goType = "bool" then "boolean"
  else if goType = "interface{}" then "object"
  else "object"

/-! ## Struct flattening (`deepParseStruct`) -/

/-- The first key of the enumeration that ends in `"." ++ cleanType` or equals
`cleanType` (the `for key := range p.structInfos` loop of `deepParseStruct`). -/
def findQualifiedKey : Registry → String → Option String
  | [], _ => none
  | (key, _) :: rest, cleanType =>
    if hasSuffix key ("." ++ cleanType) || key == cleanType then some key
    else findQualifiedKey rest cleanType

/-- The body of the loop over the fields in `deepParseStruct`: `params` is the
list built so far, `recur` the recursive call. -/
def deepParseField (reg : Registry) (structInfo : StructInfo) (pre : String)
    (recur : String → String → Option (List ResponseParam))
    (params : List ResponseParam) (field : ResponseParam) : Option (List ResponseParam) :=
  let isEmbedded := field.Name == field.Typ
  let cleanType := trimPrefix field.Typ "*"
  if (reg.lookup cleanType).isSome then
    let fieldPrefix := if !isEmbedded then pre ++ field.Name ++ "." else pre
    (recur cleanType fieldPrefix).map (params ++ ·)
  else if containsStr cleanType "." then
    match findQualifiedKey reg cleanType with
    | some key =>
      let fieldPrefix := if !isEmbedded then pre ++ field.Name ++ "." else pre
      (recur key fieldPrefix).map (params ++ ·)
    | none =>
      if !isEmbedded then
        some (params ++ [{ Name := pre ++ field.Name,
                           Typ := mapGoTypeToResponseType field.Typ,
                           Required := field.Required,
                           Remark := field.Remark }])
      else some params
  else
    let currentPackage := structInfo.Package
    let prefixedKey := currentPackage ++ "." ++ cleanType
    if (reg.lookup prefixedKey).isSome then
      let fieldPrefix := if !isEmbedded then pre ++ field.Name ++ "." else pre
      (recur prefixedKey fieldPrefix).map (params ++ ·)
    else if !isEmbedded then
      some (params ++ [{ Name := pre ++ field.Name,
                         Typ := mapGoTypeToResponseType field.Typ,
                         Required := field.Required,
                         Remark := field.Remark }])
    else some params

/-- The loop over the fields of `deepParseStruct`. -/
def deepParseFields (reg : Registry) (structInfo : StructInfo) (pre : String)
    (recur : String → String → Option (List ResponseParam)) :
    List ResponseParam → List ResponseParam → Option (List ResponseParam)
  | params, [] => some params
  | params, field :: rest =>
    match deepParseField reg structInfo pre recur params field with
    | some params1 => deepParseFields reg structInfo pre recur params1 rest
    | none => none

/-- Go `Parser.deepParseStruct(structName, prefix)`, with a bound on the depth
of the recursion: `none` when the bound is reached. -/
def deepParseStruct (reg : Registry) : Nat → String → String → Option (List ResponseParam)
  | 0, _, _ => none
  | fuel + 1, structName, pre =>
    match reg.lookup structName with
    | none => some []
    | some structInfo =>
      deepParseFields reg structInfo pre (deepParseStruct reg fuel) [] structInfo.Fields

/-- The expansion of `structName` under `pre` returns `out`. -/
def Flattens (reg : Registry) (structName pre : String) (out : List ResponseParam) : Prop :=
  ∃ fuel, deepParseStruct reg fuel structName pre = some out

/-! ## Building the registry (`parseStructsInDir`) -/

/-- The type expressions of `go/ast` that `getTypeString` tells apart; `other`
carries the Go type name of any other node. -/
inductive TypeExpr where
  | ident (name : String)
  | star (x : TypeExpr)
  | array (elt : TypeExpr)
  | selector (x : TypeExpr) (sel : String)
  | other (goTypeName : String)
  deriving DecidableEq, Repr

/-- Go `Parser.getTypeString`. -/
def getTypeString : TypeExpr → String
  | .ident name => name
  | .star x => "*" ++ getTypeString x
  | .array elt => "[]" ++ getTypeString elt
  | .selector x sel => getTypeString x ++ "." ++ sel
  | .other goTypeName => goTypeName

/-- One `ast.Field` of a struct type: its names (none for an embedded field),
its type, the literal of its tag and the texts of its trailing comments. -/
structure FieldDecl where
  Names : List String
  Typ : TypeExpr
  Tag : Option String
  Comment : Option (List String)
  deriving DecidableEq, Repr

/-- Go `Parser.extractJSONTagInfo`. -/
def extractJSONTagInfo (tagStr : String) : String × Bool × Bool :=
  match splitChar tagStr ' ' with
  | [] => ("", false, false)
  | jsonPart :: _ =>
    if hasPrefix jsonPart "json:" then
      let jsonTag := trimChar ⟨jsonPart.data.drop 5⟩ '"'
      if jsonTag = "-" then ("-", false, false)
      else
        match cutList ',' jsonTag.data with
        | some (fieldName, options) => (⟨fieldName⟩, containsStr ⟨options⟩ "omitempty", true)
        | none => (jsonTag, false, true)
    else ("", false, false)

/-- The remark after the loop over `field.Comment.List`: each comment
overwrites the remark with its text, `//` and surrounding blanks removed. -/
def commentRemark (remark : String) : Option (List String) → String
  | none => remark
  | some texts => texts.foldl (fun _ text => trimSpace (trimPrefix text "//")) remark

/-- The tag step of a named field: `none` is the `continue` that skips the
field. -/
def applyTag (param : ResponseParam) : Option String → Option ResponseParam
  | none => some param
  | some value =>
    match extractJSONTagInfo (trimChar value (Char.ofNat 96)) with
    | (jsonName, omitempty, true) =>
      if jsonName = "-" then none
      else some { param with Name := jsonName, Required := !omitempty }
    | (_, _, false) => some param

/-- The parameters recorded for the names of one named field. -/
def namedFieldParams (field : FieldDecl) : List String → List ResponseParam
  | [] => []
  | name :: rest =>
    match applyTag { Name := name, Typ := getTypeString field.Typ, Required := false, Remark := "" }
        field.Tag with
    | none => namedFieldParams field rest
    | some param =>
      { param with Remark := commentRemark param.Remark field.Comment } ::
        namedFieldParams field rest

/-- The parameters that one `ast.Field` adds to `structInfo.Fields`. -/
def fieldParams (field : FieldDecl) : List ResponseParam :=
  if field.Names.length = 0 then
    let fieldType := getTypeString field.Typ
    [{ Name := fieldType, Typ := fieldType, Required := true,
       Remark := commentRemark "嵌入字段" field.Comment }]
  else namedFieldParams field field.Names

/-- A struct type declaration of a source file. -/
structure StructDecl where
  Name : String
  Fields : List FieldDecl
  deriving DecidableEq, Repr

/-- What `parseStructsInDir` reads from one file: the package name, the
directory of the file relative to the scan directory, and the struct
declarations in source order. -/
structure SourceFile where
  PackageName : String
  RelPath : String
  Structs : List StructDecl
  deriving DecidableEq, Repr

/-- The registration of one struct declaration. -/
def registerStruct (packageName relPath : String) (reg : Registry) (decl : StructDecl) :
    Registry :=
  reg.assign (packageName ++ "." ++ decl.Name)
    { Name := decl.Name, Package := packageName, PackagePath := relPath,
      Fields := (decl.Fields.map fieldParams).flatten }

/-- The registrations of the files of a scan, in the order of the walk. -/
def parseStructs (files : List SourceFile) : Registry :=
  files.foldl (fun reg file => file.Structs.foldl (registerStruct file.PackageName file.RelPath) reg) []

/-! ## Reference resolution (`resolveStructReference`) -/

/-- What the parser knows of the file a directive stands in: its package name
(`none` when the package clause cannot be parsed) and its entry of
`packageImports` (`none` when the file has none). -/
structure FileInfo where
  Package : Option String
  Imports : Option (GoMap String)

/-- The three errors of `resolveStructReference`. -/
inductive ResolveError where
  | noImports
  | noAlias (packageAlias : String)
  | notFound (packageAlias structName importPath : String)
  deriving DecidableEq, Repr

/-- Go `Parser.removeModulePrefix`. -/
def removeModulePrefix (importPath : String) : String :=
  if containsStr importPath "/" then
    match cutList '/' importPath.data with
    | some (_, rest) => ⟨rest⟩
    | none => importPath
  else importPath

/-- The path test of `resolveStructReference` between the package path of a
declaration and an import path. -/
def pathMatch (packagePath importPath : String) : Bool :=
  if packagePath = importPath then true
  else if hasSuffix importPath packagePath then true
  else if hasSuffix packagePath importPath then true
  else if removeModulePrefix importPath = packagePath then true
  else false

/-- The loop over the registry in `resolveStructReference`: `.inl key` when
the loop returns `key`, `.inr candidates` when it runs to its end. -/
def scanCandidates (structName importPath packageAlias : String) :
    Registry → List String → String ⊕ List String
  | [], candidates => .inr candidates
  | (key, structInfo) :: rest, candidates =>
    if structInfo.Name = structName then
      if pathMatch structInfo.PackagePath importPath then
        if structInfo.Package = packageAlias then .inl key
        else scanCandidates structName importPath packageAlias rest (candidates ++ [key])
      else scanCandidates structName importPath packageAlias rest candidates
    else scanCandidates structName importPath packageAlias rest candidates

/-- The package path of `p.structInfos[key]`, empty when the key is absent. -/
def packagePathOf (reg : Registry) (key : String) : String :=
  match reg.lookup key with
  | some structInfo => structInfo.PackagePath
  | none => ""

/-- The loop that keeps the candidate of the longest package path. -/
def pickLongest (reg : Registry) : String → List String → String
  | bestMatch, [] => bestMatch
  | bestMatch, candidate :: rest =>
    if byteLen (packagePathOf reg candidate) > byteLen (packagePathOf reg bestMatch) then
      pickLongest reg candidate rest
    else pickLongest reg bestMatch rest

/-- The two parts of `strings.SplitN(s, sep, 2)` for a separator of one
character that occurs in `s`. -/
def splitFirst (s : String) (c : Char) : String × String :=
  match cutList c s.data with
  | some (a, b) => (⟨a⟩, ⟨b⟩)
  | none => (s, "")

/-- Go `Parser.resolveStructReference(structRef, filePath)`. -/
def resolveStructReference (reg : Registry) (file : FileInfo) (structRef : String) :
    Except ResolveError String :=
  if !containsStr structRef "." then
    match file.Package with
    | some currentPackage =>
      let currentKey := currentPackage ++ "." ++ structRef
      if (reg.lookup currentKey).isSome then .ok currentKey else .ok structRef
    | none => .ok structRef
  else
    let packageAlias := (splitFirst structRef '.').1
    let structName := (splitFirst structRef '.').2
    match file.Imports with
    | none => .error .noImports
    | some imports =>
      match imports.lookup packageAlias with
      | none => .error (.noAlias packageAlias)
      | some importPath =>
        match scanCandidates structName importPath packageAlias reg [] with
        | .inl key => .ok key
        | .inr [] => .error (.notFound packageAlias structName importPath)
        | .inr [candidate] => .ok candidate
        | .inr (candidate :: more) => .ok (pickLongest reg candidate (candidate :: more))

/-! ## Composite responses (`parseNestedResponse`) -/

deriving instance DecidableEq for Except

/-- The only error of `parseNestedResponse`. -/
inductive NestedError where
  | invalidFormat
  deriving DecidableEq, Repr

/-- The key that the callers of `resolveStructReference` go on with: the
resolved key, or the token itself when the resolution fails. -/
def resolveOrRaw (reg : Registry) (file : FileInfo) (structRef : String) : String :=
  match resolveStructReference reg file structRef with
  | .ok structKey => structKey
  | .error _ => structRef

/-- The search loop of an override: the parameters with the first one named
`fieldName` replaced by an object placeholder that keeps its remark; `none`
when no parameter has that name. -/
def replaceNamed (fieldName : String) : List ResponseParam → Option (List ResponseParam)
  | [] => none
  | param :: rest =>
    if param.Name = fieldName then
      some ({ Name := fieldName, Typ := "object", Required := false, Remark := param.Remark } :: rest)
    else (replaceNamed fieldName rest).map (param :: ·)

/-- The second half of the body of the loop over the overrides: the override
of `fieldName` by the struct that `structName` resolves to. -/
def overrideField (reg : Registry) (file : FileInfo) (fuel : Nat)
    (params : List ResponseParam) (fieldName structName : String) :
    Option (List ResponseParam) :=
  let structKey := resolveOrRaw reg file structName
  if (reg.lookup structKey).isSome then
    match replaceNamed fieldName params with
    | some params1 =>
      (deepParseStruct reg fuel structKey (fieldName ++ ".")).map (params1 ++ ·)
    | none =>
      let remark := fieldName ++ "信息"
      (deepParseStruct reg fuel structKey (fieldName ++ ".")).map
        (params ++ [{ Name := fieldName, Typ := "object", Required := false, Remark := remark }] ++ ·)
  else some params

/-- The body of the loop over the overrides `name=Type` of a composite token. -/
def applyOverride (reg : Registry) (file : FileInfo) (fuel : Nat)
    (params : List ResponseParam) (field : String) : Option (List ResponseParam) :=
  let field := trimSpace field
  if field = "" then some params
  else
    match cutList '=' field.data with
    | none => some params
    | some (left, right) =>
      overrideField reg file fuel params (trimSpace ⟨left⟩) (trimSpace ⟨right⟩)

/-- The loop over the overrides. -/
def applyOverrides (reg : Registry) (file : FileInfo) (fuel : Nat) :
    List ResponseParam → List String → Option (List ResponseParam)
  | params, [] => some params
  | params, field :: rest =>
    match applyOverride reg file fuel params field with
    | some params1 => applyOverrides reg file fuel params1 rest
    | none => none

/-- Go `Parser.parseNestedResponse(responseValue, filePath)`; `fuel` bounds the
calls of `deepParseStruct`, and the result is `none` when it runs out. -/
def parseNestedResponse (reg : Registry) (file : FileInfo) (fuel : Nat)
    (responseValue : String) : Option (Except NestedError (List ResponseParam)) :=
  if !containsStr responseValue "\x7b" || !hasSuffix responseValue "\x7d" then
    some (.error .invalidFormat)
  else
    let baseStructName := trimSpace (splitFirst responseValue '{').1
    let innerContent := trimPrefix responseValue (baseStructName ++ "\x7b")
    let innerContent := trimSuffix innerContent "\x7d"
    let baseStructKey := resolveOrRaw reg file baseStructName
    let params : List ResponseParam :=
      match reg.lookup baseStructKey with
      | some structInfo => structInfo.Fields
      | none => []
    if innerContent = "" then some (.ok params)
    else (applyOverrides reg file fuel params (splitChar innerContent ',')).map .ok

/-! ## Diff of two snapshots (`pkg/generator/generator.go`) -/

/-- Go `types.APIDoc`. -/
structure APIDoc where
  Title : String
  Catalog : String
  Description : String
  Method : String
  Router : String
  URL : String
  Header : List RequestParam
  Query : List RequestParam
  FormData : List RequestParam
  Body : List RequestParam
  ResponseHeader : List ResponseParam
  ResponseBody : List ResponseParam
  Remark : String
  FilePath : String
  FunctionName : String
  deriving DecidableEq, Repr

/-- Go `generator.DocumentChange`. -/
structure DocumentChange where
  Old : APIDoc
  New : APIDoc
  deriving DecidableEq, Repr

/-- Go `generator.DocumentDiff`. -/
structure DocumentDiff where
  Added : List APIDoc
  Removed : List APIDoc
  Changed : List DocumentChange
  deriving DecidableEq, Repr

/-- Go `Generator.getRouter`. -/
def getRouter (doc : APIDoc) : String :=
  if doc.Router ≠ "" then doc.Router
  else if doc.URL ≠ "" then doc.URL
  else ""

/-- Go `Generator.getDocKey`. -/
def getDocKey (doc : APIDoc) : String := doc.Method ++ ":" ++ getRouter doc

/-- Go `Generator.paramsEqual`. -/
def paramsEqual (params1 params2 : List RequestParam) : Bool :=
  if params1.length ≠ params2.length then false
  else (List.zip params1 params2).all fun (a, b) =>
    !(a.Name ≠ b.Name || a.Typ ≠ b.Typ || a.Require ≠ b.Require || a.Remark ≠ b.Remark)

/-- Go `Generator.responseParamsEqual`. -/
def responseParamsEqual (params1 params2 : List ResponseParam) : Bool :=
  if params1.length ≠ params2.length then false
  else (List.zip params1 params2).all fun (a, b) =>
    !(a.Name ≠ b.Name || a.Typ ≠ b.Typ || a.Remark ≠ b.Remark)

/-- Go `Generator.docsEqual`. -/
def docsEqual (doc1 doc2 : APIDoc) : Bool :=
  if doc1.Title ≠ doc2.Title || doc1.Description ≠ doc2.Description ||
      doc1.Method ≠ doc2.Method || getRouter doc1 ≠ getRouter doc2 ||
      doc1.Catalog ≠ doc2.Catalog || doc1.Remark ≠ doc2.Remark then false
  else if doc1.Header.length ≠ doc2.Header.length ||
      doc1.Query.length ≠ doc2.Query.length ||
      doc1.FormData.length ≠ doc2.FormData.length ||
      doc1.Body.length ≠ doc2.Body.length ||
      doc1.ResponseHeader.length ≠ doc2.ResponseHeader.length ||
      doc1.ResponseBody.length ≠ doc2.ResponseBody.length then false
  else
    paramsEqual doc1.Header doc2.Header &&
    paramsEqual doc1.Query doc2.Query &&
    paramsEqual doc1.FormData doc2.FormData &&
    paramsEqual doc1.Body doc2.Body &&
    responseParamsEqual doc1.ResponseHeader doc2.ResponseHeader &&
    responseParamsEqual doc1.ResponseBody doc2.ResponseBody

/-- The map built from a list of documents: `m[getDocKey(doc)] = doc` for each
document in turn. -/
def docMap (docs : List APIDoc) : GoMap APIDoc :=
  docs.foldl (fun m doc => m.assign (getDocKey doc) doc) []

/-- The first loop of `CompareDocuments`, over one enumeration of the map of
the new documents. -/
def compareNew (oldDocMap : GoMap APIDoc) :
    GoMap APIDoc → List APIDoc × List DocumentChange → List APIDoc × List DocumentChange
  | [], acc => acc
  | (key, newDoc) :: rest, (added, changed) =>
    match oldDocMap.lookup key with
    | some oldDoc =>
      if !docsEqual oldDoc newDoc then
        compareNew oldDocMap rest (added, changed ++ [{ Old := oldDoc, New := newDoc }])
      else compareNew oldDocMap rest (added, changed)
    | none => compareNew oldDocMap rest (added ++ [newDoc], changed)

/-- The second loop of `CompareDocuments`, over one enumeration of the map of
the old documents. -/
def compareOld (newDocMap : GoMap APIDoc) : GoMap APIDoc → List APIDoc → List APIDoc
  | [], removed => removed
  | (key, oldDoc) :: rest, removed =>
    match newDocMap.lookup key with
    | some _ => compareOld newDocMap rest removed
    | none => compareOld newDocMap rest (removed ++ [oldDoc])

/-- The two loops of `CompareDocuments` on given enumerations of the two maps. -/
def compareMaps (oldDocMap newDocMap : GoMap APIDoc) : DocumentDiff :=
  let r := compareNew oldDocMap newDocMap ([], [])
  { Added := r.1, Removed := compareOld newDocMap oldDocMap [], Changed := r.2 }

/-- Go `Generator.CompareDocuments(oldDocs, newDocs)`, the maps being
enumerated in the order in which their keys were first assigned. -/
def CompareDocuments (oldDocs newDocs : List APIDoc) : DocumentDiff :=
  compareMaps (docMap oldDocs) (docMap newDocs)

/-- Go `DocumentDiff.HasChanges`. -/
def DocumentDiff.HasChanges (diff : DocumentDiff) : Bool :=
  diff.Added.length > 0 || diff.Removed.length > 0 || diff.Changed.length > 0

/-! ## Directives (`parseFuncDoc`) -/

/-- Go `strings.Fields` on character lists; `cur` is the field being read. -/
def fieldsList : List Char → List Char → List (List Char)
  | [], cur => if cur.isEmpty then [] else [cur]
  | c :: cs, cur =>
    if isSpace c then
      if cur.isEmpty then fieldsList cs [] else cur :: fieldsList cs []
    else fieldsList cs (cur ++ [c])

/-- Go `strings.Fields(s)`. -/
def fields (s : String) : List String := (fieldsList s.data []).map String.mk

/-- Go `strings.Join(parts, sep)`. -/
def joinWith (sep : String) : List String → String
  | [] => ""
  | [a] => a
  | a :: b :: rest => a ++ sep ++ joinWith sep (b :: rest)

/-- The zero value `types.APIDoc{}`. -/
def emptyDoc : APIDoc :=
  { Title := "", Catalog := "", Description := "", Method := "", Router := "", URL := "",
    Header := [], Query := [], FormData := [], Body := [], ResponseHeader := [],
    ResponseBody := [], Remark := "", FilePath := "", FunctionName := "" }

/-- The case `@param` of `parseFuncDoc`. -/
def paramDirective (apiDoc : APIDoc) (value : String) : APIDoc :=
  match fields value with
  | paramName :: paramLocation :: paramType :: paramRequired :: more =>
    let paramRemark := if more.length > 0 then joinWith " " more else ""
    let mappedType := mapGoTypeToRequestType paramType
    let param : RequestParam :=
      { Name := paramName, Typ := mappedType, Require := paramRequired, Remark := paramRemark }
    if paramLocation = "header" then { apiDoc with Header := apiDoc.Header ++ [param] }
    else if paramLocation = "query" then { apiDoc with Query := apiDoc.Query ++ [param] }
    else if paramLocation = "formData" then { apiDoc with FormData := apiDoc.FormData ++ [param] }
    else apiDoc
  | _ => apiDoc

/-- The composite branch shared by `@response` and `@response_body`: the
parameters of `parseNestedResponse` are appended when it returns without error
and with at least one parameter. -/
def appendNested (reg : Registry) (file : FileInfo) (fuel : Nat) (apiDoc : APIDoc)
    (responseValue : String) : Option APIDoc :=
  match parseNestedResponse reg file fuel responseValue with
  | none => none
  | some (.ok nestedParams) =>
    if nestedParams.length > 0 then
      some { apiDoc with ResponseBody := apiDoc.ResponseBody ++ nestedParams }
    else some apiDoc
  | some (.error _) => some apiDoc

/-- The case `@response` of `parseFuncDoc`. -/
def responseDirective (reg : Registry) (file : FileInfo) (fuel : Nat) (apiDoc : APIDoc)
    (value : String) : Option APIDoc :=
  match fields value with
  | paramName :: paramLocation :: paramType :: more =>
    let paramRemark := if more.length > 0 then joinWith " " more else ""
    let mappedType := mapGoTypeToResponseType paramType
    let param : ResponseParam :=
      { Name := paramName, Typ := mappedType, Required := false, Remark := paramRemark }
    if paramLocation = "header" then
      some { apiDoc with ResponseHeader := apiDoc.ResponseHeader ++ [param] }
    else if paramLocation = "body" then
      some { apiDoc with ResponseBody := apiDoc.ResponseBody ++ [param] }
    else some apiDoc
  | _ =>
    let responseValue := value
    if containsStr responseValue "\x7b" && hasSuffix responseValue "\x7d" then
      appendNested reg file fuel apiDoc responseValue
    else if (reg.lookup responseValue).isSome then
      (deepParseStruct reg fuel responseValue "").map fun nestedParams =>
        { apiDoc with ResponseBody := apiDoc.ResponseBody ++ nestedParams }
    else some apiDoc

/-- The case `@response_body` of `parseFuncDoc`. -/
def responseBodyDirective (reg : Registry) (file : FileInfo) (fuel : Nat) (apiDoc : APIDoc)
    (value : String) : Option APIDoc :=
  let responseValue := value
  if containsStr responseValue "\x7b" && hasSuffix responseValue "\x7d" then
    appendNested reg file fuel apiDoc responseValue
  else
    let structKey := resolveOrRaw reg file responseValue
    if (reg.lookup structKey).isSome then
      (deepParseStruct reg fuel structKey "").map fun nestedParams =>
        { apiDoc with ResponseBody := apiDoc.ResponseBody ++ nestedParams }
    else some apiDoc

/-- The request parameter that `@body` makes of a flattened leaf. -/
def bodyParam (field : ResponseParam) : RequestParam :=
  let requireStr := if field.Required then "true" else "false"
  { Name := field.Name, Typ := mapGoTypeToRequestType field.Typ, Require := requireStr,
    Remark := field.Remark }

/-- The case `@body` of `parseFuncDoc`. -/
def bodyDirective (reg : Registry) (file : FileInfo) (fuel : Nat) (apiDoc : APIDoc)
    (value : String) : Option APIDoc :=
  let bodyType := value
  let structKey := resolveOrRaw reg file bodyType
  if (reg.lookup structKey).isSome then
    (deepParseStruct reg fuel structKey "").map fun nestedParams =>
      { apiDoc with Body := apiDoc.Body ++ nestedParams.map bodyParam }
  else some apiDoc

/-- The `switch key` of `parseFuncDoc`. -/
def dispatchDirective (reg : Registry) (file : FileInfo) (fuel : Nat) (apiDoc : APIDoc)
    (key value : String) : Option APIDoc :=
  if key = "@catalog" then some { apiDoc with Catalog := value }
  else if key = "@title" then some { apiDoc with Title := value }
  else if key = "@description" then some { apiDoc with Description := value }
  else if key = "@method" then some { apiDoc with Method := value }
  else if key = "@router" then some { apiDoc with Router := value }
  else if key = "@url" then some { apiDoc with URL := value }
  else if key = "@param" then some (paramDirective apiDoc value)
  else if key = "@response" then responseDirective reg file fuel apiDoc value
  else if key = "@response_body" then responseBodyDirective reg file fuel apiDoc value
  else if key = "@body" then bodyDirective reg file fuel apiDoc value
  else some apiDoc

/-- The body of the loop of `parseFuncDoc` over the comments of a doc block:
`commentText` is `comment.Text`. -/
def parseDirective (reg : Registry) (file : FileInfo) (fuel : Nat) (apiDoc : APIDoc)
    (commentText : String) : Option APIDoc :=
  let text := trimSpace (trimPrefix commentText "//")
  if text = "runapi" then some apiDoc
  else if hasPrefix text "@remark" then
    some { apiDoc with Remark := trimSpace (trimPrefix text "@remark") }
  else
    match cutList ' ' text.data with
    | none => some apiDoc
    | some (keyChars, rest) =>
      let key : String := ⟨keyChars⟩
      let value := trimSpace ⟨' ' :: rest⟩
      if value = "" then some apiDoc
      else dispatchDirective reg file fuel apiDoc key value

/-- The loop of `parseFuncDoc`. -/
def parseDirectives (reg : Registry) (file : FileInfo) (fuel : Nat) :
    APIDoc → List String → Option APIDoc
  | apiDoc, [] => some apiDoc
  | apiDoc, commentText :: rest =>
    match parseDirective reg file fuel apiDoc commentText with
    | some apiDoc1 => parseDirectives reg file fuel apiDoc1 rest
    | none => none

/-- Go `Parser.parseFuncDoc(doc, filePath)` on the texts of the comments of
the doc block; `fuel` bounds the calls of `deepParseStruct`, and the result is
`none` when it runs out.  The Go function never returns an error. -/
def parseFuncDoc (reg : Registry) (file : FileInfo) (fuel : Nat) (doc : List String) :
    Option APIDoc :=
  parseDirectives reg file fuel emptyDoc doc

/-! ## Functions of a file (`parseFile`) -/

/-- A function declaration as `parseFile` reads it: its name and the texts of
the comments of its doc block (`none` when it has no doc block). -/
structure FuncDecl where
  Name : String
  Doc : Option (List String)
  deriving DecidableEq, Repr

/-- The marker loop of `parseFile`: some comment of the doc block, blanks
around it removed, is `// runapi`. -/
def hasRunAPI : List String → Bool
  | [] => false
  | commentText :: rest =>
    if trimSpace commentText = "// runapi" then true else hasRunAPI rest

/-- The visit of one function declaration in `parseFile`: `apiDocs` are the
descriptors collected so far. -/
def parseFunc (reg : Registry) (file : FileInfo) (fuel : Nat) (filePath : String)
    (apiDocs : List APIDoc) (funcDecl : FuncDecl) : Option (List APIDoc) :=
  match funcDecl.Doc with
  | none => some apiDocs
  | some doc =>
    if !hasRunAPI doc then some apiDocs
    else
      (parseFuncDoc reg file fuel doc).map fun apiDoc =>
        apiDocs ++ [{ apiDoc with FilePath := filePath, FunctionName := funcDecl.Name }]

/-- Go `Parser.parseFile(filePath)` on the function declarations of the file,
in the order of the visit; `none` when `fuel` runs out. -/
def parseFile (reg : Registry) (file : FileInfo) (fuel : Nat) (filePath : String) :
    List APIDoc → List FuncDecl → Option (List APIDoc)
  | apiDocs, [] => some apiDocs
  | apiDocs, funcDecl :: rest =>
    match parseFunc reg file fuel filePath apiDocs funcDecl with
    | some apiDocs1 => parseFile reg file fuel filePath apiDocs1 rest
    | none => none

/-! ## Validation (`validateAPIDoc`, `GenerateJSON`) -/

/-- Go `Parser.validateAPIDoc`: the message of the error, `none` for `nil`. -/
def validateAPIDoc (doc : APIDoc) : Option String :=
  let location := "文件: " ++ doc.FilePath ++ ", 函数: " ++ doc.FunctionName
  if doc.Title = "" then
    some (location ++ " - title字段是必填的\n修复建议: 在函数注释中添加 @title 接口标题")
  else if doc.Method = "" then
    some (location ++
      " - method字段是必填的\n修复建议: 在函数注释中添加 @method get|post|put|delete等HTTP方法")
  else if doc.Router = "" ∧ doc.URL = "" then
    some (location ++
      " - router或url字段至少需要一个\n修复建议: 在函数注释中添加 @router /api/path 或 @url /api/path")
  else none

/-- Go `Parser.GenerateJSON`: the string and the message of the error (`none`
for `nil`).  `marshalIndent` stands for `json.MarshalIndent(apiDocs, "", "\t")`
of the standard library. -/
def GenerateJSON (marshalIndent : List APIDoc → Except String String)
    (apiDocs : List APIDoc) : String × Option String :=
  let validationErrors := apiDocs.filterMap validateAPIDoc
  if validationErrors.length > 0 then
    ("", some "API文档校验失败，请修复上述问题后重试")
  else
    match marshalIndent apiDocs with
    | .error err => ("", some err)
    | .ok jsonData => (jsonData, none)

/-! ## ShowDoc page content (`pkg/types/showdoc.go`, `pkg/types/mapper.go`) -/

/-- Go `json.RawMessage`, a slice of bytes. -/
abbrev RawMessage := List Nat

/-- Go `types.Param`. -/
structure Param where
  Name : String
  Value : String
  Typ : String
  Require : String
  Remark : String
  deriving DecidableEq, Repr

/-- Go `types.ResponseParamDesc`. -/
structure ResponseParamDesc where
  Name : String
  Typ : String
  Remark : String
  deriving DecidableEq, Repr

/-- Go `types.Info`. -/
structure Info where
  Title : String
  Description : String
  Method : String
  URL : String
  deriving DecidableEq, Repr

/-- Go `types.Params`. -/
structure Params where
  Mode : String
  URLEncoded : List Param
  FormData : List Param
  JSONDesc : List Param
  deriving DecidableEq, Repr

/-- Go `types.Request`. -/
structure Request where
  Params : Params
  Headers : List Param
  Query : List Param
  deriving DecidableEq, Repr

/-- Go `types.Response`. -/
structure Response where
  ResponseParamsDesc : List ResponseParamDesc
  Remark : String
  deriving DecidableEq, Repr

/-- Go `types.PageContent`. -/
structure PageContent where
  PageTitle : String
  Info : Info
  Request : Request
  Response : Response
  deriving DecidableEq, Repr

/-- Go `types.InfoFull`. -/
structure InfoFull where
  From : String
  Typ : String
  Title : String
  Description : String
  Method : String
  URL : String
  Remark : String
  APIStatus : String
  deriving DecidableEq, Repr

/-- Go `types.ParamsFull`. -/
structure ParamsFull where
  Mode : String
  URLEncoded : List Param
  FormData : List Param
  JSON : String
  JSONDesc : List Param
  deriving DecidableEq, Repr

/-- Go `types.Cookie`. -/
structure Cookie where
  Name : String
  Value : String
  deriving DecidableEq, Repr

/-- Go `types.Auth`. -/
structure Auth where
  Typ : String
  Disabled : String
  deriving DecidableEq, Repr

/-- Go `types.RequestFull`. -/
structure RequestFull where
  Params : ParamsFull
  Headers : List Param
  Cookies : List Cookie
  Auth : Auth
  Query : List Param
  PathVariable : List RawMessage
  deriving DecidableEq, Repr

/-- Go `types.ResponseFull`. -/
structure ResponseFull where
  ResponseText : String
  ResponseOriginal : RawMessage
  ResponseExample : String
  ResponseHeader : RawMessage
  ResponseStatus : Int
  ResponseTime : Int
  ResponseParamsDesc : List ResponseParamDesc
  ResponseFailExample : String
  ResponseFailParamsDesc : List ResponseParamDesc
  Remark : String
  ResponseSize : Int
  deriving DecidableEq, Repr

/-- Go `types.Scripts`. -/
structure Scripts where
  Pre : String
  Post : String
  deriving DecidableEq, Repr

/-- Go `types.PageContentFull`. -/
structure PageContentFull where
  PageTitle : String
  Info : InfoFull
  Request : RequestFull
  Response : ResponseFull
  Scripts : Scripts
  TestCases : List RawMessage
  Extend : RawMessage
  deriving DecidableEq, Repr

/-- Go `types.MergeWithFullContent(base, full)`: the assignments to the copy
`full`, in the order of the source. -/
def MergeWithFullContent (base : PageContent) (full : PageContentFull) : PageContentFull :=
  let full := { full with PageTitle := base.PageTitle }
  let full := { full with Info := { full.Info with Title := base.Info.Title } }
  let full := { full with Info := { full.Info with Description := base.Info.Description } }
  let full := { full with Info := { full.Info with Method := base.Info.Method } }
  let full := { full with Info := { full.Info with URL := base.Info.URL } }
  let full := { full with Request := { full.Request with
    Params := { full.Request.Params with Mode := base.Request.Params.Mode } } }
  let full := { full with Request := { full.Request with
    Params := { full.Request.Params with URLEncoded := base.Request.Params.URLEncoded } } }
  let full := { full with Request := { full.Request with
    Params := { full.Request.Params with FormData := base.Request.Params.FormData } } }
  let full := { full with Request := { full.Request with
    Params := { full.Request.Params with JSONDesc := base.Request.Params.JSONDesc } } }
  let full := { full with Request := { full.Request with Headers := base.Request.Headers } }
  let full := { full with Request := { full.Request with Query := base.Request.Query } }
  let full := { full with Response := { full.Response with
    ResponseParamsDesc := base.Response.ResponseParamsDesc } }
  let full := { full with Response := { full.Response with Remark := base.Response.Remark } }
  full

/-! ## Notions used to state the properties -/

/-- The key on which `deepParseStruct` recurses for a field whose type token,
one leading `*` removed, is `cleanType`, in a struct of package
`currentPackage`: the token itself when it is a key, else for a token with a
dot the first enumerated key ending in `"." ++ cleanType`, else for a token
without a dot the key `currentPackage ++ "." ++ cleanType` when registered. -/
def fieldTarget (reg : Registry) (currentPackage cleanType : String) : Option String :=
  if (reg.lookup cleanType).isSome then some cleanType
  else if containsStr cleanType "." then findQualifiedKey reg cleanType
  else if (reg.lookup (currentPackage ++ "." ++ cleanType)).isSome then
    some (currentPackage ++ "." ++ cleanType)
  else none

/-- The leaf of a field that is not expanded. -/
def fieldLeaf (pre : String) (field : ResponseParam) : ResponseParam :=
  { Name := pre ++ field.Name, Typ := mapGoTypeToResponseType field.Typ,
    Required := field.Required, Remark := field.Remark }

/-- The prefix under which the struct of a field is expanded: unchanged for a
field whose recorded name equals its type token, else extended by the name of
the field and a dot. -/
def fieldPrefix (pre : String) (field : ResponseParam) : String :=
  if field.Name = field.Typ then pre else pre ++ field.Name ++ "."

/-- What one field adds to the output of `deepParseStruct`, the recursive call
being `recur`. -/
def fieldPart (reg : Registry) (structInfo : StructInfo) (pre : String)
    (recur : String → String → Option (List ResponseParam)) (field : ResponseParam) :
    Option (List ResponseParam) :=
  match fieldTarget reg structInfo.Package (trimPrefix field.Typ "*") with
  | some target => recur target (fieldPrefix pre field)
  | none => some (if field.Name = field.Typ then [] else [fieldLeaf pre field])

/-- The list `part` is what `field` contributes to the flattening of its
struct under `pre`, as the code computes it: the expansion of the struct its
type names, or else nothing for a field whose recorded name equals its type
token (the test by which the code takes a field for embedded) and one leaf for
any other field. -/
def FieldContribution (reg : Registry) (structInfo : StructInfo) (pre : String)
    (field : ResponseParam) (part : List ResponseParam) : Prop :=
  match fieldTarget reg structInfo.Package (trimPrefix field.Typ "*") with
  | some target => Flattens reg target (fieldPrefix pre field) part
  | none => part = if field.Name = field.Typ then [] else [fieldLeaf pre field]

/-- The struct `a` has a field on whose type `deepParseStruct` recurses into
the struct `b`. -/
def Refers (reg : Registry) (a b : String) : Prop :=
  ∃ structInfo field, reg.lookup a = some structInfo ∧ field ∈ structInfo.Fields ∧
    fieldTarget reg structInfo.Package (trimPrefix field.Typ "*") = some b

/-- The object placeholder that an override puts in the place of a parameter
named `fieldName`; any other parameter is kept. -/
def objectIfNamed (fieldName : String) (param : ResponseParam) : ResponseParam :=
  if param.Name = fieldName then
    { Name := fieldName, Typ := "object", Required := false, Remark := param.Remark }
  else param

/-- The path test as the specification words it: the package path equals
the import path, is a suffix of it, is a prefix of it, or equals the import
path with its first path segment stripped. -/
def pathMatchSpec (packagePath importPath : String) : Bool :=
  decide (packagePath = importPath) || hasSuffix importPath packagePath ||
    hasPrefix importPath packagePath || decide (packagePath = removeModulePrefix importPath)

/-- The last document of a list that has the diff key `key`. -/
def lastWithKey : List APIDoc → String → Option APIDoc
  | [], _ => none
  | doc :: rest, key =>
    match lastWithKey rest key with
    | some later => some later
    | none => if getDocKey doc = key then some doc else none

/-- The type tags of the data model. -/
def requestTags : List String :=
  ["string", "int", "long", "float", "double", "boolean", "object", "array", "file"]

/-- The type tags that the response mapper produces. -/
def responseTags : List String :=
  ["string", "int", "long", "number", "boolean", "object", "array"]

/-- The request parameters and the response headers of a descriptor carry
type tags that a mapper produced. -/
def MappedTypes (doc : APIDoc) : Prop :=
  (∀ p ∈ doc.Header, p.Typ ∈ requestTags) ∧ (∀ p ∈ doc.Query, p.Typ ∈ requestTags) ∧
  (∀ p ∈ doc.FormData, p.Typ ∈ requestTags) ∧ (∀ p ∈ doc.Body, p.Typ ∈ requestTags) ∧
  (∀ p ∈ doc.ResponseHeader, p.Typ ∈ responseTags)

/-- The list `l2` is the list `l1` with two elements of different name
exchanged. -/
def Exchanged {α : Type} (name : α → String) (l1 l2 : List α) : Prop :=
  ∃ a b c x y, name x ≠ name y ∧ l1 = a ++ x :: (b ++ y :: c) ∧ l2 = a ++ y :: (b ++ x :: c)

/-- The document `doc2` is the document `doc1` with two parameters of
different name exchanged in one of its six parameter lists. -/
def Reordered (doc1 doc2 : APIDoc) : Prop :=
  (∃ l, Exchanged RequestParam.Name doc1.Header l ∧ doc2 = { doc1 with Header := l }) ∨
  (∃ l, Exchanged RequestParam.Name doc1.Query l ∧ doc2 = { doc1 with Query := l }) ∨
  (∃ l, Exchanged RequestParam.Name doc1.FormData l ∧ doc2 = { doc1 with FormData := l }) ∨
  (∃ l, Exchanged RequestParam.Name doc1.Body l ∧ doc2 = { doc1 with Body := l }) ∨
  (∃ l, Exchanged ResponseParam.Name doc1.ResponseHeader l ∧
    doc2 = { doc1 with ResponseHeader := l }) ∨
  (∃ l, Exchanged ResponseParam.Name doc1.ResponseBody l ∧
    doc2 = { doc1 with ResponseBody := l })

/-- The leaf `leaf` with `pre` put before its name. -/
def withPrefix (pre : String) (leaf : ResponseParam) : ResponseParam :=
  { leaf with Name := pre ++ leaf.Name }

/-- The keys of a registry that the scan builds: a package name, a dot and a
struct name, both of them Go identifiers, so every key has one dot. -/
def ScanKeys (reg : Registry) : Prop := ∀ entry ∈ reg, entry.1.data.count '.' = 1

instance (reg : Registry) : Decidable (ScanKeys reg) := by
  unfold ScanKeys; infer_instance

/-- The call of `deepParseStruct` that a reference to `structKey` starts: the
key with the prefix `pre` when the key is registered, none otherwise. -/
def keyFlattening (reg : Registry) (structKey pre : String) : List (String × String) :=
  if (reg.lookup structKey).isSome then [(structKey, pre)] else []

/-- The call of `deepParseStruct` that one override `name=Type` of a composite
token starts. -/
def overrideFlattenings (reg : Registry) (file : FileInfo) (field : String) :
    List (String × String) :=
  let field := trimSpace field
  if field = "" then []
  else
    match cutList '=' field.data with
    | none => []
    | some (left, right) =>
      keyFlattening reg (resolveOrRaw reg file (trimSpace ⟨right⟩)) (trimSpace ⟨left⟩ ++ ".")

/-- The calls of `deepParseStruct` that a composite token starts: those of its
overrides, the base being copied without a call. -/
def nestedFlattenings (reg : Registry) (file : FileInfo) (responseValue : String) :
    List (String × String) :=
  if !containsStr responseValue "\x7b" || !hasSuffix responseValue "\x7d" then []
  else
    let baseStructName := trimSpace (splitFirst responseValue '{').1
    let innerContent := trimPrefix responseValue (baseStructName ++ "\x7b")
    let innerContent := trimSuffix innerContent "\x7d"
    if innerContent = "" then []
    else ((splitChar innerContent ',').map (overrideFlattenings reg file)).flatten

/-- The calls of `deepParseStruct` that a directive with the key `key` and the
value `value` starts: only `@response` with fewer than three tokens,
`@response_body` and `@body` start any. -/
def dispatchFlattenings (reg : Registry) (file : FileInfo) (key value : String) :
    List (String × String) :=
  if key = "@response" then
    match fields value with
    | _ :: _ :: _ :: _ => []
    | _ =>
      if containsStr value "\x7b" && hasSuffix value "\x7d" then nestedFlattenings reg file value
      else keyFlattening reg value ""
  else if key = "@response_body" then
    if containsStr value "\x7b" && hasSuffix value "\x7d" then nestedFlattenings reg file value
    else keyFlattening reg (resolveOrRaw reg file value) ""
  else if key = "@body" then keyFlattening reg (resolveOrRaw reg file value) ""
  else []

/-- The flattenings that a comment line of a doc block starts: the pairs of a
key and a prefix on which the processing of the line calls `deepParseStruct`. -/
def lineFlattenings (reg : Registry) (file : FileInfo) (commentText : String) :
    List (String × String) :=
  let text := trimSpace (trimPrefix commentText "//")
  if text = "runapi" then []
  else if hasPrefix text "@remark" then []
  else
    match cutList ' ' text.data with
    | none => []
    | some (keyChars, rest) =>
      let value := trimSpace ⟨' ' :: rest⟩
      if value = "" then [] else dispatchFlattenings reg file ⟨keyChars⟩ value

/-! ## Example inputs -/

/-- The file `model/user/login.go` of the example server, without its request
type. -/
def userFile : SourceFile :=
  { PackageName := "user", RelPath := "internal/server/model/user",
    Structs := [
      { Name := "User", Fields := [
          { Names := ["Id"], Typ := .ident "int", Tag := some "\x60json:\"id\"\x60",
            Comment := some ["// 用户ID"] },
          { Names := ["Username"], Typ := .ident "string", Tag := some "\x60json:\"username\"\x60",
            Comment := some ["// 用户名"] }] },
      { Name := "LoginResponse", Fields := [
          { Names := ["User"], Typ := .ident "User", Tag := some "\x60json:\"user\"\x60",
            Comment := some ["// 用户信息"] },
          { Names := ["Token"], Typ := .ident "string", Tag := some "\x60json:\"token\"\x60",
            Comment := some ["// 登录凭证"] }] }] }

/-- The registry of the scan of `userFile`. -/
def userReg : Registry := parseStructs [userFile]

/-- The leaves of `user.LoginResponse`. -/
def loginLeaves : List ResponseParam :=
  [{ Name := "user.id", Typ := "int", Required := true, Remark := "用户ID" },
   { Name := "user.username", Typ := "string", Required := true, Remark := "用户名" },
   { Name := "token", Typ := "string", Required := true, Remark := "登录凭证" }]

/-- A package with a named field `User User` that carries no tag, and a
struct that refers to itself. -/
def pkgFile : SourceFile :=
  { PackageName := "pkg", RelPath := "pkg",
    Structs := [
      { Name := "User", Fields := [
          { Names := ["Id"], Typ := .ident "int", Tag := none, Comment := none }] },
      { Name := "Profile", Fields := [
          { Names := ["User"], Typ := .ident "User", Tag := none, Comment := none }] },
      { Name := "Node", Fields := [
          { Names := ["next"], Typ := .star (.ident "Node"), Tag := none, Comment := none }] }] }

/-- The registry of the scan of `pkgFile`. -/
def pkgReg : Registry := parseStructs [pkgFile]

/-- A package with a response envelope, a payload, a struct with a 64-bit
counter, and an envelope in which two fields carry the json name `data`. -/
def apiFile : SourceFile :=
  { PackageName := "api", RelPath := "api",
    Structs := [
      { Name := "Response", Fields := [
          { Names := ["Code"], Typ := .ident "int", Tag := some "\x60json:\"code\"\x60",
            Comment := some ["// 状态码"] },
          { Names := ["Msg"], Typ := .ident "string", Tag := some "\x60json:\"msg\"\x60",
            Comment := some ["// 提示信息"] },
          { Names := ["Data"], Typ := .ident "any", Tag := some "\x60json:\"data\"\x60",
            Comment := some ["//  数据"] }] },
      { Name := "UserInfo", Fields := [
          { Names := ["Id"], Typ := .ident "int", Tag := some "\x60json:\"id\"\x60",
            Comment := none },
          { Names := ["Name"], Typ := .ident "string", Tag := some "\x60json:\"name\"\x60",
            Comment := none }] },
      { Name := "Stats", Fields := [
          { Names := ["Total"], Typ := .ident "int64", Tag := some "\x60json:\"total\"\x60",
            Comment := none }] },
      { Name := "Envelope", Fields := [
          { Names := ["Data"], Typ := .ident "any", Tag := some "\x60json:\"data\"\x60",
            Comment := none },
          { Names := ["Legacy"], Typ := .ident "string", Tag := some "\x60json:\"data\"\x60",
            Comment := none }] }] }

/-- The registry of the scan of `apiFile`. -/
def apiReg : Registry := parseStructs [apiFile]

/-- A file of package `api` without imports. -/
def apiCaller : FileInfo := { Package := some "api", Imports := some [] }

/-- Three declarations named `User` under package paths of different lengths. -/
def resolverReg : Registry :=
  [("v1.User", { Name := "User", Package := "v1", PackagePath := "model/user", Fields := [] }),
   ("user.User", { Name := "User", Package := "user",
                   PackagePath := "internal/server/model/user", Fields := [] }),
   ("v2.User", { Name := "User", Package := "v2", PackagePath := "server/model/user",
                 Fields := [] })]

/-- A file that imports the package of `user.User` under the aliases `user`
and `u`. -/
def resolverFile : FileInfo :=
  { Package := some "main",
    Imports := some [("user", "example/internal/server/model/user"),
                     ("u", "example/internal/server/model/user")] }

/-- A document with a title, a method and a route, and nothing else. -/
def docOf (title method router : String) : APIDoc :=
  { Title := title, Catalog := "", Description := "", Method := method, Router := router,
    URL := "", Header := [], Query := [], FormData := [], Body := [], ResponseHeader := [],
    ResponseBody := [], Remark := "", FilePath := "", FunctionName := "" }

/-- A document with two query parameters. -/
def queryDoc : APIDoc :=
  { docOf "A" "get" "/a" with
    Query := [{ Name := "page", Typ := "int", Require := "true", Remark := "" },
              { Name := "size", Typ := "int", Require := "true", Remark := "" }] }

/-- The document `queryDoc` with its two query parameters exchanged. -/
def queryDocSwapped : APIDoc :=
  { docOf "A" "get" "/a" with
    Query := [{ Name := "size", Typ := "int", Require := "true", Remark := "" },
              { Name := "page", Typ := "int", Require := "true", Remark := "" }] }

/-- A document whose response body has one required parameter. -/
def requiredDoc : APIDoc :=
  { docOf "A" "get" "/a" with
    ResponseBody := [{ Name := "id", Typ := "int", Required := true, Remark := "" }] }

/-- The document `requiredDoc` after the parameter has become optional. -/
def optionalDoc : APIDoc :=
  { docOf "A" "get" "/a" with
    ResponseBody := [{ Name := "id", Typ := "int", Required := false, Remark := "" }] }

/-- A struct with fields of the types that the two mappers treat differently. -/
def metricsFile : SourceFile :=
  { PackageName := "api", RelPath := "api",
    Structs := [
      { Name := "Metrics", Fields := [
          { Names := ["Count"], Typ := .ident "int64", Tag := some "\x60json:\"count\"\x60",
            Comment := some ["// 总数"] },
          { Names := ["Ok"], Typ := .ident "bool", Tag := some "\x60json:\"ok\"\x60",
            Comment := none },
          { Names := ["Ratio"], Typ := .ident "float32", Tag := some "\x60json:\"ratio\"\x60",
            Comment := none },
          { Names := ["Score"], Typ := .ident "float64", Tag := some "\x60json:\"score\"\x60",
            Comment := none },
          { Names := ["Tags"], Typ := .array (.ident "string"),
            Tag := some "\x60json:\"tags\"\x60", Comment := none },
          { Names := ["Label"], Typ := .ident "string",
            Tag := some "\x60json:\"label,omitempty\"\x60", Comment := none }] }] }

/-- The registry of the scan of `metricsFile`. -/
def metricsReg : Registry := parseStructs [metricsFile]

/-- The leaves of `api.Metrics`. -/
def metricsLeaves : List ResponseParam :=
  [{ Name := "count", Typ := "long", Required := true, Remark := "总数" },
   { Name := "ok", Typ := "boolean", Required := true, Remark := "" },
   { Name := "ratio", Typ := "number", Required := true, Remark := "" },
   { Name := "score", Typ := "number", Required := true, Remark := "" },
   { Name := "tags", Typ := "array", Required := true, Remark := "" },
   { Name := "label", Typ := "string", Required := false, Remark := "" }]

/-- A file of package `pkg` without imports. -/
def pkgCaller : FileInfo := { Package := some "pkg", Imports := some [] }

/-- A struct with a field excluded from serialization, a field whose tag has
an empty name part, a field without tag and a field whose tag has no json
key. -/
def accountFile : SourceFile :=
  { PackageName := "acct", RelPath := "acct",
    Structs := [
      { Name := "Account", Fields := [
          { Names := ["Password"], Typ := .ident "string", Tag := some "\x60json:\"-\"\x60",
            Comment := none },
          { Names := ["Nick"], Typ := .ident "string",
            Tag := some "\x60json:\",omitempty\"\x60", Comment := none },
          { Names := ["Age"], Typ := .ident "int", Tag := none, Comment := none },
          { Names := ["Email"], Typ := .ident "string", Tag := some "\x60db:\"email\"\x60",
            Comment := none }] }] }

/-- The registry of the scan of `accountFile`. -/
def accountReg : Registry := parseStructs [accountFile]

/-- The fields recorded for `acct.Account`, which are also its leaves. -/
def accountLeaves : List ResponseParam :=
  [{ Name := "Password", Typ := "string", Required := false, Remark := "" },
   { Name := "", Typ := "string", Required := false, Remark := "" },
   { Name := "Age", Typ := "int", Required := false, Remark := "" },
   { Name := "Email", Typ := "string", Required := false, Remark := "" }]

/-- A struct with a named field `Status Status` without tag, whose type is not
a struct, and a field `Title string`. -/
def taskFile : SourceFile :=
  { PackageName := "task", RelPath := "task",
    Structs := [
      { Name := "Task", Fields := [
          { Names := ["Status"], Typ := .ident "Status", Tag := none, Comment := none },
          { Names := ["Title"], Typ := .ident "string", Tag := none, Comment := none }] }] }

/-- The registry of the scan of `taskFile`. -/
def taskReg : Registry := parseStructs [taskFile]

/-- A declaration `User` of package `model` in the directory `model`. -/
def versionedReg : Registry :=
  [("model.User", { Name := "User", Package := "model", PackagePath := "model", Fields := [] })]

/-- A file that imports `model/v2` under the alias `model`. -/
def versionedFile : FileInfo :=
  { Package := some "main", Imports := some [("model", "model/v2")] }

/-- Two declarations named `User`: one in the directory `user`, one in the
directory `x/model/user`. -/
def nestedPathReg : Registry :=
  [("pa.User", { Name := "User", Package := "pa", PackagePath := "user", Fields := [] }),
   ("pb.User", { Name := "User", Package := "pb", PackagePath := "x/model/user", Fields := [] })]

/-- A file that imports `model/user` under the alias `u`. -/
def nestedPathFile : FileInfo :=
  { Package := some "main", Imports := some [("u", "model/user")] }

/-- A declaration `User` of package `api` in the directory `api`. -/
def prefixReg : Registry :=
  [("api.User", { Name := "User", Package := "api", PackagePath := "api", Fields := [] })]

/-- A file that imports `api/v1` under the alias `v1`. -/
def prefixFile : FileInfo :=
  { Package := some "main", Imports := some [("v1", "api/v1")] }

/-- A declaration `User` of package `userx` in the directory `x/model/user`. -/
def suffixReg : Registry :=
  [("userx.User", { Name := "User", Package := "userx", PackagePath := "x/model/user",
                    Fields := [] })]

/-! ## Lists of characters -/

theorem isPrefixOf_append_self (a b : List Char) : a.isPrefixOf (a ++ b) = true := by
  induction a with
  | nil => simp [List.isPrefixOf]
  | cons x xs ih => simp [List.isPrefixOf, ih]

theorem hasPrefix_append (a b : String) : hasPrefix (a ++ b) a = true := by
  simp [hasPrefix, isPrefixOf_append_self]

theorem hasPrefix_iff (s pre : String) : hasPrefix s pre = true ↔ ∃ t : String, s = pre ++ t := by
  unfold hasPrefix
  rw [List.isPrefixOf_iff_prefix]
  constructor
  · rintro ⟨t, ht⟩
    exact ⟨⟨t⟩, String.ext (by simp [ht])⟩
  · rintro ⟨t, rfl⟩
    exact ⟨t.data, by simp⟩

theorem hasPrefix_trans {s a b : String} (h1 : hasPrefix s a = true) (h2 : hasPrefix a b = true) :
    hasPrefix s b = true := by
  rw [hasPrefix_iff] at *
  obtain ⟨t, rfl⟩ := h1
  obtain ⟨u, rfl⟩ := h2
  exact ⟨u ++ t, by simp [String.append_assoc]⟩

/-! ## Flattening: the recursion equation -/

theorem deepParseField_eq (reg : Registry) (structInfo : StructInfo) (pre : String)
    (recur : String → String → Option (List ResponseParam))
    (params : List ResponseParam) (field : ResponseParam) :
    deepParseField reg structInfo pre recur params field =
      (fieldPart reg structInfo pre recur field).map (params ++ ·) := by
  unfold deepParseField fieldPart fieldTarget fieldPrefix
  by_cases hemb : field.Name = field.Typ
  · by_cases h1 : (reg.lookup (trimPrefix field.Typ "*")).isSome = true
    · simp [hemb, h1]
    · by_cases h2 : containsStr (trimPrefix field.Typ "*") "." = true
      · cases h3 : findQualifiedKey reg (trimPrefix field.Typ "*") <;> simp [hemb, h1, h2, h3]
      · by_cases h4 : (reg.lookup (structInfo.Package ++ "." ++ trimPrefix field.Typ "*")).isSome = true
          <;> simp [hemb, h1, h2, h4]
  · by_cases h1 : (reg.lookup (trimPrefix field.Typ "*")).isSome = true
    · simp [hemb, h1]
    · by_cases h2 : containsStr (trimPrefix field.Typ "*") "." = true
      · cases h3 : findQualifiedKey reg (trimPrefix field.Typ "*") <;>
          simp [hemb, h1, h2, h3, fieldLeaf]
      · by_cases h4 : (reg.lookup (structInfo.Package ++ "." ++ trimPrefix field.Typ "*")).isSome = true
          <;> simp [hemb, h1, h2, h4, fieldLeaf]

theorem deepParseFields_eq_some (reg : Registry) (structInfo : StructInfo) (pre : String)
    (recur : String → String → Option (List ResponseParam)) (fields : List ResponseParam) :
    ∀ (params out : List ResponseParam),
      deepParseFields reg structInfo pre recur params fields = some out ↔
        ∃ parts, List.Forall₂ (fun field part => fieldPart reg structInfo pre recur field = some part)
          fields parts ∧ out = params ++ parts.flatten := by
  induction fields with
  | nil =>
    intro params out
    simp [deepParseFields, eq_comm]
  | cons field rest ih =>
    intro params out
    rw [deepParseFields, deepParseField_eq]
    cases hpart : fieldPart reg structInfo pre recur field with
    | none =>
      simp only [Option.map_none']
      constructor
      · intro h; cases h
      · rintro ⟨parts, hparts, -⟩
        cases hparts with
        | cons h _ => rw [hpart] at h; cases h
    | some part =>
      simp only [Option.map_some', ih]
      constructor
      · rintro ⟨parts, hparts, rfl⟩
        exact ⟨part :: parts, List.Forall₂.cons hpart hparts, by simp⟩
      · rintro ⟨parts, hparts, rfl⟩
        cases hparts with
        | cons h hrest =>
          rw [hpart] at h
          cases h
          exact ⟨_, hrest, by simp⟩

theorem fieldPart_mono (reg : Registry) (structInfo : StructInfo) (pre : String)
    (r1 r2 : String → String → Option (List ResponseParam))
    (hr : ∀ a b out, r1 a b = some out → r2 a b = some out)
    (field : ResponseParam) (part : List ResponseParam)
    (h : fieldPart reg structInfo pre r1 field = some part) :
    fieldPart reg structInfo pre r2 field = some part := by
  unfold fieldPart at *
  cases htarget : fieldTarget reg structInfo.Package (trimPrefix field.Typ "*") with
  | none => rw [htarget] at h; exact h
  | some target => rw [htarget] at h; exact hr _ _ _ h

theorem deepParseStruct_succ (reg : Registry) :
    ∀ (fuel : Nat) (structName pre : String) (out : List ResponseParam),
      deepParseStruct reg fuel structName pre = some out →
      deepParseStruct reg (fuel + 1) structName pre = some out := by
  intro fuel
  induction fuel with
  | zero => intro structName pre out h; simp [deepParseStruct] at h
  | succ n ih =>
    intro structName pre out h
    rw [deepParseStruct] at h ⊢
    cases hlook : reg.lookup structName with
    | none => rw [hlook] at h; exact h
    | some structInfo =>
      rw [hlook] at h
      simp only [] at h ⊢
      rw [deepParseFields_eq_some] at h ⊢
      obtain ⟨parts, hparts, hout⟩ := h
      refine ⟨parts, ?_, hout⟩
      exact hparts.imp (fun field part hp =>
        fieldPart_mono reg structInfo pre _ _ (ih) field part hp)

theorem deepParseStruct_mono (reg : Registry) (structName pre : String)
    (out : List ResponseParam) (n m : Nat) (hnm : n ≤ m)
    (h : deepParseStruct reg n structName pre = some out) :
    deepParseStruct reg m structName pre = some out := by
  induction hnm with
  | refl => exact h
  | step _ ih => exact deepParseStruct_succ reg _ _ _ _ ih

/-- Two runs that return agree: the result does not depend on the fuel. -/
theorem Flattens.unique {reg : Registry} {structName pre : String}
    {out1 out2 : List ResponseParam} (h1 : Flattens reg structName pre out1)
    (h2 : Flattens reg structName pre out2) : out1 = out2 := by
  obtain ⟨n, hn⟩ := h1
  obtain ⟨m, hm⟩ := h2
  have a := deepParseStruct_mono reg structName pre out1 n (max n m) (le_max_left _ _) hn
  have b := deepParseStruct_mono reg structName pre out2 m (max n m) (le_max_right _ _) hm
  rw [a] at b
  exact Option.some.inj b

theorem contributions_bounded (reg : Registry) (structInfo : StructInfo) (pre : String)
    (fields : List ResponseParam) (parts : List (List ResponseParam))
    (h : List.Forall₂ (FieldContribution reg structInfo pre) fields parts) :
    ∃ fuel, List.Forall₂
      (fun field part => fieldPart reg structInfo pre (deepParseStruct reg fuel) field = some part)
      fields parts := by
  induction h with
  | nil => exact ⟨0, List.Forall₂.nil⟩
  | @cons field part rest parts hfield _ ih =>
    obtain ⟨n, hn⟩ := ih
    have hhead : ∃ m, fieldPart reg structInfo pre (deepParseStruct reg m) field = some part := by
      unfold FieldContribution at hfield
      unfold fieldPart
      cases htarget : fieldTarget reg structInfo.Package (trimPrefix field.Typ "*") with
      | none => rw [htarget] at hfield; exact ⟨0, by simp [hfield]⟩
      | some target => rw [htarget] at hfield; exact hfield
    obtain ⟨m, hm⟩ := hhead
    refine ⟨max n m, List.Forall₂.cons ?_ ?_⟩
    · exact fieldPart_mono reg structInfo pre _ _
        (fun a b out h => deepParseStruct_mono reg a b out m _ (le_max_right _ _) h) field part hm
    · exact hn.imp (fun f q hq => fieldPart_mono reg structInfo pre _ _
        (fun a b out h => deepParseStruct_mono reg a b out n _ (le_max_left _ _) h) f q hq)

theorem fieldPart_contribution (reg : Registry) (structInfo : StructInfo) (pre : String)
    (fuel : Nat) (field : ResponseParam) (part : List ResponseParam)
    (h : fieldPart reg structInfo pre (deepParseStruct reg fuel) field = some part) :
    FieldContribution reg structInfo pre field part := by
  unfold fieldPart at h
  unfold FieldContribution
  cases htarget : fieldTarget reg structInfo.Package (trimPrefix field.Typ "*") with
  | none => rw [htarget] at h; simpa [eq_comm] using h
  | some target => rw [htarget] at h; exact ⟨fuel, h⟩

/-- The recursion of the code, at the level of the registry: for a registered
key `structName` with declaration `structInfo`, the expansion under `pre`
returns `out` exactly when `out` is the concatenation, over the fields in
declaration order, of their contributions: for a field whose type token (one
leading `*` removed) names a registered struct, the expansion of that struct
under `pre` when the recorded name equals the type token, else under
`pre ++ name ++ "."`; otherwise nothing when the recorded name equals the type
token and else the one leaf `pre ++ name` with the response-mapped type, the
required flag and the remark of the field.  A field is taken for embedded by
its recorded name, not by its declaration. -/
theorem deepParseStruct_concat (reg : Registry) (structName pre : String)
    (structInfo : StructInfo) (out : List ResponseParam)
    (hreg : reg.lookup structName = some structInfo) :
    Flattens reg structName pre out ↔
      ∃ parts, List.Forall₂ (FieldContribution reg structInfo pre) structInfo.Fields parts ∧
        out = parts.flatten := by
  constructor
  · rintro ⟨fuel, hfuel⟩
    cases fuel with
    | zero => simp [deepParseStruct] at hfuel
    | succ n =>
      rw [deepParseStruct, hreg] at hfuel
      simp only [] at hfuel
      rw [deepParseFields_eq_some] at hfuel
      obtain ⟨parts, hparts, hout⟩ := hfuel
      exact ⟨parts, hparts.imp (fun f q hq => fieldPart_contribution reg structInfo pre n f q hq),
        by simpa using hout⟩
  · rintro ⟨parts, hparts, rfl⟩
    obtain ⟨n, hn⟩ := contributions_bounded reg structInfo pre _ _ hparts
    refine ⟨n + 1, ?_⟩
    rw [deepParseStruct, hreg]
    simp only []
    rw [deepParseFields_eq_some]
    exact ⟨parts, hn, by simp⟩

/-- Scenario 1 of the specification, on the registry scanned from the example
file: the expansion of `user.LoginResponse` under the empty prefix returns the
three leaves `user.id`, `user.username`, `token` and splits into the
contributions of the two fields. -/
theorem deepParseStruct_concat_witness :
    deepParseStruct userReg 2 "user.LoginResponse" "" = some loginLeaves ∧
    ∃ parts, List.Forall₂ (FieldContribution userReg
        { Name := "LoginResponse", Package := "user", PackagePath := "internal/server/model/user",
          Fields := [{ Name := "user", Typ := "User", Required := true, Remark := "用户信息" },
                     { Name := "token", Typ := "string", Required := true, Remark := "登录凭证" }] } "")
        [{ Name := "user", Typ := "User", Required := true, Remark := "用户信息" },
         { Name := "token", Typ := "string", Required := true, Remark := "登录凭证" }] parts ∧
      loginLeaves = parts.flatten :=
  ⟨by decide,
   (deepParseStruct_concat userReg "user.LoginResponse" "" _ loginLeaves (by decide)).mp
     ⟨2, by decide⟩⟩

/-! ## Flattening: names of the leaves -/

theorem forall₂_of_mem_left {α β : Type} {R : α → β → Prop} {l1 : List α} {l2 : List β}
    (h : List.Forall₂ R l1 l2) {a : α} (ha : a ∈ l1) : ∃ b, b ∈ l2 ∧ R a b := by
  induction h with
  | nil => cases ha
  | cons hab _ ih =>
    rcases List.mem_cons.mp ha with rfl | hmem
    · exact ⟨_, List.mem_cons_self _ _, hab⟩
    · obtain ⟨b, hb, hr⟩ := ih hmem
      exact ⟨b, List.mem_cons_of_mem _ hb, hr⟩

theorem forall₂_of_mem_right {α β : Type} {R : α → β → Prop} {l1 : List α} {l2 : List β}
    (h : List.Forall₂ R l1 l2) {b : β} (hb : b ∈ l2) : ∃ a, a ∈ l1 ∧ R a b := by
  induction h with
  | nil => cases hb
  | cons hab _ ih =>
    rcases List.mem_cons.mp hb with rfl | hmem
    · exact ⟨_, List.mem_cons_self _ _, hab⟩
    · obtain ⟨a, ha, hr⟩ := ih hmem
      exact ⟨a, List.mem_cons_of_mem _ ha, hr⟩

theorem hasPrefix_fieldPrefix (pre : String) (field : ResponseParam) :
    hasPrefix (fieldPrefix pre field) pre = true := by
  unfold fieldPrefix
  split
  · simpa using hasPrefix_append pre ""
  · rw [String.append_assoc]; exact hasPrefix_append _ _

/-- Every leaf of an expansion under `pre` has a name that begins with `pre`. -/
theorem deepParseStruct_names (reg : Registry) :
    ∀ (fuel : Nat) (structName pre : String) (out : List ResponseParam),
      deepParseStruct reg fuel structName pre = some out →
      ∀ leaf ∈ out, hasPrefix leaf.Name pre = true := by
  intro fuel
  induction fuel with
  | zero => intro structName pre out h; simp [deepParseStruct] at h
  | succ n ih =>
    intro structName pre out h leaf hleaf
    rw [deepParseStruct] at h
    cases hlook : reg.lookup structName with
    | none => rw [hlook] at h; cases h; cases hleaf
    | some structInfo =>
      rw [hlook] at h
      simp only [] at h
      rw [deepParseFields_eq_some] at h
      obtain ⟨parts, hparts, rfl⟩ := h
      simp only [List.nil_append, List.mem_flatten] at hleaf
      obtain ⟨part, hpart, hmem⟩ := hleaf
      obtain ⟨field, -, hfield⟩ := forall₂_of_mem_right hparts hpart
      unfold fieldPart at hfield
      cases htarget : fieldTarget reg structInfo.Package (trimPrefix field.Typ "*") with
      | some target =>
        rw [htarget] at hfield
        exact hasPrefix_trans (ih _ _ _ hfield leaf hmem) (hasPrefix_fieldPrefix pre field)
      | none =>
        rw [htarget] at hfield
        simp only [Option.some.injEq] at hfield
        subst hfield
        split at hmem
        · cases hmem
        · simp only [List.mem_singleton] at hmem
          subst hmem
          exact hasPrefix_append _ _

/-- The part of C2 that the code keeps: a field whose recorded name differs
from its type token and whose type names a registered struct contributes only
leaves whose names begin with `pre ++ name ++ "."`. -/
theorem named_field_segment (reg : Registry) (structInfo : StructInfo) (pre : String)
    (field : ResponseParam) (part : List ResponseParam) (target : String)
    (hname : field.Name ≠ field.Typ)
    (htarget : fieldTarget reg structInfo.Package (trimPrefix field.Typ "*") = some target)
    (h : FieldContribution reg structInfo pre field part) :
    ∀ leaf ∈ part, hasPrefix leaf.Name (pre ++ field.Name ++ ".") = true := by
  unfold FieldContribution at h
  rw [htarget] at h
  obtain ⟨fuel, hfuel⟩ := h
  have := deepParseStruct_names reg fuel target _ part hfuel
  simpa [fieldPrefix, hname] using this

/-- C2: a named field `User User` without a tag is recorded with name and type
token both `User`; the flattening of `pkg.Profile` under the empty prefix then
takes it for an embedded field and returns the leaf `Id`, whose name does not
begin with `User.`. -/
theorem named_field_taken_for_embedded :
    fieldParams { Names := ["User"], Typ := .ident "User", Tag := none, Comment := none } =
      [{ Name := "User", Typ := "User", Required := false, Remark := "" }] ∧
    deepParseStruct pkgReg 2 "pkg.Profile" "" =
      some [{ Name := "Id", Typ := "int", Required := false, Remark := "" }] ∧
    hasPrefix "Id" "User." = false := by
  decide

/-! ## Flattening: reference cycles -/

theorem deepParseStruct_none_of_closed (reg : Registry) (X : String → Prop)
    (hX : ∀ a, X a → ∃ b, Refers reg a b ∧ X b) :
    ∀ (fuel : Nat) (a pre : String), X a → deepParseStruct reg fuel a pre = none := by
  intro fuel
  induction fuel with
  | zero => intro a pre _; rfl
  | succ n ih =>
    intro a pre ha
    obtain ⟨b, ⟨structInfo, field, hlook, hmem, htarget⟩, hb⟩ := hX a ha
    cases h : deepParseStruct reg (n + 1) a pre with
    | none => rfl
    | some out =>
      exfalso
      rw [deepParseStruct, hlook] at h
      simp only [] at h
      rw [deepParseFields_eq_some] at h
      obtain ⟨parts, hparts, -⟩ := h
      obtain ⟨part, -, hpart⟩ := forall₂_of_mem_left hparts hmem
      unfold fieldPart at hpart
      rw [htarget] at hpart
      simp only [] at hpart
      rw [ih b _ hb] at hpart
      cases hpart

theorem refers_node : Refers pkgReg "pkg.Node" "pkg.Node" :=
  ⟨{ Name := "Node", Package := "pkg", PackagePath := "pkg",
     Fields := [{ Name := "next", Typ := "*Node", Required := false, Remark := "" }] },
   { Name := "next", Typ := "*Node", Required := false, Remark := "" },
   by decide, by decide, by decide⟩

/-- C3, as the code has it: there is no visited set.  When the expansion of
`structName` can reach a struct `cyc` that refers back to itself through one
or more fields, `deepParseStruct` returns for no bound on its depth and no
prefix: the branch does not end in an `object` leaf, the expansion does not
terminate. -/
theorem deepParseStruct_cycle_diverges (reg : Registry) (structName cyc : String)
    (hreach : Relation.ReflTransGen (Refers reg) structName cyc)
    (hcycle : Relation.TransGen (Refers reg) cyc cyc) :
    ∀ (fuel : Nat) (pre : String), deepParseStruct reg fuel structName pre = none := by
  intro fuel pre
  refine deepParseStruct_none_of_closed reg
    (fun a => Relation.ReflTransGen (Refers reg) a cyc) ?_ fuel structName pre hreach
  intro a ha
  rcases Relation.ReflTransGen.cases_head ha with rfl | ⟨b, hab, hbc⟩
  · obtain ⟨b, hab, hbc⟩ := Relation.TransGen.head'_iff.mp hcycle
    exact ⟨b, hab, hbc⟩
  · exact ⟨b, hab, hbc⟩

/-- C3, witness: `Node` with the field `next *Node`, registered as `pkg.Node`,
refers to itself, and its flattening returns under no prefix. -/
theorem deepParseStruct_cycle_diverges_witness :
    Refers pkgReg "pkg.Node" "pkg.Node" ∧
    ¬ ∃ fuel pre out, deepParseStruct pkgReg fuel "pkg.Node" pre = some out :=
  ⟨refers_node, fun ⟨fuel, pre, out, h⟩ => by
    have hnone := deepParseStruct_cycle_diverges pkgReg "pkg.Node" "pkg.Node"
      Relation.ReflTransGen.refl (Relation.TransGen.single refers_node) fuel pre
    rw [hnone] at h
    cases h⟩

/-- C3, counterexample: the flattening of `pkg.Node` under the empty prefix
returns nothing for any bound, in particular not the list `[next:object]`. -/
theorem node_flattening_never_returns :
    ¬ ∃ fuel out, deepParseStruct pkgReg fuel "pkg.Node" "" = some out := by
  rintro ⟨fuel, out, h⟩
  have hnone := deepParseStruct_none_of_closed pkgReg (fun a => a = "pkg.Node")
    (fun a ha => ⟨"pkg.Node", ha ▸ refers_node, rfl⟩) fuel "pkg.Node" "" rfl
  rw [hnone] at h
  cases h

/-! ## Composite responses -/

theorem containsList_singleton (c : Char) (l : List Char) :
    containsList l [c] = true ↔ c ∈ l := by
  induction l with
  | nil => simp [containsList]
  | cons x xs ih =>
    simp only [containsList, List.isPrefixOf, Bool.or_eq_true, ih, List.mem_cons]
    constructor
    · rintro (h | h)
      · left; simpa using h
      · right; exact h
    · rintro (h | h)
      · left; simpa using h
      · right; exact h

theorem hasSuffix_append (a b : String) : hasSuffix (a ++ b) b = true := by
  simp [hasSuffix, isPrefixOf_append_self]

theorem cutList_append (c : Char) (a b : List Char) (h : c ∉ a) :
    cutList c (a ++ c :: b) = some (a, b) := by
  induction a with
  | nil => simp [cutList]
  | cons x xs ih =>
    simp only [List.mem_cons, not_or] at h
    have hx : (x == c) = false := beq_eq_false_iff_ne.mpr (Ne.symm h.1)
    simp [cutList, hx, ih h.2]

theorem cutList_eq_none (c : Char) (l : List Char) (h : c ∉ l) : cutList c l = none := by
  induction l with
  | nil => rfl
  | cons x xs ih =>
    simp only [List.mem_cons, not_or] at h
    have hx : (x == c) = false := beq_eq_false_iff_ne.mpr (Ne.symm h.1)
    simp [cutList, hx, ih h.2]

theorem splitList_of_not_mem (c : Char) (l : List Char) (h : c ∉ l) : splitList c l = [l] := by
  induction l with
  | nil => rfl
  | cons x xs ih =>
    simp only [List.mem_cons, not_or] at h
    have hx : (x == c) = false := beq_eq_false_iff_ne.mpr (Ne.symm h.1)
    simp [splitList, hx, ih h.2]

theorem trimPrefix_append (a b : String) : trimPrefix (a ++ b) a = b := by
  simp [trimPrefix, hasPrefix_append]

theorem trimSuffix_append (a b : String) : trimSuffix (a ++ b) b = a := by
  simp [trimSuffix, hasSuffix_append]

/-- The list has no blank at either end. -/
theorem trim_fixed (p : Char → Bool) (l : List Char)
    (h : ((l.dropWhile p).reverse.dropWhile p).reverse = l) :
    l.dropWhile p = l ∧ (l.reverse.dropWhile p).reverse = l := by
  have h1 : (l.dropWhile p).length ≤ l.length := (List.dropWhile_suffix p).length_le
  have h2 : (((l.dropWhile p).reverse.dropWhile p).reverse).length ≤ (l.dropWhile p).length := by
    have := (List.dropWhile_suffix (l := (l.dropWhile p).reverse) p).length_le
    simpa using this
  rw [h] at h2
  have h3 : l.dropWhile p = l :=
    (List.dropWhile_suffix p).eq_of_length (le_antisymm h1 h2)
  rw [h3] at h
  exact ⟨h3, h⟩

theorem trim_append (p : Char → Bool) (a b : List Char) (ha : a ≠ [])
    (ha1 : a.dropWhile p = a) (ha2 : (a.reverse.dropWhile p).reverse = a)
    (hb2 : (b.reverse.dropWhile p).reverse = b) :
    (((a ++ b).dropWhile p).reverse.dropWhile p).reverse = a ++ b := by
  obtain ⟨x, xs, rfl⟩ := List.exists_cons_of_ne_nil ha
  have hx : p x = false := by
    by_contra hp
    simp only [Bool.not_eq_false] at hp
    have hlen := congrArg List.length ha1
    simp only [List.dropWhile_cons, hp, if_true, List.length_cons] at hlen
    have := (List.dropWhile_suffix (l := xs) p).length_le
    omega
  have hd : ((x :: xs) ++ b).dropWhile p = (x :: xs) ++ b := by
    simp [List.dropWhile_cons, hx]
  rw [hd]
  rcases List.eq_nil_or_concat b with rfl | ⟨b1, y, hb⟩
  · simpa using ha2
  · rw [List.concat_eq_append] at hb
    subst hb
    have hy : p y = false := by
      by_contra hp
      simp only [Bool.not_eq_false] at hp
      have hlen := congrArg List.length hb2
      simp only [List.reverse_append, List.reverse_cons, List.reverse_nil, List.nil_append,
        List.singleton_append, List.dropWhile_cons, hp, if_true, List.length_reverse,
        List.length_append, List.length_cons, List.length_nil] at hlen
      have := (List.dropWhile_suffix (l := b1.reverse) p).length_le
      simp only [List.length_reverse] at this
      omega
    simp [List.reverse_append, List.dropWhile_cons, hy]

theorem trimSpace_append_eq (a : String) (c : Char) (b : String) (hc : isSpace c = false)
    (ha : trimSpace a = a) (hb : trimSpace b = b) :
    trimSpace (a ++ String.singleton c ++ b) = a ++ String.singleton c ++ b := by
  have ha' := trim_fixed isSpace a.data (by simpa [trimSpace] using congrArg String.data ha)
  have hb' := trim_fixed isSpace b.data (by simpa [trimSpace] using congrArg String.data hb)
  apply String.ext
  simp only [trimSpace, String.data_append, String.singleton]
  have hac : (a.data ++ [c]).dropWhile isSpace = a.data ++ [c] := by
    cases hd : a.data with
    | nil => simp [List.dropWhile_cons, hc]
    | cons x xs =>
      have hx : isSpace x = false := by
        by_contra hp
        simp only [Bool.not_eq_false] at hp
        have hlen := congrArg List.length ha'.1
        rw [hd] at hlen
        simp only [List.dropWhile_cons, hp, if_true, List.length_cons] at hlen
        have := (List.dropWhile_suffix (l := xs) isSpace).length_le
        omega
      simp [List.dropWhile_cons, hx]
  have hac2 : ((a.data ++ [c]).reverse.dropWhile isSpace).reverse = a.data ++ [c] := by
    simp [List.reverse_append, List.dropWhile_cons, hc]
  exact trim_append isSpace (a.data ++ [c]) b.data (by simp) hac hac2 hb'.2

theorem parseNestedResponse_one (reg : Registry) (file : FileInfo) (fuel : Nat)
    (base name typ : String)
    (hbrace : '{' ∉ base.data) (hbase : trimSpace base = base)
    (hname1 : '=' ∉ name.data) (hname2 : ',' ∉ name.data) (hname3 : trimSpace name = name)
    (hcomma : ',' ∉ typ.data) (htyp : trimSpace typ = typ) :
    parseNestedResponse reg file fuel (base ++ "\x7b" ++ name ++ "=" ++ typ ++ "\x7d") =
      (overrideField reg file fuel
        (match reg.lookup (resolveOrRaw reg file base) with
          | some structInfo => structInfo.Fields
          | none => []) name typ).map .ok := by
  have e1 : base ++ "\x7b" ++ name ++ "=" ++ typ ++ "\x7d" =
      (base ++ "\x7b") ++ ((name ++ "=" ++ typ) ++ "\x7d") := by
    simp [String.append_assoc]
  have hcont : containsStr (base ++ "\x7b" ++ name ++ "=" ++ typ ++ "\x7d") "\x7b" = true := by
    unfold containsStr
    rw [show ("\x7b" : String).data = ['{'] from rfl, containsList_singleton]
    simp [String.data_append]
  have hsuf : hasSuffix (base ++ "\x7b" ++ name ++ "=" ++ typ ++ "\x7d") "\x7d" = true :=
    hasSuffix_append _ _
  have hsplit : (splitFirst (base ++ "\x7b" ++ name ++ "=" ++ typ ++ "\x7d") '{').1 = base := by
    unfold splitFirst
    rw [e1]
    simp only [String.data_append]
    rw [List.append_assoc, List.singleton_append, cutList_append _ _ _ hbrace]
  unfold parseNestedResponse
  simp only [hcont, hsuf, hsplit, hbase, Bool.not_true, Bool.or_self, Bool.false_eq_true, if_false]
  rw [e1, trimPrefix_append, trimSuffix_append]
  have hne : ¬ (name ++ "=" ++ typ = "") := by
    intro h
    have := congrArg String.data h
    simp [String.data_append] at this
  simp only [hne, if_false]
  have hsp : splitChar (name ++ "=" ++ typ) ',' = [name ++ "=" ++ typ] := by
    unfold splitChar
    rw [splitList_of_not_mem]
    · rfl
    · simp only [String.data_append, List.mem_append, not_or]
      exact ⟨⟨hname2, by decide⟩, hcomma⟩
  rw [hsp]
  simp only [applyOverrides]
  have htrim : trimSpace (name ++ "=" ++ typ) = name ++ "=" ++ typ :=
    trimSpace_append_eq name '=' typ (by decide) hname3 htyp
  have hcut : cutList '=' (name ++ "=" ++ typ).data = some (name.data, typ.data) := by
    simp only [String.data_append]
    rw [List.append_assoc, List.singleton_append, cutList_append _ _ _ hname1]
  unfold applyOverride
  simp only [htrim, hne, if_false, hcut, hname3, htyp]
  cases overrideField reg file fuel _ name typ <;> rfl

theorem replaceNamed_of_unique (fieldName : String) (params : List ResponseParam)
    (h : (params.filter (fun f => f.Name = fieldName)).length = 1) :
    replaceNamed fieldName params = some (params.map (objectIfNamed fieldName)) := by
  induction params with
  | nil => simp at h
  | cons param rest ih =>
    by_cases hname : param.Name = fieldName
    · have hrest : rest.filter (fun f => f.Name = fieldName) = [] := by
        simp only [List.filter_cons, hname, decide_True, if_true, List.length_cons,
          Nat.add_left_eq_self, List.length_eq_zero] at h
        exact h
      have hid : rest.map (objectIfNamed fieldName) = rest := by
        have hall : ∀ f ∈ rest, objectIfNamed fieldName f = f := by
          intro f hf
          have hnot : ¬ f.Name = fieldName := by
            intro hn
            have : f ∈ rest.filter (fun f => f.Name = fieldName) := by
              simp [List.mem_filter, hf, hn]
            rw [hrest] at this
            cases this
          simp [objectIfNamed, hnot]
        calc rest.map (objectIfNamed fieldName) = rest.map id := List.map_congr_left hall
          _ = rest := List.map_id _
      simp [replaceNamed, hname, objectIfNamed, hid]
    · have h2 : (rest.filter (fun f => f.Name = fieldName)).length = 1 := by
        simpa [List.filter_cons, hname] using h
      simp [replaceNamed, hname, objectIfNamed, ih h2]

theorem filter_named_map (fieldName : String) (params : List ResponseParam) :
    (params.map (objectIfNamed fieldName)).filter (fun q => q.Name = fieldName) =
      (params.filter (fun q => q.Name = fieldName)).map (objectIfNamed fieldName) := by
  induction params with
  | nil => rfl
  | cons param rest ih =>
    by_cases hname : param.Name = fieldName
    · simp [List.filter_cons, objectIfNamed, hname, ih]
    · simp [List.filter_cons, objectIfNamed, hname, ih]

theorem filter_named_nested (reg : Registry) (fuel : Nat) (structKey fieldName : String)
    (nested : List ResponseParam)
    (h : deepParseStruct reg fuel structKey (fieldName ++ ".") = some nested) :
    nested.filter (fun q => q.Name = fieldName) = [] := by
  rw [List.filter_eq_nil_iff]
  intro q hq hname
  have hpre := deepParseStruct_names reg fuel structKey _ nested h q hq
  simp only [decide_eq_true_eq] at hname
  rw [hname, hasPrefix_iff] at hpre
  obtain ⟨t, ht⟩ := hpre
  have := congrArg (fun s => s.data.length) ht
  simp [String.data_append] at this

/-- C4, as the code has it: for a composite token `base{data=typ}` in which
`base` and `typ` resolve to registered structs, `base` has exactly one field
named `data` and the flattening of `typ` under `data.` returns `nested`,
`parseNestedResponse` returns the recorded fields of `base`, the field `data`
replaced by a leaf of type `object` that keeps its remark, followed by `nested`;
that leaf is the only one named `data`, and every leaf of `nested` has a name
that begins with `data.`. -/
theorem parseNestedResponse_data (reg : Registry) (file : FileInfo) (fuel : Nat)
    (base typ : String) (baseInfo : StructInfo) (nested : List ResponseParam)
    (hbrace : '{' ∉ base.data) (hbase : trimSpace base = base)
    (hcomma : ',' ∉ typ.data) (htyp : trimSpace typ = typ)
    (hB : reg.lookup (resolveOrRaw reg file base) = some baseInfo)
    (hT : (reg.lookup (resolveOrRaw reg file typ)).isSome = true)
    (hone : (baseInfo.Fields.filter (fun f => f.Name = "data")).length = 1)
    (hflat : deepParseStruct reg fuel (resolveOrRaw reg file typ) "data." = some nested) :
    parseNestedResponse reg file fuel (base ++ "\x7bdata=" ++ typ ++ "\x7d") =
      some (.ok (baseInfo.Fields.map (objectIfNamed "data") ++ nested)) ∧
    (∃ field, field ∈ baseInfo.Fields ∧ field.Name = "data" ∧
      (baseInfo.Fields.map (objectIfNamed "data") ++ nested).filter (fun q => q.Name = "data") =
        [{ Name := "data", Typ := "object", Required := false, Remark := field.Remark }]) ∧
    (∀ q ∈ nested, hasPrefix q.Name "data." = true) := by
  have htoken : base ++ "\x7bdata=" ++ typ ++ "\x7d" =
      base ++ "\x7b" ++ "data" ++ "=" ++ typ ++ "\x7d" := by
    have : ("\x7bdata=" : String) = "\x7b" ++ "data" ++ "=" := by decide
    rw [this]
    simp only [String.append_assoc]
  refine ⟨?_, ?_, deepParseStruct_names reg fuel _ _ nested hflat⟩
  · rw [htoken, parseNestedResponse_one reg file fuel base "data" typ hbrace hbase
      (by decide) (by decide) (by decide) hcomma htyp, hB]
    simp only [overrideField, hT, if_true, replaceNamed_of_unique "data" _ hone]
    have hd : ("data" : String) ++ "." = "data." := by decide
    rw [hd, hflat]
    rfl
  · obtain ⟨field, hfield⟩ := List.length_eq_one.mp hone
    have hmem : field ∈ baseInfo.Fields.filter (fun f => f.Name = "data") := by
      rw [hfield]; exact List.mem_singleton_self _
    rw [List.mem_filter] at hmem
    have hname : field.Name = "data" := by simpa using hmem.2
    refine ⟨field, hmem.1, hname, ?_⟩
    rw [List.filter_append, filter_named_map, hfield,
      filter_named_nested reg fuel _ "data" nested (by simpa using hflat)]
    simp [objectIfNamed, hname]

/-- C4, witness: scenario 5 of the specification, `Response` with the fields
`code`, `msg`, `data` and `UserInfo` with the fields `id`, `name`. -/
theorem parseNestedResponse_data_witness :
    parseNestedResponse apiReg apiCaller 2 ("Response" ++ "\x7bdata=" ++ "UserInfo" ++ "\x7d") =
      some (.ok [{ Name := "code", Typ := "int", Required := true, Remark := "状态码" },
                 { Name := "msg", Typ := "string", Required := true, Remark := "提示信息" },
                 { Name := "data", Typ := "object", Required := false, Remark := "数据" },
                 { Name := "data.id", Typ := "int", Required := true, Remark := "" },
                 { Name := "data.name", Typ := "string", Required := true, Remark := "" }]) :=
  (parseNestedResponse_data apiReg apiCaller 2 "Response" "UserInfo"
    { Name := "Response", Package := "api", PackagePath := "api",
      Fields := [{ Name := "code", Typ := "int", Required := true, Remark := "状态码" },
                 { Name := "msg", Typ := "string", Required := true, Remark := "提示信息" },
                 { Name := "data", Typ := "any", Required := true, Remark := "数据" }] }
    [{ Name := "data.id", Typ := "int", Required := true, Remark := "" },
     { Name := "data.name", Typ := "string", Required := true, Remark := "" }]
    (by decide) (by decide) (by decide) (by decide) (by decide) (by decide) (by decide)
    (by decide)).1

/-- C4, counterexample: `Envelope` has two fields of json name `data`; for the
token `Envelope{data=UserInfo}` only the first of them is replaced, and the
output holds two leaves named `data`, the second of type `string`. -/
theorem envelope_two_data_leaves :
    parseNestedResponse apiReg apiCaller 2 "Envelope\x7bdata=UserInfo\x7d" =
      some (.ok [{ Name := "data", Typ := "object", Required := false, Remark := "" },
                 { Name := "data", Typ := "string", Required := true, Remark := "" },
                 { Name := "data.id", Typ := "int", Required := true, Remark := "" },
                 { Name := "data.name", Typ := "string", Required := true, Remark := "" }]) ∧
    (apiReg.lookup (resolveOrRaw apiReg apiCaller "Envelope")).isSome = true ∧
    (apiReg.lookup (resolveOrRaw apiReg apiCaller "UserInfo")).isSome = true := by
  decide

/-- C5: for the token `Response{}` the output is the recorded field list of
`api.Response`, with the source type token `any` of the field `data`, where the
flattening of `api.Response` under the empty prefix has the type `object`; for
`Stats{}` the output has the token `int64` where the flattening has `long`. -/
theorem composite_base_not_flattened :
    parseNestedResponse apiReg apiCaller 2 "Response\x7b\x7d" =
      some (.ok [{ Name := "code", Typ := "int", Required := true, Remark := "状态码" },
                 { Name := "msg", Typ := "string", Required := true, Remark := "提示信息" },
                 { Name := "data", Typ := "any", Required := true, Remark := "数据" }]) ∧
    deepParseStruct apiReg 2 "api.Response" "" =
      some [{ Name := "code", Typ := "int", Required := true, Remark := "状态码" },
            { Name := "msg", Typ := "string", Required := true, Remark := "提示信息" },
            { Name := "data", Typ := "object", Required := true, Remark := "数据" }] ∧
    parseNestedResponse apiReg apiCaller 2 "Stats\x7b\x7d" =
      some (.ok [{ Name := "total", Typ := "int64", Required := true, Remark := "" }]) ∧
    deepParseStruct apiReg 2 "api.Stats" "" =
      some [{ Name := "total", Typ := "long", Required := true, Remark := "" }] := by
  decide

/-! ## Maps -/

theorem GoMap.lookup_of_mem {V : Type} (m : GoMap V) (hwf : m.WF) (k : String) (v : V)
    (h : (k, v) ∈ m) : m.lookup k = some v := by
  induction m with
  | nil => cases h
  | cons e rest ih =>
    obtain ⟨k1, v1⟩ := e
    have hwf' : (k1 ∉ rest.map Prod.fst) ∧ GoMap.WF rest := by
      simpa [GoMap.WF] using hwf
    rcases List.mem_cons.mp h with heq | hmem
    · cases heq
      simp [GoMap.lookup]
    · have hne : ¬ k1 = k := by
        rintro rfl
        exact hwf'.1 (List.mem_map.mpr ⟨(k1, v), hmem, rfl⟩)
      simp [GoMap.lookup, hne, ih hwf'.2 hmem]

theorem GoMap.mem_of_lookup {V : Type} (m : GoMap V) (k : String) (v : V)
    (h : m.lookup k = some v) : (k, v) ∈ m := by
  induction m with
  | nil => simp [GoMap.lookup] at h
  | cons e rest ih =>
    obtain ⟨k1, v1⟩ := e
    by_cases hk : k1 = k
    · subst hk
      simp only [GoMap.lookup, if_true, Option.some.injEq] at h
      subst h
      exact List.mem_cons_self _ _
    · simp only [GoMap.lookup, hk, if_false] at h
      exact List.mem_cons_of_mem _ (ih h)

/-! ## Reference resolution -/

theorem containsStr_dot_append (a b : String) : containsStr (a ++ "." ++ b) "." = true := by
  unfold containsStr
  rw [show (".": String).data = ['.'] from rfl, containsList_singleton]
  simp [String.data_append]

theorem splitFirst_dot (a b : String) (h : '.' ∉ a.data) :
    splitFirst (a ++ "." ++ b) '.' = (a, b) := by
  unfold splitFirst
  simp only [String.data_append]
  rw [List.append_assoc, List.singleton_append, cutList_append _ _ _ h]

/-- A declaration that the loop of `resolveStructReference` takes for a
candidate: it has the name looked for and its package path passes the path
test. -/
theorem scanCandidates_inl (structName importPath packageAlias : String) (reg : Registry) :
    ∀ (candidates : List String) (key : String),
      scanCandidates structName importPath packageAlias reg candidates = .inl key →
      ∃ structInfo, (key, structInfo) ∈ reg ∧ structInfo.Name = structName ∧
        pathMatch structInfo.PackagePath importPath = true ∧
        structInfo.Package = packageAlias := by
  induction reg with
  | nil => intro candidates key h; simp [scanCandidates] at h
  | cons e rest ih =>
    obtain ⟨k, info⟩ := e
    intro candidates key h
    unfold scanCandidates at h
    by_cases h1 : info.Name = structName
    · by_cases h2 : pathMatch info.PackagePath importPath = true
      · by_cases h3 : info.Package = packageAlias
        · simp only [h1, h2, h3, if_true, Sum.inl.injEq] at h
          subst h
          exact ⟨info, List.mem_cons_self _ _, h1, h2, h3⟩
        · simp only [h1, h2, h3, if_true, if_false] at h
          obtain ⟨si, hmem, hrest⟩ := ih _ _ h
          exact ⟨si, List.mem_cons_of_mem _ hmem, hrest⟩
      · simp only [h1, h2, if_true, if_false] at h
        obtain ⟨si, hmem, hrest⟩ := ih _ _ h
        exact ⟨si, List.mem_cons_of_mem _ hmem, hrest⟩
    · simp only [h1, if_false] at h
      obtain ⟨si, hmem, hrest⟩ := ih _ _ h
      exact ⟨si, List.mem_cons_of_mem _ hmem, hrest⟩

theorem scanCandidates_inr (structName importPath packageAlias : String) (reg : Registry) :
    ∀ (candidates out : List String),
      scanCandidates structName importPath packageAlias reg candidates = .inr out →
      (∀ key structInfo, (key, structInfo) ∈ reg → structInfo.Name = structName →
        pathMatch structInfo.PackagePath importPath = true →
        structInfo.Package ≠ packageAlias) ∧
      out = candidates ++ (reg.filter (fun e => decide (e.2.Name = structName) &&
        pathMatch e.2.PackagePath importPath)).map Prod.fst := by
  induction reg with
  | nil => intro candidates out h; simp [scanCandidates] at h; simp [h]
  | cons e rest ih =>
    obtain ⟨k, info⟩ := e
    intro candidates out h
    unfold scanCandidates at h
    by_cases h1 : info.Name = structName
    · by_cases h2 : pathMatch info.PackagePath importPath = true
      · by_cases h3 : info.Package = packageAlias
        · simp [h1, h2, h3] at h
        · simp only [h1, h2, h3, if_true, if_false] at h
          obtain ⟨hno, hout⟩ := ih _ _ h
          refine ⟨?_, ?_⟩
          · intro key si hmem hn hp
            rcases List.mem_cons.mp hmem with heq | hmem
            · cases heq; exact h3
            · exact hno key si hmem hn hp
          · simp [List.filter_cons, h1, h2, hout]
      · simp only [h1, h2, if_true, if_false] at h
        obtain ⟨hno, hout⟩ := ih _ _ h
        refine ⟨?_, ?_⟩
        · intro key si hmem hn hp
          rcases List.mem_cons.mp hmem with heq | hmem
          · cases heq; exact absurd hp h2
          · exact hno key si hmem hn hp
        · simp [List.filter_cons, h1, h2, hout]
    · simp only [h1, if_false] at h
      obtain ⟨hno, hout⟩ := ih _ _ h
      refine ⟨?_, ?_⟩
      · intro key si hmem hn hp
        rcases List.mem_cons.mp hmem with heq | hmem
        · cases heq; exact absurd hn h1
        · exact hno key si hmem hn hp
      · simp [List.filter_cons, h1, hout]

theorem pickLongest_spec (reg : Registry) :
    ∀ (candidates : List String) (bestMatch : String),
      (pickLongest reg bestMatch candidates = bestMatch ∨
        pickLongest reg bestMatch candidates ∈ candidates) ∧
      byteLen (packagePathOf reg bestMatch) ≤
        byteLen (packagePathOf reg (pickLongest reg bestMatch candidates)) ∧
      ∀ c ∈ candidates, byteLen (packagePathOf reg c) ≤
        byteLen (packagePathOf reg (pickLongest reg bestMatch candidates)) := by
  intro candidates
  induction candidates with
  | nil => intro bestMatch; simp [pickLongest]
  | cons c rest ih =>
    intro bestMatch
    unfold pickLongest
    by_cases hgt : byteLen (packagePathOf reg c) > byteLen (packagePathOf reg bestMatch)
    · simp only [hgt, if_true]
      obtain ⟨h1, h2, h3⟩ := ih c
      refine ⟨?_, by omega, ?_⟩
      · right
        rcases h1 with h | h
        · rw [h]; exact List.mem_cons_self _ _
        · exact List.mem_cons_of_mem _ h
      · intro d hd
        rcases List.mem_cons.mp hd with rfl | hd
        · exact h2
        · exact h3 d hd
    · simp only [hgt, if_false]
      obtain ⟨h1, h2, h3⟩ := ih bestMatch
      refine ⟨?_, h2, ?_⟩
      · rcases h1 with h | h
        · left; exact h
        · right; exact List.mem_cons_of_mem _ h
      · intro d hd
        rcases List.mem_cons.mp hd with rfl | hd
        · omega
        · exact h3 d hd

theorem packagePathOf_of_mem (reg : Registry) (hwf : reg.WF) (key : String)
    (structInfo : StructInfo) (h : (key, structInfo) ∈ reg) :
    packagePathOf reg key = structInfo.PackagePath := by
  simp [packagePathOf, GoMap.lookup_of_mem reg hwf key structInfo h]

theorem qualified_resolution_unfold (reg : Registry) (file : FileInfo)
    (packageAlias structName : String) (hdot : '.' ∉ packageAlias.data) :
    resolveStructReference reg file (packageAlias ++ "." ++ structName) =
      match file.Imports with
      | none => .error .noImports
      | some imports =>
        match imports.lookup packageAlias with
        | none => .error (.noAlias packageAlias)
        | some importPath =>
          match scanCandidates structName importPath packageAlias reg [] with
          | .inl key => .ok key
          | .inr [] => .error (.notFound packageAlias structName importPath)
          | .inr (candidate :: more) => .ok (pickLongest reg candidate (candidate :: more)) := by
  unfold resolveStructReference
  simp only [containsStr_dot_append, splitFirst_dot _ _ hdot, Bool.not_true, Bool.false_eq_true,
    if_false]
  cases file.Imports with
  | none => rfl
  | some imports =>
    simp only []
    cases imports.lookup packageAlias with
    | none => rfl
    | some importPath =>
      simp only []
      cases hscan : scanCandidates structName importPath packageAlias reg [] with
      | inl key => rfl
      | inr candidates =>
        cases candidates with
        | nil => rfl
        | cons c more =>
          cases more with
          | nil => simp [pickLongest]
          | cons d more2 => rfl

/-- The selection among the candidates, with the path test of the code: for a
qualified token `alias.Name` whose alias the import table of the file binds to
`importPath`, when some declaration named `Name` passes `pathMatch` and has
the package identifier `alias`, the key of such a declaration is returned;
when none has, and some declaration named `Name` passes `pathMatch`, the key
returned is that of a declaration named `Name` that passes `pathMatch` and
whose package path is at least as long as that of every other one. -/
theorem resolveStructReference_qualified (reg : Registry) (hwf : reg.WF) (file : FileInfo)
    (imports : GoMap String) (packageAlias structName importPath : String)
    (hdot : '.' ∉ packageAlias.data)
    (himports : file.Imports = some imports)
    (halias : imports.lookup packageAlias = some importPath) :
    ((∃ e ∈ reg, e.2.Name = structName ∧ pathMatch e.2.PackagePath importPath = true ∧
        e.2.Package = packageAlias) →
      ∃ e ∈ reg,
        resolveStructReference reg file (packageAlias ++ "." ++ structName) = .ok e.1 ∧
        e.2.Name = structName ∧ pathMatch e.2.PackagePath importPath = true ∧
        e.2.Package = packageAlias) ∧
    ((¬ ∃ e ∈ reg, e.2.Name = structName ∧ pathMatch e.2.PackagePath importPath = true ∧
        e.2.Package = packageAlias) →
      (∃ e ∈ reg, e.2.Name = structName ∧ pathMatch e.2.PackagePath importPath = true) →
      ∃ e ∈ reg,
        resolveStructReference reg file (packageAlias ++ "." ++ structName) = .ok e.1 ∧
        e.2.Name = structName ∧ pathMatch e.2.PackagePath importPath = true ∧
        ∀ e2 ∈ reg, e2.2.Name = structName → pathMatch e2.2.PackagePath importPath = true →
          byteLen e2.2.PackagePath ≤ byteLen e.2.PackagePath) := by
  rw [qualified_resolution_unfold reg file packageAlias structName hdot, himports]
  simp only [halias]
  constructor
  · rintro ⟨⟨key, structInfo⟩, hmem, hname, hpath, hpkg⟩
    cases hscan : scanCandidates structName importPath packageAlias reg [] with
    | inl found =>
      obtain ⟨si, h1, h2, h3, h4⟩ := scanCandidates_inl _ _ _ reg [] found hscan
      exact ⟨(found, si), h1, rfl, h2, h3, h4⟩
    | inr candidates =>
      exact absurd hpkg ((scanCandidates_inr _ _ _ reg [] candidates hscan).1 key structInfo
        hmem hname hpath)
  · rintro hnone ⟨⟨key, structInfo⟩, hmem, hname, hpath⟩
    cases hscan : scanCandidates structName importPath packageAlias reg [] with
    | inl found =>
      obtain ⟨si, h1, h2, h3, h4⟩ := scanCandidates_inl _ _ _ reg [] found hscan
      exact absurd ⟨(found, si), h1, h2, h3, h4⟩ hnone
    | inr candidates =>
      obtain ⟨-, hout⟩ := scanCandidates_inr _ _ _ reg [] candidates hscan
      simp only [List.nil_append] at hout
      have hcand : ∀ k, k ∈ candidates ↔ ∃ si, (k, si) ∈ reg ∧ si.Name = structName ∧
          pathMatch si.PackagePath importPath = true := by
        intro k
        rw [hout]
        simp only [List.mem_map, List.mem_filter, Bool.and_eq_true, decide_eq_true_eq,
          Prod.exists, exists_and_right, exists_eq_right]
      cases candidates with
      | nil => exact absurd ((hcand key).mpr ⟨structInfo, hmem, hname, hpath⟩) (by simp)
      | cons c more =>
        simp only []
        obtain ⟨h1, -, h3⟩ := pickLongest_spec reg (c :: more) c
        have hbest : pickLongest reg c (c :: more) ∈ c :: more := by
          rcases h1 with h | h
          · rw [h]; exact List.mem_cons_self _ _
          · exact h
        obtain ⟨si, hsi1, hsi2, hsi3⟩ := (hcand _).mp hbest
        refine ⟨(_, si), hsi1, rfl, hsi2, hsi3, ?_⟩
        rintro ⟨key2, si2⟩ hmem2 hname2 hpath2
        have := h3 key2 ((hcand key2).mpr ⟨si2, hmem2, hname2, hpath2⟩)
        rwa [packagePathOf_of_mem reg hwf key2 si2 hmem2,
          packagePathOf_of_mem reg hwf _ si hsi1] at this

/-- Three declarations named `User` pass the path test of the code for the
path that the file binds to the aliases `user` and `u`; `user.User` resolves
to the one of package `user`, and `u.User`, which no package identifier
equals, to the one of the longest package path. -/
theorem resolveStructReference_qualified_witness :
    resolveStructReference resolverReg resolverFile "user.User" = .ok "user.User" ∧
    resolveStructReference resolverReg resolverFile "u.User" = .ok "user.User" ∧
    (∃ e ∈ resolverReg,
      resolveStructReference resolverReg resolverFile ("u" ++ "." ++ "User") = .ok e.1 ∧
      e.2.Name = "User" ∧
      pathMatch e.2.PackagePath "example/internal/server/model/user" = true ∧
      ∀ e2 ∈ resolverReg, e2.2.Name = "User" →
        pathMatch e2.2.PackagePath "example/internal/server/model/user" = true →
        byteLen e2.2.PackagePath ≤ byteLen e.2.PackagePath) :=
  ⟨by decide, by decide,
   (resolveStructReference_qualified resolverReg (by decide) resolverFile
      [("user", "example/internal/server/model/user"),
       ("u", "example/internal/server/model/user")] "u" "User"
      "example/internal/server/model/user" (by decide) rfl (by decide)).2
      (by decide) (by decide)⟩

/-- C8: for a token without a dot and a file of package `currentPackage`,
`resolveStructReference` returns without error: the key
`currentPackage ++ "." ++ token` when it is registered, the token itself
otherwise. -/
theorem resolveStructReference_unqualified (reg : Registry) (file : FileInfo)
    (structRef currentPackage : String)
    (hdot : containsStr structRef "." = false)
    (hpkg : file.Package = some currentPackage) :
    resolveStructReference reg file structRef =
      .ok (if (reg.lookup (currentPackage ++ "." ++ structRef)).isSome
        then currentPackage ++ "." ++ structRef else structRef) := by
  unfold resolveStructReference
  simp only [hdot, hpkg, Bool.not_false, if_true]
  split <;> rfl

/-- C8, witness: in a file of package `api`, `Response` resolves to
`api.Response` and the unknown `Missing` to itself. -/
theorem resolveStructReference_unqualified_witness :
    resolveStructReference apiReg apiCaller "Response" = .ok "api.Response" ∧
    resolveStructReference apiReg apiCaller "Missing" = .ok "Missing" :=
  ⟨resolveStructReference_unqualified apiReg apiCaller "Response" "api" (by decide) rfl,
   resolveStructReference_unqualified apiReg apiCaller "Missing" "api" (by decide) rfl⟩

/-- The errors of the resolution, with the path test of the code: for a
qualified token `alias.Name`, `resolveStructReference` returns an error
exactly when the file has no import table, or the table has no entry for
`alias`, or no registry declaration named `Name` passes `pathMatch` against
the import path bound to `alias`. -/
theorem resolveStructReference_error_iff (reg : Registry) (file : FileInfo)
    (packageAlias structName : String) (hdot : '.' ∉ packageAlias.data) :
    (∃ err, resolveStructReference reg file (packageAlias ++ "." ++ structName) = .error err) ↔
      (file.Imports = none ∨
       (∃ imports, file.Imports = some imports ∧ imports.lookup packageAlias = none) ∨
       (∃ imports importPath,
          file.Imports = some imports ∧ imports.lookup packageAlias = some importPath ∧
          ¬ ∃ e ∈ reg, e.2.Name = structName ∧
            pathMatch e.2.PackagePath importPath = true)) := by
  rw [qualified_resolution_unfold reg file packageAlias structName hdot]
  cases himports : file.Imports with
  | none => simp
  | some imports =>
    cases halias : imports.lookup packageAlias with
    | none => simp [halias]
    | some importPath =>
      have hscanIff : (∃ err, (match scanCandidates structName importPath packageAlias reg [] with
            | .inl key => (.ok key : Except ResolveError String)
            | .inr [] => .error (.notFound packageAlias structName importPath)
            | .inr (candidate :: more) => .ok (pickLongest reg candidate (candidate :: more)))
              = .error err) ↔
          ¬ ∃ e ∈ reg, e.2.Name = structName ∧
            pathMatch e.2.PackagePath importPath = true := by
        cases hscan : scanCandidates structName importPath packageAlias reg [] with
        | inl found =>
          obtain ⟨si, h1, h2, h3, -⟩ := scanCandidates_inl _ _ _ reg [] found hscan
          constructor
          · rintro ⟨err, herr⟩; cases herr
          · intro hno; exact absurd ⟨(found, si), h1, h2, h3⟩ hno
        | inr candidates =>
          obtain ⟨-, hout⟩ := scanCandidates_inr _ _ _ reg [] candidates hscan
          simp only [List.nil_append] at hout
          cases candidates with
          | nil =>
            constructor
            · rintro - ⟨⟨key, si⟩, h1, h2, h3⟩
              simp only [] at h2 h3
              have : key ∈ (reg.filter (fun e => decide (e.2.Name = structName) &&
                  pathMatch e.2.PackagePath importPath)).map Prod.fst :=
                List.mem_map.mpr ⟨(key, si), by simp [List.mem_filter, h1, h2, h3], rfl⟩
              rw [← hout] at this
              cases this
            · intro _; exact ⟨_, rfl⟩
          | cons c more =>
            constructor
            · rintro ⟨err, herr⟩; cases herr
            · intro hno
              have : c ∈ (reg.filter (fun e => decide (e.2.Name = structName) &&
                  pathMatch e.2.PackagePath importPath)).map Prod.fst := by
                rw [← hout]; exact List.mem_cons_self _ _
              obtain ⟨⟨k, si⟩, hmem, rfl⟩ := List.mem_map.mp this
              simp only [List.mem_filter, Bool.and_eq_true, decide_eq_true_eq] at hmem
              exact absurd ⟨(k, si), hmem.1, hmem.2.1, hmem.2.2⟩ hno
      simp only [halias]
      rw [hscanIff]
      constructor
      · intro hno
        exact Or.inr (Or.inr ⟨imports, importPath, rfl, halias, hno⟩)
      · rintro (h | ⟨imports1, h1, h2⟩ | ⟨imports1, importPath1, h1, h2, h3⟩)
        · cases h
        · cases h1; rw [halias] at h2; cases h2
        · cases h1; rw [halias] at h2; cases h2; exact h3

/-- In a file without import table, in a file whose table has no entry for the
alias, and for a name that no declaration carries, the resolution of a
qualified token fails. -/
theorem resolveStructReference_error_iff_witness :
    (∃ err, resolveStructReference resolverReg { Package := some "main", Imports := none }
      ("user" ++ "." ++ "User") = .error err) ∧
    (∃ err, resolveStructReference resolverReg resolverFile ("other" ++ "." ++ "User") =
      .error err) ∧
    (∃ err, resolveStructReference resolverReg resolverFile ("user" ++ "." ++ "Group") =
      .error err) :=
  ⟨(resolveStructReference_error_iff resolverReg _ "user" "User" (by decide)).mpr (Or.inl rfl),
   (resolveStructReference_error_iff resolverReg _ "other" "User" (by decide)).mpr
      (Or.inr (Or.inl ⟨_, rfl, by decide⟩)),
   (resolveStructReference_error_iff resolverReg _ "user" "Group" (by decide)).mpr
      (Or.inr (Or.inr ⟨_, "example/internal/server/model/user", rfl, by decide, by decide⟩))⟩

/-! ### The path test -/

/-- What the path test of `resolveStructReference` computes. -/
theorem pathMatch_iff (packagePath importPath : String) :
    pathMatch packagePath importPath = true ↔
      packagePath = importPath ∨ hasSuffix importPath packagePath = true ∨
      hasSuffix packagePath importPath = true ∨
      removeModulePrefix importPath = packagePath := by
  unfold pathMatch
  by_cases h1 : packagePath = importPath
  · simp [h1]
  · by_cases h2 : hasSuffix importPath packagePath = true
    · simp [h1, h2]
    · by_cases h3 : hasSuffix packagePath importPath = true
      · simp [h1, h2, h3]
      · by_cases h4 : removeModulePrefix importPath = packagePath
        · simp [h1, h2, h3, h4]
        · simp [h1, h2, h3, h4]

/-- C7: the third test of the code asks whether the import path is a suffix of
the package path.  The package path `internal` is a prefix of the import path
`internal/model` and passes the test of the claim, but not that of the code, so
that `model.User` does not resolve; the package path `x/model/user` is no
prefix of the import path `model/user` and fails the test of the claim, but
passes that of the code. -/
theorem pathMatch_third_test_is_suffix :
    hasPrefix "internal/model" "internal" = true ∧
    pathMatchSpec "internal" "internal/model" = true ∧
    pathMatch "internal" "internal/model" = false ∧
    resolveStructReference [("internal.User", ⟨"User", "internal", "internal", []⟩)]
      { Package := some "main", Imports := some [("model", "internal/model")] } "model.User" =
      .error (.notFound "model" "User" "internal/model") ∧
    pathMatchSpec "x/model/user" "model/user" = false ∧
    pathMatch "x/model/user" "model/user" = true := by
  decide

/-! ## Diff of two snapshots -/

theorem GoMap.lookup_assign {V : Type} (m : GoMap V) (k : String) (v : V) (key : String) :
    (m.assign k v).lookup key = if k = key then some v else m.lookup key := by
  induction m with
  | nil => simp [GoMap.assign, GoMap.lookup]
  | cons e rest ih =>
    obtain ⟨k1, v1⟩ := e
    by_cases h1 : k1 = k
    · subst h1
      by_cases h2 : k1 = key <;> simp [GoMap.assign, GoMap.lookup, h2]
    · by_cases h2 : k1 = key
      · subst h2
        have h3 : ¬ k = k1 := fun h => h1 h.symm
        simp [GoMap.assign, GoMap.lookup, h1, h3]
      · simp [GoMap.assign, GoMap.lookup, h1, h2, ih]

theorem GoMap.keys_assign {V : Type} (m : GoMap V) (k : String) (v : V) :
    (m.assign k v).map Prod.fst = if k ∈ m.map Prod.fst then m.map Prod.fst
      else m.map Prod.fst ++ [k] := by
  induction m with
  | nil => simp [GoMap.assign]
  | cons e rest ih =>
    obtain ⟨k1, v1⟩ := e
    by_cases h1 : k1 = k
    · subst h1
      simp [GoMap.assign]
    · have h3 : ¬ k = k1 := fun h => h1 h.symm
      by_cases h2 : k ∈ rest.map Prod.fst
      · simp only [GoMap.assign, h1, if_false, List.map_cons, ih, h2, if_true, List.mem_cons,
          or_true]
      · simp only [GoMap.assign, h1, if_false, List.map_cons, ih, h2, List.mem_cons, h3,
          or_self, List.cons_append]

theorem GoMap.WF_assign {V : Type} (m : GoMap V) (hwf : m.WF) (k : String) (v : V) :
    (m.assign k v).WF := by
  unfold GoMap.WF at *
  rw [GoMap.keys_assign]
  split
  · exact hwf
  · rename_i h
    rw [List.nodup_append]
    refine ⟨hwf, List.nodup_singleton _, ?_⟩
    intro a ha hb
    simp only [List.mem_singleton] at hb
    subst hb
    exact h ha

theorem GoMap.lookup_eq_none_iff {V : Type} (m : GoMap V) (key : String) :
    m.lookup key = none ↔ key ∉ m.map Prod.fst := by
  induction m with
  | nil => simp [GoMap.lookup]
  | cons e rest ih =>
    obtain ⟨k1, v1⟩ := e
    by_cases h : k1 = key
    · simp [GoMap.lookup, h]
    · have h3 : ¬ key = k1 := fun e => h e.symm
      simp [GoMap.lookup, h, h3, ih]

theorem GoMap.WF_of_perm {V : Type} (m1 m2 : GoMap V) (hperm : List.Perm m1 m2) (hwf : m2.WF) :
    m1.WF := by
  unfold GoMap.WF at *
  exact ((hperm.map Prod.fst).nodup_iff).mpr hwf

theorem GoMap.lookup_of_perm {V : Type} (m1 m2 : GoMap V) (hperm : List.Perm m1 m2)
    (hwf : m2.WF) (key : String) : m1.lookup key = m2.lookup key := by
  have hwf1 := GoMap.WF_of_perm m1 m2 hperm hwf
  cases h2 : m2.lookup key with
  | some v =>
    exact GoMap.lookup_of_mem m1 hwf1 key v (hperm.mem_iff.mpr (GoMap.mem_of_lookup m2 key v h2))
  | none =>
    cases h1 : m1.lookup key with
    | none => rfl
    | some v =>
      have := GoMap.lookup_of_mem m2 hwf key v (hperm.mem_iff.mp (GoMap.mem_of_lookup m1 key v h1))
      rw [h2] at this
      cases this

theorem foldl_assign_lookup (docs : List APIDoc) :
    ∀ (m : GoMap APIDoc) (key : String),
      (docs.foldl (fun m doc => m.assign (getDocKey doc) doc) m).lookup key =
        match lastWithKey docs key with
        | some doc => some doc
        | none => m.lookup key := by
  induction docs with
  | nil => intro m key; simp [lastWithKey]
  | cons doc rest ih =>
    intro m key
    rw [List.foldl_cons, ih, lastWithKey]
    cases hlast : lastWithKey rest key with
    | some later => rfl
    | none =>
      simp only [GoMap.lookup_assign]
      by_cases hk : getDocKey doc = key <;> simp [hk]

theorem foldl_assign_WF (docs : List APIDoc) :
    ∀ (m : GoMap APIDoc), m.WF →
      (docs.foldl (fun m doc => m.assign (getDocKey doc) doc) m).WF := by
  induction docs with
  | nil => intro m h; exact h
  | cons doc rest ih =>
    intro m h
    rw [List.foldl_cons]
    exact ih _ (GoMap.WF_assign m h _ _)

theorem docMap_lookup (docs : List APIDoc) (key : String) :
    (docMap docs).lookup key = lastWithKey docs key := by
  unfold docMap
  rw [foldl_assign_lookup]
  cases lastWithKey docs key <;> rfl

theorem docMap_WF (docs : List APIDoc) : (docMap docs).WF :=
  foldl_assign_WF docs [] (by simp [GoMap.WF])

theorem lastWithKey_some (docs : List APIDoc) (key : String) (doc : APIDoc)
    (h : lastWithKey docs key = some doc) : doc ∈ docs ∧ getDocKey doc = key := by
  induction docs with
  | nil => simp [lastWithKey] at h
  | cons d rest ih =>
    rw [lastWithKey] at h
    cases hlast : lastWithKey rest key with
    | some later =>
      rw [hlast] at h
      simp only [Option.some.injEq] at h
      subst h
      exact ⟨List.mem_cons_of_mem _ (ih hlast).1, (ih hlast).2⟩
    | none =>
      rw [hlast] at h
      by_cases hk : getDocKey d = key
      · simp only [hk, if_true, Option.some.injEq] at h
        subst h
        exact ⟨List.mem_cons_self _ _, hk⟩
      · simp [hk] at h

theorem compareNew_spec (oldDocMap : GoMap APIDoc) (enum : GoMap APIDoc) :
    ∀ (added : List APIDoc) (changed : List DocumentChange),
      (∀ doc, doc ∈ (compareNew oldDocMap enum (added, changed)).1 ↔
        doc ∈ added ∨ ∃ key, (key, doc) ∈ enum ∧ oldDocMap.lookup key = none) ∧
      (∀ change, change ∈ (compareNew oldDocMap enum (added, changed)).2 ↔
        change ∈ changed ∨ ∃ key, (key, change.New) ∈ enum ∧
          oldDocMap.lookup key = some change.Old ∧ docsEqual change.Old change.New = false) := by
  induction enum with
  | nil => intro added changed; simp [compareNew]
  | cons e rest ih =>
    obtain ⟨k, newDoc⟩ := e
    intro added changed
    rw [compareNew]
    cases hlook : oldDocMap.lookup k with
    | none =>
      simp only []
      obtain ⟨h1, h2⟩ := ih (added ++ [newDoc]) changed
      refine ⟨fun doc => ?_, fun change => ?_⟩
      · rw [h1]
        simp only [List.mem_append, List.mem_singleton, List.mem_cons, Prod.mk.injEq, List.not_mem_nil, or_false]
        constructor
        · rintro ((h | rfl) | ⟨key, hmem, hnone⟩)
          · exact Or.inl h
          · exact Or.inr ⟨k, Or.inl ⟨rfl, rfl⟩, hlook⟩
          · exact Or.inr ⟨key, Or.inr hmem, hnone⟩
        · rintro (h | ⟨key, (⟨rfl, rfl⟩ | hmem), hnone⟩)
          · exact Or.inl (Or.inl h)
          · exact Or.inl (Or.inr rfl)
          · exact Or.inr ⟨key, hmem, hnone⟩
      · rw [h2]
        simp only [List.mem_cons, Prod.mk.injEq]
        constructor
        · rintro (h | ⟨key, hmem, hsome, heq⟩)
          · exact Or.inl h
          · exact Or.inr ⟨key, Or.inr hmem, hsome, heq⟩
        · rintro (h | ⟨key, (⟨rfl, _⟩ | hmem), hsome, heq⟩)
          · exact Or.inl h
          · rw [hlook] at hsome; cases hsome
          · exact Or.inr ⟨key, hmem, hsome, heq⟩
    | some oldDoc =>
      simp only []
      by_cases heq : docsEqual oldDoc newDoc = true
      · simp only [heq, Bool.not_true, Bool.false_eq_true, if_false]
        obtain ⟨h1, h2⟩ := ih added changed
        refine ⟨fun doc => ?_, fun change => ?_⟩
        · rw [h1]
          simp only [List.mem_cons, Prod.mk.injEq]
          constructor
          · rintro (h | ⟨key, hmem, hnone⟩)
            · exact Or.inl h
            · exact Or.inr ⟨key, Or.inr hmem, hnone⟩
          · rintro (h | ⟨key, (⟨rfl, _⟩ | hmem), hnone⟩)
            · exact Or.inl h
            · rw [hlook] at hnone; cases hnone
            · exact Or.inr ⟨key, hmem, hnone⟩
        · rw [h2]
          simp only [List.mem_cons, Prod.mk.injEq]
          constructor
          · rintro (h | ⟨key, hmem, hsome, hne⟩)
            · exact Or.inl h
            · exact Or.inr ⟨key, Or.inr hmem, hsome, hne⟩
          · rintro (h | ⟨key, (⟨rfl, hnew⟩ | hmem), hsome, hne⟩)
            · exact Or.inl h
            · rw [hlook] at hsome
              simp only [Option.some.injEq] at hsome
              rw [← hsome, hnew, heq] at hne
              cases hne
            · exact Or.inr ⟨key, hmem, hsome, hne⟩
      · have heq' : docsEqual oldDoc newDoc = false := by simpa using heq
        simp only [heq', Bool.not_false, if_true]
        obtain ⟨h1, h2⟩ := ih added (changed ++ [{ Old := oldDoc, New := newDoc }])
        refine ⟨fun doc => ?_, fun change => ?_⟩
        · rw [h1]
          simp only [List.mem_cons, Prod.mk.injEq]
          constructor
          · rintro (h | ⟨key, hmem, hnone⟩)
            · exact Or.inl h
            · exact Or.inr ⟨key, Or.inr hmem, hnone⟩
          · rintro (h | ⟨key, (⟨rfl, _⟩ | hmem), hnone⟩)
            · exact Or.inl h
            · rw [hlook] at hnone; cases hnone
            · exact Or.inr ⟨key, hmem, hnone⟩
        · rw [h2]
          simp only [List.mem_append, List.mem_singleton, List.mem_cons, Prod.mk.injEq, List.not_mem_nil, or_false]
          constructor
          · rintro ((h | rfl) | ⟨key, hmem, hsome, hne⟩)
            · exact Or.inl h
            · exact Or.inr ⟨k, Or.inl ⟨rfl, rfl⟩, hlook, heq'⟩
            · exact Or.inr ⟨key, Or.inr hmem, hsome, hne⟩
          · rintro (h | ⟨key, (⟨rfl, hnew⟩ | hmem), hsome, hne⟩)
            · exact Or.inl (Or.inl h)
            · rw [hlook] at hsome
              simp only [Option.some.injEq] at hsome
              left; right
              cases change
              simp only [] at hsome hnew
              rw [hsome, hnew]
            · exact Or.inr ⟨key, hmem, hsome, hne⟩

theorem compareOld_spec (newDocMap : GoMap APIDoc) (enum : GoMap APIDoc) :
    ∀ (removed : List APIDoc) (doc : APIDoc),
      doc ∈ compareOld newDocMap enum removed ↔
        doc ∈ removed ∨ ∃ key, (key, doc) ∈ enum ∧ newDocMap.lookup key = none := by
  induction enum with
  | nil => intro removed doc; simp [compareOld]
  | cons e rest ih =>
    obtain ⟨k, oldDoc⟩ := e
    intro removed doc
    rw [compareOld]
    cases hlook : newDocMap.lookup k with
    | none =>
      simp only []
      rw [ih]
      simp only [List.mem_append, List.mem_singleton, List.mem_cons, Prod.mk.injEq, List.not_mem_nil, or_false]
      constructor
      · rintro ((h | rfl) | ⟨key, hmem, hnone⟩)
        · exact Or.inl h
        · exact Or.inr ⟨k, Or.inl ⟨rfl, rfl⟩, hlook⟩
        · exact Or.inr ⟨key, Or.inr hmem, hnone⟩
      · rintro (h | ⟨key, (⟨rfl, rfl⟩ | hmem), hnone⟩)
        · exact Or.inl (Or.inl h)
        · exact Or.inl (Or.inr rfl)
        · exact Or.inr ⟨key, hmem, hnone⟩
    | some newDoc =>
      simp only []
      rw [ih]
      simp only [List.mem_cons, Prod.mk.injEq]
      constructor
      · rintro (h | ⟨key, hmem, hnone⟩)
        · exact Or.inl h
        · exact Or.inr ⟨key, Or.inr hmem, hnone⟩
      · rintro (h | ⟨key, (⟨rfl, _⟩ | hmem), hnone⟩)
        · exact Or.inl h
        · rw [hlook] at hnone; cases hnone
        · exact Or.inr ⟨key, hmem, hnone⟩

theorem docMap_mem_iff (docs : List APIDoc) (enum : GoMap APIDoc)
    (hperm : List.Perm enum (docMap docs)) (key : String) (doc : APIDoc) :
    (key, doc) ∈ enum ↔ lastWithKey docs key = some doc := by
  rw [hperm.mem_iff, ← docMap_lookup]
  exact ⟨GoMap.lookup_of_mem _ (docMap_WF docs) key doc, GoMap.mem_of_lookup _ key doc⟩

theorem docMap_enum_lookup (docs : List APIDoc) (enum : GoMap APIDoc)
    (hperm : List.Perm enum (docMap docs)) (key : String) :
    enum.lookup key = lastWithKey docs key := by
  rw [GoMap.lookup_of_perm enum _ hperm (docMap_WF docs), docMap_lookup]

theorem stripStar_eq (goType : String) :
    (if hasPrefix goType "*" = true then (⟨goType.data.drop 1⟩ : String) else goType) =
      trimPrefix goType "*" := rfl

theorem mapGoTypeToRequestType_eq (goType : String) :
    mapGoTypeToRequestType goType =
      (if hasPrefix (trimPrefix goType "*") "[]" = true then "array"
       else if trimPrefix goType "*" = "string" then "string"
       else if trimPrefix goType "*" ∈
          ["int", "int8", "int16", "int32", "uint", "uint8", "uint16", "uint32"] then "int"
       else if trimPrefix goType "*" ∈ ["int64", "uint64"] then "long"
       else if trimPrefix goType "*" = "float32" then "float"
       else if trimPrefix goType "*" = "float64" then "double"
       else if trimPrefix goType "*" = "bool" then "boolean"
       else if trimPrefix goType "*" = "file" then "file"
       else if trimPrefix goType "*" = "interface\x7b\x7d" then "object"
       else "object") := rfl

theorem mapGoTypeToResponseType_eq (goType : String) :
    mapGoTypeToResponseType goType =
      (if hasPrefix (trimPrefix goType "*") "[]" = true then "array"
       else if trimPrefix goType "*" = "string" then "string"
       else if trimPrefix goType "*" ∈
          ["int", "int8", "int16", "int32", "uint", "uint8", "uint16", "uint32"] then "int"
       else if trimPrefix goType "*" ∈ ["int64", "uint64"] then "long"
       else if trimPrefix goType "*" ∈ ["float32", "float64"] then "number"
       else if trimPrefix goType "*" = "bool" then "boolean"
       else if trimPrefix goType "*" = "interface\x7b\x7d" then "object"
       else "object") := rfl

/-- C17: `mapGoTypeToRequestType` is the table, the token being read with one
leading `*` removed: a token that begins with `[]` gives `array`; otherwise
`string` gives `string`, the eight small and medium integer types give `int`,
`int64` and `uint64` give `long`, `float32` gives `float`, `float64` gives
`double`, `bool` gives `boolean`, `file` gives `file`, and every other token
gives `object`. -/
theorem mapGoTypeToRequestType_table (token : String) :
    (hasPrefix (trimPrefix token "*") "[]" = true → mapGoTypeToRequestType token = "array") ∧
    (hasPrefix (trimPrefix token "*") "[]" = false →
      (trimPrefix token "*" = "string" → mapGoTypeToRequestType token = "string") ∧
      (trimPrefix token "*" ∈ ["int", "int8", "int16", "int32", "uint", "uint8", "uint16",
          "uint32"] → mapGoTypeToRequestType token = "int") ∧
      (trimPrefix token "*" ∈ ["int64", "uint64"] → mapGoTypeToRequestType token = "long") ∧
      (trimPrefix token "*" = "float32" → mapGoTypeToRequestType token = "float") ∧
      (trimPrefix token "*" = "float64" → mapGoTypeToRequestType token = "double") ∧
      (trimPrefix token "*" = "bool" → mapGoTypeToRequestType token = "boolean") ∧
      (trimPrefix token "*" = "file" → mapGoTypeToRequestType token = "file") ∧
      (trimPrefix token "*" ∉ ["string", "int", "int8", "int16", "int32", "uint", "uint8",
          "uint16", "uint32", "int64", "uint64", "float32", "float64", "bool", "file"] →
        mapGoTypeToRequestType token = "object")) := by
  rw [mapGoTypeToRequestType_eq]
  generalize trimPrefix token "*" = t
  refine ⟨fun h => by rw [if_pos h], fun h => ⟨?_, ?_, ?_, ?_, ?_, ?_, ?_, ?_⟩⟩
  · rintro rfl; decide
  · intro hm
    simp only [List.mem_cons, List.mem_singleton, List.not_mem_nil, or_false] at hm
    rcases hm with rfl | rfl | rfl | rfl | rfl | rfl | rfl | rfl <;> decide
  · intro hm
    simp only [List.mem_cons, List.mem_singleton, List.not_mem_nil, or_false] at hm
    rcases hm with rfl | rfl <;> decide
  · rintro rfl; decide
  · rintro rfl; decide
  · rintro rfl; decide
  · rintro rfl; decide
  · intro hm
    simp only [List.mem_cons, List.mem_singleton, List.not_mem_nil, or_false, not_or] at hm
    obtain ⟨h1, h2, h3, h4, h5, h6, h7, h8, h9, h10, h11, h12, h13, h14, h15⟩ := hm
    simp only [h, h1, h2, h3, h4, h5, h6, h7, h8, h9, h10, h11, h12, h13, h14, h15,
      List.mem_cons, List.mem_singleton, List.not_mem_nil, or_false, or_self, if_false,
      Bool.false_eq_true, ite_self]

/-- C17, witness: a pointer to a slice gives `array`, a pointer to `int64`
gives `long`, `float32` gives `float`, and `interface{}` gives `object`. -/
theorem mapGoTypeToRequestType_table_witness :
    mapGoTypeToRequestType "*[]int" = "array" ∧ mapGoTypeToRequestType "*int64" = "long" ∧
    mapGoTypeToRequestType "float32" = "float" ∧
    mapGoTypeToRequestType "interface\x7b\x7d" = "object" :=
  ⟨(mapGoTypeToRequestType_table "*[]int").1 (by decide),
   ((mapGoTypeToRequestType_table "*int64").2 (by decide)).2.2.1 (by decide),
   ((mapGoTypeToRequestType_table "float32").2 (by decide)).2.2.2.1 (by decide),
   ((mapGoTypeToRequestType_table "interface\x7b\x7d").2 (by decide)).2.2.2.2.2.2.2
     (by decide)⟩

/-- C18: `mapGoTypeToResponseType` is the table, the token being read with
one leading `*` removed: a token that begins with `[]` gives `array`; otherwise
`string` gives `string`, the eight small and medium integer types give `int`,
`int64` and `uint64` give `long`, `float32` and `float64` give `number`, `bool`
gives `boolean`, and every other token, `file` among them, gives `object`. -/
theorem mapGoTypeToResponseType_table (token : String) :
    (hasPrefix (trimPrefix token "*") "[]" = true → mapGoTypeToResponseType token = "array") ∧
    (hasPrefix (trimPrefix token "*") "[]" = false →
      (trimPrefix token "*" = "string" → mapGoTypeToResponseType token = "string") ∧
      (trimPrefix token "*" ∈ ["int", "int8", "int16", "int32", "uint", "uint8", "uint16",
          "uint32"] → mapGoTypeToResponseType token = "int") ∧
      (trimPrefix token "*" ∈ ["int64", "uint64"] → mapGoTypeToResponseType token = "long") ∧
      (trimPrefix token "*" ∈ ["float32", "float64"] →
        mapGoTypeToResponseType token = "number") ∧
      (trimPrefix token "*" = "bool" → mapGoTypeToResponseType token = "boolean") ∧
      (trimPrefix token "*" ∉ ["string", "int", "int8", "int16", "int32", "uint", "uint8",
          "uint16", "uint32", "int64", "uint64", "float32", "float64", "bool"] →
        mapGoTypeToResponseType token = "object")) := by
  rw [mapGoTypeToResponseType_eq]
  generalize trimPrefix token "*" = t
  refine ⟨fun h => by rw [if_pos h], fun h => ⟨?_, ?_, ?_, ?_, ?_, ?_⟩⟩
  · rintro rfl; decide
  · intro hm
    simp only [List.mem_cons, List.mem_singleton, List.not_mem_nil, or_false] at hm
    rcases hm with rfl | rfl | rfl | rfl | rfl | rfl | rfl | rfl <;> decide
  · intro hm
    simp only [List.mem_cons, List.mem_singleton, List.not_mem_nil, or_false] at hm
    rcases hm with rfl | rfl <;> decide
  · intro hm
    simp only [List.mem_cons, List.mem_singleton, List.not_mem_nil, or_false] at hm
    rcases hm with rfl | rfl <;> decide
  · rintro rfl; decide
  · intro hm
    simp only [List.mem_cons, List.mem_singleton, List.not_mem_nil, or_false, not_or] at hm
    obtain ⟨h1, h2, h3, h4, h5, h6, h7, h8, h9, h10, h11, h12, h13, h14⟩ := hm
    simp only [h, h1, h2, h3, h4, h5, h6, h7, h8, h9, h10, h11, h12, h13, h14,
      List.mem_cons, List.mem_singleton, List.not_mem_nil, or_false, or_self, if_false,
      Bool.false_eq_true, ite_self]

/-- C18, witness: a pointer to a slice gives `array`, `float32` and `float64`
give `number`, and `file` gives `object`. -/
theorem mapGoTypeToResponseType_table_witness :
    mapGoTypeToResponseType "*[]int" = "array" ∧ mapGoTypeToResponseType "float32" = "number" ∧
    mapGoTypeToResponseType "float64" = "number" ∧ mapGoTypeToResponseType "file" = "object" :=
  ⟨(mapGoTypeToResponseType_table "*[]int").1 (by decide),
   ((mapGoTypeToResponseType_table "float32").2 (by decide)).2.2.2.1 (by decide),
   ((mapGoTypeToResponseType_table "float64").2 (by decide)).2.2.2.1 (by decide),
   ((mapGoTypeToResponseType_table "file").2 (by decide)).2.2.2.2.2 (by decide)⟩

theorem ite_mem {c : Prop} [Decidable c] (a b : String) (l : List String)
    (ha : a ∈ l) (hb : b ∈ l) : (if c then a else b) ∈ l := by
  split
  · exact ha
  · exact hb

theorem ite_some_inv {c : Prop} [Decidable c] {α : Type} {a b : Option α} {P : α → Prop}
    (ha : ∀ d, a = some d → P d) (hb : ∀ d, b = some d → P d) :
    ∀ d, (if c then a else b) = some d → P d := by
  intro d h
  split at h
  · exact ha d h
  · exact hb d h

theorem requestType_mem (token : String) :
    mapGoTypeToRequestType token ∈ requestTags := by
  rw [mapGoTypeToRequestType_eq]
  repeat' apply ite_mem
  all_goals decide

theorem responseType_mem (token : String) :
    mapGoTypeToResponseType token ∈ responseTags := by
  rw [mapGoTypeToResponseType_eq]
  repeat' apply ite_mem
  all_goals decide
/-- Every leaf of a flattening carries a type that the response mapper produced. -/
theorem deepParseStruct_types (reg : Registry) :
    ∀ (fuel : Nat) (structName pre : String) (out : List ResponseParam),
      deepParseStruct reg fuel structName pre = some out →
      ∀ leaf ∈ out, leaf.Typ ∈ responseTags := by
  intro fuel
  induction fuel with
  | zero => intro structName pre out h; simp [deepParseStruct] at h
  | succ n ih =>
    intro structName pre out h leaf hleaf
    rw [deepParseStruct] at h
    cases hlook : reg.lookup structName with
    | none => rw [hlook] at h; cases h; cases hleaf
    | some structInfo =>
      rw [hlook] at h
      simp only [] at h
      rw [deepParseFields_eq_some] at h
      obtain ⟨parts, hparts, rfl⟩ := h
      simp only [List.nil_append, List.mem_flatten] at hleaf
      obtain ⟨part, hpart, hmem⟩ := hleaf
      obtain ⟨field, -, hfield⟩ := forall₂_of_mem_right hparts hpart
      unfold fieldPart at hfield
      cases htarget : fieldTarget reg structInfo.Package (trimPrefix field.Typ "*") with
      | some target =>
        rw [htarget] at hfield
        exact ih _ _ _ hfield leaf hmem
      | none =>
        rw [htarget] at hfield
        simp only [Option.some.injEq] at hfield
        subst hfield
        split at hmem
        · cases hmem
        · simp only [List.mem_singleton] at hmem
          subst hmem
          exact responseType_mem _

theorem forall_mem_snoc {α : Type} {P : α → Prop} (l : List α) (x : α)
    (h : ∀ p ∈ l, P p) (hx : P x) : ∀ p ∈ l ++ [x], P p := by
  intro p hp
  rcases List.mem_append.mp hp with hp | hp
  · exact h p hp
  · rw [List.mem_singleton.mp hp]; exact hx

theorem appendNested_mapped (reg : Registry) (file : FileInfo) (fuel : Nat)
    (apiDoc doc : APIDoc) (value : String)
    (h : appendNested reg file fuel apiDoc value = some doc) (hinv : MappedTypes apiDoc) :
    MappedTypes doc := by
  unfold appendNested at h
  cases hres : parseNestedResponse reg file fuel value with
  | none => rw [hres] at h; cases h
  | some res =>
    rw [hres] at h
    cases res with
    | error e => obtain rfl := Option.some.inj h; exact hinv
    | ok params =>
      simp only [] at h
      split at h <;> (obtain rfl := Option.some.inj h; exact hinv)

theorem paramDirective_mapped (apiDoc : APIDoc) (value : String) (hinv : MappedTypes apiDoc) :
    MappedTypes (paramDirective apiDoc value) := by
  unfold paramDirective
  split
  · rename_i paramName paramLocation paramType paramRequired more _
    have hm : mapGoTypeToRequestType paramType ∈ requestTags := requestType_mem paramType
    obtain ⟨h1, h2, h3, h4, h5⟩ := hinv
    simp only []
    split_ifs
    all_goals first
      | exact ⟨h1, h2, h3, h4, h5⟩
      | exact ⟨forall_mem_snoc _ _ h1 hm, h2, h3, h4, h5⟩
      | exact ⟨h1, forall_mem_snoc _ _ h2 hm, h3, h4, h5⟩
      | exact ⟨h1, h2, forall_mem_snoc _ _ h3 hm, h4, h5⟩
  · exact hinv

theorem responseDirective_mapped (reg : Registry) (file : FileInfo) (fuel : Nat)
    (apiDoc doc : APIDoc) (value : String)
    (h : responseDirective reg file fuel apiDoc value = some doc) (hinv : MappedTypes apiDoc) :
    MappedTypes doc := by
  unfold responseDirective at h
  split at h
  · rename_i paramName paramLocation paramType more _
    have hm : mapGoTypeToResponseType paramType ∈ responseTags := responseType_mem paramType
    obtain ⟨h1, h2, h3, h4, h5⟩ := hinv
    simp only [] at h
    split_ifs at h <;> obtain rfl := Option.some.inj h
    all_goals first
      | exact ⟨h1, h2, h3, h4, h5⟩
      | exact ⟨h1, h2, h3, h4, forall_mem_snoc _ _ h5 hm⟩
  · simp only [] at h
    split_ifs at h
    · exact appendNested_mapped reg file fuel apiDoc doc value h hinv
    · cases hflat : deepParseStruct reg fuel value "" with
      | none => rw [hflat] at h; cases h
      | some nested =>
        rw [hflat] at h
        obtain rfl := Option.some.inj h
        exact hinv
    · obtain rfl := Option.some.inj h; exact hinv

theorem responseBodyDirective_mapped (reg : Registry) (file : FileInfo) (fuel : Nat)
    (apiDoc doc : APIDoc) (value : String)
    (h : responseBodyDirective reg file fuel apiDoc value = some doc)
    (hinv : MappedTypes apiDoc) : MappedTypes doc := by
  unfold responseBodyDirective at h
  simp only [] at h
  split_ifs at h
  · exact appendNested_mapped reg file fuel apiDoc doc value h hinv
  · cases hflat : deepParseStruct reg fuel (resolveOrRaw reg file value) "" with
    | none => rw [hflat] at h; cases h
    | some nested =>
      rw [hflat] at h
      obtain rfl := Option.some.inj h
      exact hinv
  · obtain rfl := Option.some.inj h; exact hinv

theorem bodyDirective_mapped (reg : Registry) (file : FileInfo) (fuel : Nat)
    (apiDoc doc : APIDoc) (value : String)
    (h : bodyDirective reg file fuel apiDoc value = some doc)
    (hinv : MappedTypes apiDoc) : MappedTypes doc := by
  unfold bodyDirective at h
  simp only [] at h
  split_ifs at h
  · cases hflat : deepParseStruct reg fuel (resolveOrRaw reg file value) "" with
    | none => rw [hflat] at h; cases h
    | some nested =>
      rw [hflat] at h
      obtain rfl := Option.some.inj h
      obtain ⟨h1, h2, h3, h4, h5⟩ := hinv
      refine ⟨h1, h2, h3, ?_, h5⟩
      intro p hp
      rcases List.mem_append.mp hp with hp | hp
      · exact h4 p hp
      · obtain ⟨leaf, -, rfl⟩ := List.mem_map.mp hp
        exact requestType_mem _
  · obtain rfl := Option.some.inj h; exact hinv

theorem dispatchDirective_mapped (reg : Registry) (file : FileInfo) (fuel : Nat)
    (apiDoc : APIDoc) (key value : String) (hinv : MappedTypes apiDoc) :
    ∀ doc, dispatchDirective reg file fuel apiDoc key value = some doc → MappedTypes doc := by
  unfold dispatchDirective
  repeat' with_reducible apply ite_some_inv
  all_goals intro doc h
  all_goals first
    | exact responseDirective_mapped reg file fuel apiDoc doc _ h hinv
    | exact responseBodyDirective_mapped reg file fuel apiDoc doc _ h hinv
    | exact bodyDirective_mapped reg file fuel apiDoc doc _ h hinv
    | (obtain rfl := Option.some.inj h; exact paramDirective_mapped _ _ hinv)
    | (obtain rfl := Option.some.inj h; exact hinv)

theorem parseDirective_mapped (reg : Registry) (file : FileInfo) (fuel : Nat)
    (apiDoc doc : APIDoc) (commentText : String)
    (h : parseDirective reg file fuel apiDoc commentText = some doc)
    (hinv : MappedTypes apiDoc) : MappedTypes doc := by
  unfold parseDirective at h
  simp only [] at h
  by_cases h1 : trimSpace (trimPrefix commentText "//") = "runapi"
  · rw [if_pos h1] at h
    obtain rfl := Option.some.inj h; exact hinv
  · rw [if_neg h1] at h
    by_cases h2 : hasPrefix (trimSpace (trimPrefix commentText "//")) "@remark" = true
    · rw [if_pos h2] at h
      obtain rfl := Option.some.inj h; exact hinv
    · rw [if_neg h2] at h
      split at h
      · obtain rfl := Option.some.inj h; exact hinv
      · split_ifs at h
        · obtain rfl := Option.some.inj h; exact hinv
        · exact dispatchDirective_mapped reg file fuel apiDoc _ _ hinv doc h

theorem parseDirectives_mapped (reg : Registry) (file : FileInfo) (fuel : Nat)
    (comments : List String) :
    ∀ (apiDoc doc : APIDoc), parseDirectives reg file fuel apiDoc comments = some doc →
      MappedTypes apiDoc → MappedTypes doc := by
  induction comments with
  | nil =>
    intro apiDoc doc h hinv
    simp only [parseDirectives, Option.some.injEq] at h
    subst h; exact hinv
  | cons c rest ih =>
    intro apiDoc doc h hinv
    rw [parseDirectives] at h
    cases hstep : parseDirective reg file fuel apiDoc c with
    | none => rw [hstep] at h; cases h
    | some doc1 =>
      rw [hstep] at h
      exact ih doc1 doc h (parseDirective_mapped reg file fuel apiDoc doc1 c hstep hinv)

/-- C20, as the code has it: the request mapper produces a tag of the nine of
the data model, the response mapper one of `string`, `int`, `long`, `number`,
`boolean`, `object`, `array`; so do the leaves of a flattening, and in a
descriptor that `parseFuncDoc` returns the header, query, formData and body
parameters carry a tag of the nine and the response headers one of the seven. -/
theorem mapper_types_in_tag_sets :
    (∀ token, mapGoTypeToRequestType token ∈ requestTags) ∧
    (∀ token, mapGoTypeToResponseType token ∈ responseTags) ∧
    (∀ reg fuel structName pre out, deepParseStruct reg fuel structName pre = some out →
      ∀ leaf ∈ out, leaf.Typ ∈ responseTags) ∧
    (∀ reg file fuel comments doc, parseFuncDoc reg file fuel comments = some doc →
      (∀ p ∈ doc.Header ++ doc.Query ++ doc.FormData ++ doc.Body, p.Typ ∈ requestTags) ∧
      (∀ p ∈ doc.ResponseHeader, p.Typ ∈ responseTags)) := by
  refine ⟨requestType_mem, responseType_mem, deepParseStruct_types, ?_⟩
  intro reg file fuel comments doc h
  obtain ⟨h1, h2, h3, h4, h5⟩ := parseDirectives_mapped reg file fuel comments emptyDoc doc h
    ⟨by simp [emptyDoc], by simp [emptyDoc], by simp [emptyDoc], by simp [emptyDoc],
     by simp [emptyDoc]⟩
  refine ⟨?_, h5⟩
  intro p hp
  simp only [List.mem_append] at hp
  rcases hp with ((hp | hp) | hp) | hp
  · exact h1 p hp
  · exact h2 p hp
  · exact h3 p hp
  · exact h4 p hp

/-- C20, witness: the flattening of `api.Metrics` returns six leaves, and
each carries a tag that the response mapper produces. -/
theorem mapper_types_in_tag_sets_witness :
    deepParseStruct metricsReg 2 "api.Metrics" "" = some metricsLeaves ∧
    (∀ leaf ∈ metricsLeaves, leaf.Typ ∈ responseTags) :=
  ⟨by decide,
   mapper_types_in_tag_sets.2.2.1 metricsReg 2 "api.Metrics" "" metricsLeaves (by decide)⟩

/-- C20, counterexample: the response mapper gives `number` for `float32`,
which is none of the nine tags of the data model. -/
theorem response_float_is_number :
    mapGoTypeToResponseType "float32" = "number" ∧
    mapGoTypeToResponseType "float32" ∉
      ["string", "int", "long", "float", "double", "boolean", "object", "array", "file"] := by
  decide

/-! ## Validation -/

/-- C15: `validateAPIDoc` returns an error exactly when the title is empty,
or the method is empty, or both the router and the url are empty. -/
theorem validateAPIDoc_error_iff (doc : APIDoc) :
    (validateAPIDoc doc).isSome = true ↔
      doc.Title = "" ∨ doc.Method = "" ∨ (doc.Router = "" ∧ doc.URL = "") := by
  unfold validateAPIDoc
  by_cases h1 : doc.Title = ""
  · simp only [h1, if_true, Option.isSome_some, true_or]
  · by_cases h2 : doc.Method = ""
    · simp only [h1, h2, if_true, if_false, Option.isSome_some, true_or, or_true]
    · by_cases h3 : doc.Router = "" ∧ doc.URL = ""
      · simp only [h1, h2, h3, if_false, and_self, if_true, Option.isSome_some, or_true]
      · simp only [h1, h2, h3, if_false, Option.isSome_none, Bool.false_eq_true, or_self]

theorem filterMap_length_pos {α β : Type} (f : α → Option β) (l : List α) :
    (l.filterMap f).length > 0 ↔ ∃ a ∈ l, (f a).isSome = true := by
  induction l with
  | nil => simp
  | cons a rest ih =>
    rw [List.filterMap_cons]
    cases hfa : f a with
    | none =>
      simp only [ih, List.mem_cons, exists_eq_or_imp, hfa, Option.isSome_none,
        Bool.false_eq_true, false_or]
    | some b =>
      simp only [List.length_cons, gt_iff_lt, Nat.zero_lt_succ, List.mem_cons,
        exists_eq_or_imp, hfa, Option.isSome_some, true_or]

/-- C16: when `json.MarshalIndent` succeeds on the batch, as it does on every
list of descriptors, `GenerateJSON` returns an error together with the empty
string exactly when some descriptor of the batch fails `validateAPIDoc`; one
invalid descriptor anywhere gives the validation error and no output, and a
batch without one gives the marshalled text and no error. -/
theorem GenerateJSON_error_iff (marshalIndent : List APIDoc → Except String String)
    (apiDocs : List APIDoc) (hmarshal : ∃ jsonData, marshalIndent apiDocs = .ok jsonData) :
    (((GenerateJSON marshalIndent apiDocs).2.isSome = true ∧
        (GenerateJSON marshalIndent apiDocs).1 = "") ↔
      ∃ doc ∈ apiDocs, (validateAPIDoc doc).isSome = true) ∧
    ((∃ doc ∈ apiDocs, (validateAPIDoc doc).isSome = true) →
      GenerateJSON marshalIndent apiDocs = ("", some "API文档校验失败，请修复上述问题后重试")) ∧
    ((¬ ∃ doc ∈ apiDocs, (validateAPIDoc doc).isSome = true) →
      ∃ jsonData, marshalIndent apiDocs = .ok jsonData ∧
        GenerateJSON marshalIndent apiDocs = (jsonData, none)) := by
  obtain ⟨jsonData, hjson⟩ := hmarshal
  unfold GenerateJSON
  simp only [filterMap_length_pos, hjson]
  by_cases hbad : ∃ doc ∈ apiDocs, (validateAPIDoc doc).isSome = true
  · simp only [hbad, if_true, Option.isSome_some, and_self, true_iff, not_true_eq_false,
      false_implies, implies_true]
  · simp only [hbad, if_false, Option.isSome_none, Bool.false_eq_true, false_and,
      false_implies, not_false_eq_true, Except.ok.injEq, exists_eq_left', true_implies,
      and_self]

/-- C16, witness: a batch whose second descriptor has no title yields the
validation error and the empty string; the valid batch yields the text. -/
theorem GenerateJSON_error_iff_witness :
    GenerateJSON (fun _ => .ok "[]") [docOf "A" "get" "/a", docOf "" "get" "/b"] =
      ("", some "API文档校验失败，请修复上述问题后重试") ∧
    GenerateJSON (fun _ => .ok "[]") [docOf "A" "get" "/a"] = ("[]", none) :=
  ⟨(GenerateJSON_error_iff (fun _ => .ok "[]") [docOf "A" "get" "/a", docOf "" "get" "/b"]
      ⟨"[]", rfl⟩).2.1 (by decide),
   by decide⟩

/-! ## Diff: no-op, symmetry, order -/

theorem paramsEqual_refl (params : List RequestParam) : paramsEqual params params = true := by
  unfold paramsEqual
  simp only [ne_eq, not_true_eq_false, if_false]
  induction params with
  | nil => rfl
  | cons p rest ih => rw [List.zip_cons_cons, List.all_cons, ih]; simp

theorem responseParamsEqual_refl (params : List ResponseParam) :
    responseParamsEqual params params = true := by
  unfold responseParamsEqual
  simp only [ne_eq, not_true_eq_false, if_false]
  induction params with
  | nil => rfl
  | cons p rest ih => rw [List.zip_cons_cons, List.all_cons, ih]; simp

theorem docsEqual_refl (doc : APIDoc) : docsEqual doc doc = true := by
  unfold docsEqual
  simp [paramsEqual_refl, responseParamsEqual_refl]

/-- C11: for every list of documents, repeated keys included, and every
order in which the two maps built from it are enumerated, the diff of the list
with itself has empty `Added`, `Removed` and `Changed`, and `HasChanges` is
false. -/
theorem CompareDocuments_self (docs : List APIDoc) (oldEnum newEnum : GoMap APIDoc)
    (hold : List.Perm oldEnum (docMap docs)) (hnew : List.Perm newEnum (docMap docs)) :
    (compareMaps oldEnum newEnum).Added = [] ∧ (compareMaps oldEnum newEnum).Removed = [] ∧
    (compareMaps oldEnum newEnum).Changed = [] ∧
    (compareMaps oldEnum newEnum).HasChanges = false := by
  have hN := compareNew_spec oldEnum newEnum [] []
  have hO := compareOld_spec newEnum oldEnum []
  have hA : (compareMaps oldEnum newEnum).Added = [] := by
    rw [List.eq_nil_iff_forall_not_mem]
    intro doc hdoc
    have := (hN.1 doc).mp hdoc
    rcases this with h | ⟨key, hmem, hnone⟩
    · cases h
    · rw [docMap_mem_iff docs newEnum hnew] at hmem
      rw [docMap_enum_lookup docs oldEnum hold, hmem] at hnone
      cases hnone
  have hR : (compareMaps oldEnum newEnum).Removed = [] := by
    rw [List.eq_nil_iff_forall_not_mem]
    intro doc hdoc
    have := (hO doc).mp hdoc
    rcases this with h | ⟨key, hmem, hnone⟩
    · cases h
    · rw [docMap_mem_iff docs oldEnum hold] at hmem
      rw [docMap_enum_lookup docs newEnum hnew, hmem] at hnone
      cases hnone
  have hC : (compareMaps oldEnum newEnum).Changed = [] := by
    rw [List.eq_nil_iff_forall_not_mem]
    intro change hchange
    have := (hN.2 change).mp hchange
    rcases this with h | ⟨key, hmem, hsome, hne⟩
    · cases h
    · rw [docMap_mem_iff docs newEnum hnew] at hmem
      rw [docMap_enum_lookup docs oldEnum hold, hmem] at hsome
      have heq : change.New = change.Old := Option.some.inj hsome
      rw [heq, docsEqual_refl] at hne
      cases hne
  refine ⟨hA, hR, hC, ?_⟩
  simp [DocumentDiff.HasChanges, hA, hR, hC]

/-- C11, witness: a list in which two documents share the key `get:/a`. -/
theorem CompareDocuments_self_witness :
    CompareDocuments [docOf "A" "get" "/a", docOf "B" "get" "/a", docOf "C" "post" "/c"]
        [docOf "A" "get" "/a", docOf "B" "get" "/a", docOf "C" "post" "/c"] =
      { Added := [], Removed := [], Changed := [] } ∧
    (CompareDocuments [docOf "A" "get" "/a", docOf "B" "get" "/a", docOf "C" "post" "/c"]
        [docOf "A" "get" "/a", docOf "B" "get" "/a", docOf "C" "post" "/c"]).HasChanges =
      false :=
  ⟨by decide,
   (CompareDocuments_self [docOf "A" "get" "/a", docOf "B" "get" "/a", docOf "C" "post" "/c"]
      _ _ (List.Perm.refl _) (List.Perm.refl _)).2.2.2⟩

/-- C12: for all lists of old and new documents and all enumerations of the
maps, a document is in `Added` of the diff from old to new exactly when it is
in `Removed` of the diff from new to old, and in `Removed` of the first exactly
when it is in `Added` of the second. -/
theorem CompareDocuments_symmetry (oldDocs newDocs : List APIDoc)
    (oldEnum newEnum oldEnum2 newEnum2 : GoMap APIDoc)
    (hold : List.Perm oldEnum (docMap oldDocs)) (hnew : List.Perm newEnum (docMap newDocs))
    (hold2 : List.Perm oldEnum2 (docMap oldDocs))
    (hnew2 : List.Perm newEnum2 (docMap newDocs)) (doc : APIDoc) :
    (doc ∈ (compareMaps oldEnum newEnum).Added ↔
      doc ∈ (compareMaps newEnum2 oldEnum2).Removed) ∧
    (doc ∈ (compareMaps oldEnum newEnum).Removed ↔
      doc ∈ (compareMaps newEnum2 oldEnum2).Added) := by
  have hN := (compareNew_spec oldEnum newEnum [] []).1 doc
  have hO := compareOld_spec newEnum oldEnum [] doc
  have hN2 := (compareNew_spec newEnum2 oldEnum2 [] []).1 doc
  have hO2 := compareOld_spec oldEnum2 newEnum2 [] doc
  unfold compareMaps
  simp only []
  constructor
  · rw [hN, hO2]
    simp only [List.not_mem_nil, false_or, docMap_mem_iff newDocs newEnum hnew,
      docMap_mem_iff newDocs newEnum2 hnew2, docMap_enum_lookup oldDocs oldEnum hold,
      docMap_enum_lookup oldDocs oldEnum2 hold2]
  · rw [hO, hN2]
    simp only [List.not_mem_nil, false_or, docMap_mem_iff oldDocs oldEnum hold,
      docMap_mem_iff oldDocs oldEnum2 hold2, docMap_enum_lookup newDocs newEnum hnew,
      docMap_enum_lookup newDocs newEnum2 hnew2]

/-- C12, witness: old `GET /a`, `POST /b` against new `GET /a`, `GET /c`. -/
theorem CompareDocuments_symmetry_witness :
    (CompareDocuments [docOf "A" "get" "/a", docOf "B" "post" "/b"]
        [docOf "A2" "get" "/a", docOf "C" "get" "/c"]).Added =
      (CompareDocuments [docOf "A2" "get" "/a", docOf "C" "get" "/c"]
        [docOf "A" "get" "/a", docOf "B" "post" "/b"]).Removed ∧
    (docOf "B" "post" "/b" ∈
      (compareMaps (docMap [docOf "A" "get" "/a", docOf "B" "post" "/b"])
        (docMap [docOf "A2" "get" "/a", docOf "C" "get" "/c"])).Removed ↔
     docOf "B" "post" "/b" ∈
      (compareMaps (docMap [docOf "A2" "get" "/a", docOf "C" "get" "/c"])
        (docMap [docOf "A" "get" "/a", docOf "B" "post" "/b"])).Added) :=
  ⟨by decide,
   (CompareDocuments_symmetry [docOf "A" "get" "/a", docOf "B" "post" "/b"]
      [docOf "A2" "get" "/a", docOf "C" "get" "/c"] _ _ _ _ (List.Perm.refl _)
      (List.Perm.refl _) (List.Perm.refl _) (List.Perm.refl _) (docOf "B" "post" "/b")).2⟩

theorem zip_all_false {α : Type} (f : α × α → Bool) (a : List α) (x y : α) (r1 r2 : List α)
    (hxy : f (x, y) = false) : ((a ++ x :: r1).zip (a ++ y :: r2)).all f = false := by
  induction a with
  | nil => simp [List.zip_cons_cons, List.all_cons, hxy]
  | cons a0 rest ih =>
    rw [List.cons_append, List.cons_append, List.zip_cons_cons, List.all_cons, ih,
      Bool.and_false]

theorem paramsEqual_exchanged (l1 l2 : List RequestParam)
    (h : Exchanged RequestParam.Name l1 l2) : paramsEqual l1 l2 = false := by
  obtain ⟨a, b, c, x, y, hne, rfl, rfl⟩ := h
  unfold paramsEqual
  split
  · rfl
  · exact zip_all_false _ a x y _ _ (by simp [hne])

theorem responseParamsEqual_exchanged (l1 l2 : List ResponseParam)
    (h : Exchanged ResponseParam.Name l1 l2) : responseParamsEqual l1 l2 = false := by
  obtain ⟨a, b, c, x, y, hne, rfl, rfl⟩ := h
  unfold responseParamsEqual
  split
  · rfl
  · exact zip_all_false _ a x y _ _ (by simp [hne])

theorem docsEqual_lists (doc1 doc2 : APIDoc) (h : docsEqual doc1 doc2 = true) :
    paramsEqual doc1.Header doc2.Header = true ∧ paramsEqual doc1.Query doc2.Query = true ∧
    paramsEqual doc1.FormData doc2.FormData = true ∧ paramsEqual doc1.Body doc2.Body = true ∧
    responseParamsEqual doc1.ResponseHeader doc2.ResponseHeader = true ∧
    responseParamsEqual doc1.ResponseBody doc2.ResponseBody = true := by
  unfold docsEqual at h
  split at h
  · cases h
  · split at h
    · cases h
    · simp only [Bool.and_eq_true] at h
      obtain ⟨⟨⟨⟨⟨h1, h2⟩, h3⟩, h4⟩, h5⟩, h6⟩ := h
      exact ⟨h1, h2, h3, h4, h5, h6⟩

theorem docsEqual_reordered (doc1 doc2 : APIDoc) (h : Reordered doc1 doc2) :
    docsEqual doc1 doc2 = false := by
  cases hd : docsEqual doc1 doc2 with
  | false => rfl
  | true =>
    exfalso
    obtain ⟨h1, h2, h3, h4, h5, h6⟩ := docsEqual_lists doc1 doc2 hd
    rcases h with ⟨l, hl, rfl⟩ | ⟨l, hl, rfl⟩ | ⟨l, hl, rfl⟩ | ⟨l, hl, rfl⟩ | ⟨l, hl, rfl⟩ |
      ⟨l, hl, rfl⟩
    · rw [paramsEqual_exchanged _ _ hl] at h1; cases h1
    · rw [paramsEqual_exchanged _ _ hl] at h2; cases h2
    · rw [paramsEqual_exchanged _ _ hl] at h3; cases h3
    · rw [paramsEqual_exchanged _ _ hl] at h4; cases h4
    · rw [responseParamsEqual_exchanged _ _ hl] at h5; cases h5
    · rw [responseParamsEqual_exchanged _ _ hl] at h6; cases h6

/-- C14: when the documents kept under a key in the old and in the new
snapshot are identical except that one parameter list of the new one is that of
the old one with two elements of different name exchanged, `docsEqual` of the
two is false and the pair is in `Changed`, whatever the enumeration of the
maps. -/
theorem reordering_is_a_change (oldDocs newDocs : List APIDoc) (oldEnum newEnum : GoMap APIDoc)
    (hold : List.Perm oldEnum (docMap oldDocs)) (hnew : List.Perm newEnum (docMap newDocs))
    (key : String) (doc1 doc2 : APIDoc)
    (h1 : lastWithKey oldDocs key = some doc1) (h2 : lastWithKey newDocs key = some doc2)
    (hre : Reordered doc1 doc2) :
    docsEqual doc1 doc2 = false ∧
    { Old := doc1, New := doc2 } ∈ (compareMaps oldEnum newEnum).Changed := by
  have hne := docsEqual_reordered doc1 doc2 hre
  refine ⟨hne, ?_⟩
  have hN := (compareNew_spec oldEnum newEnum [] []).2 { Old := doc1, New := doc2 }
  unfold compareMaps
  simp only []
  rw [hN]
  right
  exact ⟨key, (docMap_mem_iff newDocs newEnum hnew key doc2).mpr h2,
    by rw [docMap_enum_lookup oldDocs oldEnum hold]; exact h1, hne⟩

/-- C14, witness: the query parameters `page` and `size` exchanged. -/
theorem reordering_is_a_change_witness :
    docsEqual queryDoc queryDocSwapped = false ∧
    CompareDocuments [queryDoc] [queryDocSwapped] =
      { Added := [], Removed := [], Changed := [{ Old := queryDoc, New := queryDocSwapped }] } ∧
    { Old := queryDoc, New := queryDocSwapped } ∈
      (compareMaps (docMap [queryDoc]) (docMap [queryDocSwapped])).Changed :=
  ⟨by decide, by decide,
   (reordering_is_a_change [queryDoc] [queryDocSwapped] _ _ (List.Perm.refl _)
      (List.Perm.refl _) "get:/a" queryDoc queryDocSwapped (by decide) (by decide)
      (Or.inr (Or.inl ⟨_, ⟨[], [], [], _, _, by decide, rfl, rfl⟩, rfl⟩))).2⟩

/-- C13: the old and the new snapshot hold one document each, with the same
key, identical except that the parameter `id` of the response body is required
in the old one and not in the new one; `docsEqual` is true of the two and the
diff is empty, where one `Changed` entry is expected. -/
theorem response_required_flip_not_reported :
    requiredDoc ≠ optionalDoc ∧
    getDocKey requiredDoc = getDocKey optionalDoc ∧
    docsEqual requiredDoc optionalDoc = true ∧
    CompareDocuments [requiredDoc] [optionalDoc] =
      { Added := [], Removed := [], Changed := [] } := by
  decide

/-- C19: for `@body Metrics` the body parameters of the fields of type
`int64`, `bool`, `float32`, `float64` and `[]string` all have the type `object`,
where the request mapping of the declared type tokens is `long`, `boolean`,
`float`, `double`, `array`: the request mapper is applied to the type that the
flattening has already mapped. -/
theorem body_types_mapped_twice :
    parseFuncDoc metricsReg apiCaller 2 ["// runapi", "// @body Metrics"] =
      some { emptyDoc with Body :=
        [{ Name := "count", Typ := "object", Require := "true", Remark := "总数" },
         { Name := "ok", Typ := "object", Require := "true", Remark := "" },
         { Name := "ratio", Typ := "object", Require := "true", Remark := "" },
         { Name := "score", Typ := "object", Require := "true", Remark := "" },
         { Name := "tags", Typ := "object", Require := "true", Remark := "" },
         { Name := "label", Typ := "string", Require := "false", Remark := "" }] } ∧
    (metricsReg.lookup "api.Metrics").map (fun structInfo =>
        structInfo.Fields.map (fun field => mapGoTypeToRequestType field.Typ)) =
      some ["long", "boolean", "float", "double", "array", "string"] := by
  decide

/-! ## Directive lines -/

theorem dropWhile_append_all (p : Char → Bool) (ws x : List Char)
    (h : ∀ c ∈ ws, p c = true) : (ws ++ x).dropWhile p = x.dropWhile p := by
  induction ws with
  | nil => rfl
  | cons c rest ih =>
    have hc : p c = true := h c (List.mem_cons_self _ _)
    rw [List.cons_append, List.dropWhile_cons, if_pos hc]
    exact ih (fun d hd => h d (List.mem_cons_of_mem _ hd))

theorem rdrop_append (p : Char → Bool) (u v : List Char) (hv : v ≠ [])
    (hfix : (v.reverse.dropWhile p).reverse = v) :
    ((u ++ v).reverse.dropWhile p).reverse = u ++ v := by
  rcases List.eq_nil_or_concat v with rfl | ⟨v1, y, hvy⟩
  · exact absurd rfl hv
  · rw [List.concat_eq_append] at hvy
    subst hvy
    have hy : p y = false := by
      by_contra hp
      simp only [Bool.not_eq_false] at hp
      have hlen := congrArg List.length hfix
      simp only [List.reverse_append, List.reverse_cons, List.reverse_nil, List.nil_append,
        List.singleton_append, List.dropWhile_cons, hp, if_true, List.length_reverse,
        List.length_append, List.length_cons, List.length_nil] at hlen
      have := (List.dropWhile_suffix (l := v1.reverse) p).length_le
      simp only [List.length_reverse] at this
      omega
    simp [List.reverse_append, List.dropWhile_cons, hy]

theorem trimSpace_data (s : String) :
    (trimSpace s).data = ((s.data.dropWhile isSpace).reverse.dropWhile isSpace).reverse := rfl

theorem trimSpace_blank_append (ws x : String) (hws : ∀ c ∈ ws.data, isSpace c = true)
    (hx : trimSpace x = x) : trimSpace (ws ++ x) = x := by
  apply String.ext
  rw [trimSpace_data, String.data_append, dropWhile_append_all isSpace _ _ hws,
    ← trimSpace_data, hx]

theorem trimSpace_between (a m v : String) (ha : a ≠ "") (hta : trimSpace a = a)
    (hv : v ≠ "") (htv : trimSpace v = v) : trimSpace (a ++ m ++ v) = a ++ m ++ v := by
  have ha' := trim_fixed isSpace a.data (by rw [← trimSpace_data, hta])
  have hv' := trim_fixed isSpace v.data (by rw [← trimSpace_data, htv])
  have hane : a.data ≠ [] := fun h => ha (String.ext h)
  have hvne : v.data ≠ [] := fun h => hv (String.ext h)
  apply String.ext
  rw [trimSpace_data]
  simp only [String.data_append, List.append_assoc]
  exact trim_append isSpace a.data (m.data ++ v.data) hane ha'.1 ha'.2
    (rdrop_append isSpace m.data v.data hvne hv'.2)

theorem isPrefixOf_append_sep (p : List Char) (c : Char) (hc : c ∉ p) :
    ∀ (k rest : List Char), p.isPrefixOf (k ++ c :: rest) = p.isPrefixOf k := by
  induction p with
  | nil => intro k rest; simp [List.isPrefixOf]
  | cons a p1 ih =>
    intro k rest
    simp only [List.mem_cons, not_or] at hc
    cases k with
    | nil =>
      have hac : (a == c) = false := beq_eq_false_iff_ne.mpr (Ne.symm hc.1)
      simp [List.isPrefixOf, hac]
    | cons b k1 =>
      show (a == b && p1.isPrefixOf (k1 ++ c :: rest)) = (a == b && p1.isPrefixOf k1)
      rw [ih hc.2 k1 rest]

theorem parseDirective_line (reg : Registry) (file : FileInfo) (fuel : Nat) (apiDoc : APIDoc)
    (lead key ws v : String)
    (hlead : ∀ c ∈ lead.data, isSpace c = true)
    (hk1 : key ≠ "") (hk2 : ' ' ∉ key.data) (hk3 : trimSpace key = key)
    (hk4 : hasPrefix key "@remark" = false)
    (hws : ∀ c ∈ ws.data, isSpace c = true) (hv1 : v ≠ "") (hv2 : trimSpace v = v) :
    parseDirective reg file fuel apiDoc ("//" ++ lead ++ key ++ " " ++ ws ++ v) =
      dispatchDirective reg file fuel apiDoc key v := by
  have e1 : "//" ++ lead ++ key ++ " " ++ ws ++ v = "//" ++ (lead ++ (key ++ (" " ++ ws) ++ v)) := by
    simp only [String.append_assoc]
  have htext : trimSpace (trimPrefix ("//" ++ lead ++ key ++ " " ++ ws ++ v) "//") =
      key ++ (" " ++ ws) ++ v := by
    rw [e1, trimPrefix_append]
    exact trimSpace_blank_append lead _ hlead (trimSpace_between key _ v hk1 hk3 hv1 hv2)
  have hdata : (key ++ (" " ++ ws) ++ v).data = key.data ++ ' ' :: (ws.data ++ v.data) := by
    simp [String.data_append]
  have hrun : ¬ (key ++ (" " ++ ws) ++ v = "runapi") := by
    intro h
    have h2 := congrArg String.data h
    rw [hdata] at h2
    have hmem : ' ' ∈ key.data ++ ' ' :: (ws.data ++ v.data) := by simp
    rw [h2] at hmem
    revert hmem
    decide
  have hrem : hasPrefix (key ++ (" " ++ ws) ++ v) "@remark" = false := by
    unfold hasPrefix at hk4 ⊢
    rw [hdata, isPrefixOf_append_sep _ ' ' (by decide)]
    exact hk4
  have hcut : cutList ' ' (key ++ (" " ++ ws) ++ v).data = some (key.data, ws.data ++ v.data) := by
    rw [hdata, cutList_append _ _ _ hk2]
  have hval : trimSpace ⟨' ' :: (ws.data ++ v.data)⟩ = v := by
    have := trimSpace_blank_append (" " ++ ws) v (by
      intro c hc
      simp only [String.data_append, List.mem_append] at hc
      rcases hc with hc | hc
      · have : c = ' ' := by simpa using hc
        rw [this]; decide
      · exact hws c hc) hv2
    have hstr : (⟨' ' :: (ws.data ++ v.data)⟩ : String) = " " ++ ws ++ v :=
      String.ext (by simp [String.data_append])
    rw [hstr, this]
  unfold parseDirective
  simp only [htext, hrun, if_false, hrem, Bool.false_eq_true, hcut, hval, hv1]

theorem trimPrefix_of_not_prefix (s pre : String) (h : hasPrefix s pre = false) :
    trimPrefix s pre = s := by
  simp [trimPrefix, h]

theorem star_append_ne (t s : String) (hs : hasPrefix s "*" = false) : "*" ++ t ≠ s := by
  intro h
  rw [← h, hasPrefix_append] at hs
  cases hs

/-- C21: exactly one leading pointer marker is removed before the lookup.  For
both mappers and every token `t` that does not begin with `*`, the token
`"*" ++ t` is mapped as `t` is; a second marker is not removed: every token
that begins with two markers is mapped to `object`. -/
theorem one_pointer_marker_stripped (t : String) :
    (hasPrefix t "*" = false →
      mapGoTypeToRequestType ("*" ++ t) = mapGoTypeToRequestType t ∧
      mapGoTypeToResponseType ("*" ++ t) = mapGoTypeToResponseType t) ∧
    mapGoTypeToRequestType ("*" ++ ("*" ++ t)) = "object" ∧
    mapGoTypeToResponseType ("*" ++ ("*" ++ t)) = "object" := by
  refine ⟨fun h => ?_, ?_, ?_⟩
  · rw [mapGoTypeToRequestType_eq, mapGoTypeToRequestType_eq t, mapGoTypeToResponseType_eq,
      mapGoTypeToResponseType_eq t, trimPrefix_append, trimPrefix_of_not_prefix t "*" h]
    exact ⟨rfl, rfl⟩
  · rw [mapGoTypeToRequestType_eq, trimPrefix_append]
    have hne : ∀ s, hasPrefix s "*" = false → ¬ ("*" ++ t = s) := star_append_ne t
    have hp : hasPrefix ("*" ++ t) "[]" = false := rfl
    rw [if_neg (by rw [hp]; decide), if_neg (hne _ (by decide)),
      if_neg (by
        simp only [List.mem_cons, List.mem_singleton, List.not_mem_nil, or_false, not_or]
        exact ⟨hne _ (by decide), hne _ (by decide), hne _ (by decide), hne _ (by decide),
          hne _ (by decide), hne _ (by decide), hne _ (by decide), hne _ (by decide)⟩),
      if_neg (by
        simp only [List.mem_cons, List.mem_singleton, List.not_mem_nil, or_false, not_or]
        exact ⟨hne _ (by decide), hne _ (by decide)⟩),
      if_neg (hne _ (by decide)), if_neg (hne _ (by decide)), if_neg (hne _ (by decide)),
      if_neg (hne _ (by decide)), if_neg (hne _ (by decide))]
  · rw [mapGoTypeToResponseType_eq, trimPrefix_append]
    have hne : ∀ s, hasPrefix s "*" = false → ¬ ("*" ++ t = s) := star_append_ne t
    have hp : hasPrefix ("*" ++ t) "[]" = false := rfl
    rw [if_neg (by rw [hp]; decide), if_neg (hne _ (by decide)),
      if_neg (by
        simp only [List.mem_cons, List.mem_singleton, List.not_mem_nil, or_false, not_or]
        exact ⟨hne _ (by decide), hne _ (by decide), hne _ (by decide), hne _ (by decide),
          hne _ (by decide), hne _ (by decide), hne _ (by decide), hne _ (by decide)⟩),
      if_neg (by
        simp only [List.mem_cons, List.mem_singleton, List.not_mem_nil, or_false, not_or]
        exact ⟨hne _ (by decide), hne _ (by decide)⟩),
      if_neg (by
        simp only [List.mem_cons, List.mem_singleton, List.not_mem_nil, or_false, not_or]
        exact ⟨hne _ (by decide), hne _ (by decide)⟩),
      if_neg (hne _ (by decide)), if_neg (hne _ (by decide))]

/-- C21, witness: `*int` is mapped as `int`, to `int`, and `**int` to
`object`, by both mappers. -/
theorem one_pointer_marker_stripped_witness :
    mapGoTypeToRequestType "*int" = "int" ∧ mapGoTypeToResponseType "*int" = "int" ∧
    mapGoTypeToRequestType ("*" ++ "int") = mapGoTypeToRequestType "int" ∧
    mapGoTypeToResponseType ("*" ++ "int") = mapGoTypeToResponseType "int" ∧
    mapGoTypeToRequestType ("*" ++ ("*" ++ "int")) = "object" ∧
    mapGoTypeToResponseType ("*" ++ ("*" ++ "int")) = "object" :=
  ⟨by decide, by decide,
   ((one_pointer_marker_stripped "int").1 (by decide)).1,
   ((one_pointer_marker_stripped "int").1 (by decide)).2,
   (one_pointer_marker_stripped "int").2.1, (one_pointer_marker_stripped "int").2.2⟩

theorem paramDirective_of_fields (apiDoc : APIDoc) (value : String)
    (paramName paramLocation paramType paramRequired : String) (more : List String)
    (h : fields value = paramName :: paramLocation :: paramType :: paramRequired :: more) :
    paramDirective apiDoc value =
      (if paramLocation = "header" then
        { apiDoc with Header := apiDoc.Header ++
            [{ Name := paramName, Typ := mapGoTypeToRequestType paramType,
               Require := paramRequired, Remark := joinWith " " more }] }
      else if paramLocation = "query" then
        { apiDoc with Query := apiDoc.Query ++
            [{ Name := paramName, Typ := mapGoTypeToRequestType paramType,
               Require := paramRequired, Remark := joinWith " " more }] }
      else if paramLocation = "formData" then
        { apiDoc with FormData := apiDoc.FormData ++
            [{ Name := paramName, Typ := mapGoTypeToRequestType paramType,
               Require := paramRequired, Remark := joinWith " " more }] }
      else apiDoc) := by
  unfold paramDirective
  rw [h]
  simp only []
  cases more with
  | nil => rfl
  | cons m rest =>
    have hpos : (m :: rest).length > 0 := Nat.succ_pos _
    simp only [hpos, if_true]

theorem paramDirective_of_short (apiDoc : APIDoc) (value : String)
    (h : (fields value).length < 4) : paramDirective apiDoc value = apiDoc := by
  unfold paramDirective
  split
  · rename_i heq
    rw [heq] at h
    simp only [List.length_cons] at h
    omega
  · rfl

/-- C22: the line `// @param value`, for a non-empty `value` without blanks
around it, turns the descriptor into `paramDirective apiDoc value`, for every
registry and every bound.  When `value` has the tokens name, location, type,
required and then `more`, the parameter (name, request-mapped type, the
required token as it is, `more` joined by single spaces) is appended at the
end of the list of the location `header`, `query` or `formData` and nothing
else changes; for any other location, and for fewer than four tokens, the
descriptor is unchanged. -/
theorem param_line (reg : Registry) (file : FileInfo) (fuel : Nat) (apiDoc : APIDoc)
    (value : String) (hv1 : value ≠ "") (hv2 : trimSpace value = value) :
    parseDirective reg file fuel apiDoc ("// @param " ++ value) =
      some (paramDirective apiDoc value) ∧
    (∀ paramName paramLocation paramType paramRequired more,
      fields value = paramName :: paramLocation :: paramType :: paramRequired :: more →
      (paramLocation = "header" → paramDirective apiDoc value =
        { apiDoc with Header := apiDoc.Header ++
            [{ Name := paramName, Typ := mapGoTypeToRequestType paramType,
               Require := paramRequired, Remark := joinWith " " more }] }) ∧
      (paramLocation = "query" → paramDirective apiDoc value =
        { apiDoc with Query := apiDoc.Query ++
            [{ Name := paramName, Typ := mapGoTypeToRequestType paramType,
               Require := paramRequired, Remark := joinWith " " more }] }) ∧
      (paramLocation = "formData" → paramDirective apiDoc value =
        { apiDoc with FormData := apiDoc.FormData ++
            [{ Name := paramName, Typ := mapGoTypeToRequestType paramType,
               Require := paramRequired, Remark := joinWith " " more }] }) ∧
      (paramLocation ≠ "header" → paramLocation ≠ "query" → paramLocation ≠ "formData" →
        paramDirective apiDoc value = apiDoc)) ∧
    ((fields value).length < 4 → paramDirective apiDoc value = apiDoc) := by
  refine ⟨?_, ?_, paramDirective_of_short apiDoc value⟩
  · have h := parseDirective_line reg file fuel apiDoc " " "@param" "" value (by decide)
      (by decide) (by decide) (by decide) (by decide) (by decide) hv1 hv2
    have e : "//" ++ " " ++ "@param" ++ " " ++ "" ++ value = "// @param " ++ value := by
      have e2 : ("//" : String) ++ " " ++ "@param" ++ " " ++ "" = "// @param " := by decide
      rw [e2]
    rw [e] at h
    rw [h]
    rfl
  · intro paramName paramLocation paramType paramRequired more hf
    rw [paramDirective_of_fields apiDoc value _ _ _ _ _ hf]
    refine ⟨fun h => by rw [if_pos h], fun h => ?_, fun h => ?_, fun h1 h2 h3 => ?_⟩
    · rw [h, if_neg (by decide), if_pos rfl]
    · rw [h, if_neg (by decide), if_neg (by decide), if_pos rfl]
    · rw [if_neg h1, if_neg h2, if_neg h3]

/-- C22, witness: the `@param` line of the example server adds one header
parameter whose remark is the two last tokens joined by a space, and a line
with the location `path` changes nothing. -/
theorem param_line_witness :
    parseDirective [] apiCaller 0 emptyDoc "// @param token header string true 授权 token" =
      some { emptyDoc with Header :=
        [{ Name := "token", Typ := "string", Require := "true", Remark := "授权 token" }] } ∧
    parseDirective [] apiCaller 0 emptyDoc ("// @param " ++ "id path int true") =
      some (paramDirective emptyDoc "id path int true") ∧
    paramDirective emptyDoc "id path int true" = emptyDoc :=
  ⟨by decide,
   (param_line [] apiCaller 0 emptyDoc "id path int true" (by decide) (by decide)).1,
   ((param_line [] apiCaller 0 emptyDoc "id path int true" (by decide) (by decide)).2.1
      "id" "path" "int" "true" [] (by decide)).2.2.2 (by decide) (by decide) (by decide)⟩

/-- A line whose key is none of the keys of the switch and does not begin with
`@remark` leaves the descriptor unchanged. -/
theorem unknown_key_ignored (reg : Registry) (file : FileInfo) (fuel : Nat) (apiDoc : APIDoc)
    (key value : String)
    (hk1 : key ≠ "") (hk2 : ' ' ∉ key.data) (hk3 : trimSpace key = key)
    (hk4 : hasPrefix key "@remark" = false)
    (hk5 : key ∉ ["@catalog", "@title", "@description", "@method", "@router", "@url", "@param",
      "@response", "@response_body", "@body"])
    (hv1 : value ≠ "") (hv2 : trimSpace value = value) :
    parseDirective reg file fuel apiDoc ("//" ++ " " ++ key ++ " " ++ "" ++ value) =
      some apiDoc := by
  rw [parseDirective_line reg file fuel apiDoc " " key "" value (by decide) hk1 hk2 hk3 hk4
    (by decide) hv1 hv2]
  simp only [List.mem_cons, List.mem_singleton, List.not_mem_nil, or_false, not_or] at hk5
  obtain ⟨h1, h2, h3, h4, h5, h6, h7, h8, h9, h10⟩ := hk5
  unfold dispatchDirective
  rw [if_neg h1, if_neg h2, if_neg h3, if_neg h4, if_neg h5, if_neg h6, if_neg h7, if_neg h8,
    if_neg h9, if_neg h10]

/-- C23, as the code has it: `@remark` is tested with `strings.HasPrefix` on
the whole line, before the line is split into key and value.  The line
`// @remarks text`, whose key `@remarks` is not a recognized key, sets the
remark to `s text`; the line `// @titles text`, whose key goes through the
switch, leaves the descriptor unchanged. -/
theorem remark_matched_by_prefix :
    parseDirective [] apiCaller 0 emptyDoc "// @remarks text" =
      some { emptyDoc with Remark := "s text" } ∧
    "@remarks" ∉ ["@catalog", "@title", "@description", "@method", "@router", "@url", "@remark",
      "@param", "@response", "@response_body", "@body"] ∧
    parseDirective [] apiCaller 0 emptyDoc "// @titles text" = some emptyDoc := by
  decide

/-- C24, as the code has it: a directive line is split at its first space
character.  For every run `ws` of blanks, every non-empty `v` without blanks
around it and each of the six keys, the line made of the key, one space, `ws`
and `v` sets the field of the key to `v`. -/
theorem directive_split_at_space (reg : Registry) (file : FileInfo) (fuel : Nat)
    (apiDoc : APIDoc) (ws v : String)
    (hws : ∀ c ∈ ws.data, isSpace c = true) (hv1 : v ≠ "") (hv2 : trimSpace v = v) :
    parseDirective reg file fuel apiDoc ("// @title " ++ ws ++ v) =
      some { apiDoc with Title := v } ∧
    parseDirective reg file fuel apiDoc ("// @catalog " ++ ws ++ v) =
      some { apiDoc with Catalog := v } ∧
    parseDirective reg file fuel apiDoc ("// @description " ++ ws ++ v) =
      some { apiDoc with Description := v } ∧
    parseDirective reg file fuel apiDoc ("// @method " ++ ws ++ v) =
      some { apiDoc with Method := v } ∧
    parseDirective reg file fuel apiDoc ("// @router " ++ ws ++ v) =
      some { apiDoc with Router := v } ∧
    parseDirective reg file fuel apiDoc ("// @url " ++ ws ++ v) =
      some { apiDoc with URL := v } := by
  have h := fun (key : String) (a b c d) =>
    parseDirective_line reg file fuel apiDoc " " key ws v (by decide) a b c d hws hv1 hv2
  refine ⟨?_, ?_, ?_, ?_, ?_, ?_⟩
  · have e : ("// @title " : String) = "//" ++ " " ++ "@title" ++ " " := by decide
    rw [e, h "@title" (by decide) (by decide) (by decide) (by decide)]; rfl
  · have e : ("// @catalog " : String) = "//" ++ " " ++ "@catalog" ++ " " := by decide
    rw [e, h "@catalog" (by decide) (by decide) (by decide) (by decide)]; rfl
  · have e : ("// @description " : String) = "//" ++ " " ++ "@description" ++ " " := by decide
    rw [e, h "@description" (by decide) (by decide) (by decide) (by decide)]; rfl
  · have e : ("// @method " : String) = "//" ++ " " ++ "@method" ++ " " := by decide
    rw [e, h "@method" (by decide) (by decide) (by decide) (by decide)]; rfl
  · have e : ("// @router " : String) = "//" ++ " " ++ "@router" ++ " " := by decide
    rw [e, h "@router" (by decide) (by decide) (by decide) (by decide)]; rfl
  · have e : ("// @url " : String) = "//" ++ " " ++ "@url" ++ " " := by decide
    rw [e, h "@url" (by decide) (by decide) (by decide) (by decide)]; rfl

/-- C24, witness: a space, a tab and a space between `@title` and the value. -/
theorem directive_split_at_space_witness :
    parseDirective [] apiCaller 0 emptyDoc ("// @title " ++ "\t " ++ "User login") =
      some { emptyDoc with Title := "User login" } :=
  (directive_split_at_space [] apiCaller 0 emptyDoc "\t " "User login" (by decide) (by decide)
    (by decide)).1

/-- C24, counterexample: when a tab follows the key, the title stays unset:
with no space in the line nothing is split off, and with a space further on
the key that the switch sees is `@title` followed by the tab. -/
theorem tab_after_key_sets_nothing :
    parseDirective [] apiCaller 0 emptyDoc "// @title\tLogin" = some emptyDoc ∧
    parseDirective [] apiCaller 0 emptyDoc "// @title\t User login" = some emptyDoc := by
  decide

/-! ## Functions of a file -/

theorem hasRunAPI_iff (doc : List String) :
    hasRunAPI doc = true ↔ ∃ commentText ∈ doc, trimSpace commentText = "// runapi" := by
  induction doc with
  | nil => simp [hasRunAPI]
  | cons commentText rest ih =>
    unfold hasRunAPI
    by_cases h : trimSpace commentText = "// runapi"
    · rw [if_pos h]
      exact ⟨fun _ => ⟨commentText, List.mem_cons_self _ _, h⟩, fun _ => rfl⟩
    · rw [if_neg h, ih]
      constructor
      · rintro ⟨c, hc, hm⟩
        exact ⟨c, List.mem_cons_of_mem _ hc, hm⟩
      · rintro ⟨c, hc, hm⟩
        rcases List.mem_cons.mp hc with rfl | hc
        · exact absurd hm h
        · exact ⟨c, hc, hm⟩

theorem ite_isSome {c : Prop} [Decidable c] {α : Type} (a b : Option α)
    (ha : a.isSome = true) (hb : b.isSome = true) : (if c then a else b).isSome = true := by
  split
  · exact ha
  · exact hb

theorem overrideField_total (reg : Registry) (file : FileInfo) (fuel : Nat)
    (hfuel : ∀ key pre, (deepParseStruct reg fuel key pre).isSome = true)
    (params : List ResponseParam) (fieldName structName : String) :
    (overrideField reg file fuel params fieldName structName).isSome = true := by
  unfold overrideField
  simp only []
  by_cases h : (reg.lookup (resolveOrRaw reg file structName)).isSome = true
  · rw [if_pos h]
    cases replaceNamed fieldName params <;> simp only [Option.isSome_map', hfuel]
  · rw [if_neg h]
    rfl

theorem applyOverrides_total (reg : Registry) (file : FileInfo) (fuel : Nat)
    (hfuel : ∀ key pre, (deepParseStruct reg fuel key pre).isSome = true)
    (overrides : List String) :
    ∀ params, (applyOverrides reg file fuel params overrides).isSome = true := by
  induction overrides with
  | nil => intro params; rfl
  | cons field rest ih =>
    intro params
    have hstep : (applyOverride reg file fuel params field).isSome = true := by
      unfold applyOverride
      simp only []
      by_cases hempty : trimSpace field = ""
      · rw [if_pos hempty]; rfl
      · rw [if_neg hempty]
        cases cutList '=' (trimSpace field).data with
        | none => rfl
        | some parts => exact overrideField_total reg file fuel hfuel _ _ _
    obtain ⟨params1, h1⟩ := Option.isSome_iff_exists.mp hstep
    unfold applyOverrides
    rw [h1]
    exact ih params1

theorem appendNested_total (reg : Registry) (file : FileInfo) (fuel : Nat)
    (hfuel : ∀ key pre, (deepParseStruct reg fuel key pre).isSome = true)
    (apiDoc : APIDoc) (responseValue : String) :
    (appendNested reg file fuel apiDoc responseValue).isSome = true := by
  have hnested : (parseNestedResponse reg file fuel responseValue).isSome = true := by
    unfold parseNestedResponse
    simp only []
    by_cases hform : (!containsStr responseValue "\x7b" || !hasSuffix responseValue "\x7d") = true
    · rw [if_pos hform]; rfl
    · rw [if_neg hform]
      by_cases hinner : trimSuffix (trimPrefix responseValue
          (trimSpace (splitFirst responseValue '{').1 ++ "\x7b")) "\x7d" = ""
      · rw [if_pos hinner]; rfl
      · rw [if_neg hinner, Option.isSome_map']
        exact applyOverrides_total reg file fuel hfuel _ _
  obtain ⟨r, hr⟩ := Option.isSome_iff_exists.mp hnested
  unfold appendNested
  rw [hr]
  cases r with
  | error e => rfl
  | ok nestedParams =>
    by_cases hlen : nestedParams.length > 0
    · simp only [hlen, if_true, Option.isSome_some]
    · simp only [hlen, if_false, Option.isSome_some]

theorem dispatchDirective_total (reg : Registry) (file : FileInfo) (fuel : Nat)
    (hfuel : ∀ key pre, (deepParseStruct reg fuel key pre).isSome = true)
    (apiDoc : APIDoc) (key value : String) :
    (dispatchDirective reg file fuel apiDoc key value).isSome = true := by
  have hresp : (responseDirective reg file fuel apiDoc value).isSome = true := by
    unfold responseDirective
    split
    · simp only []
      repeat' with_reducible apply ite_isSome
      all_goals rfl
    · simp only []
      by_cases hc : (containsStr value "\x7b" && hasSuffix value "\x7d") = true
      · rw [if_pos hc]
        exact appendNested_total reg file fuel hfuel apiDoc value
      · rw [if_neg hc]
        by_cases hl : (reg.lookup value).isSome = true
        · rw [if_pos hl, Option.isSome_map']
          exact hfuel _ _
        · rw [if_neg hl]; rfl
  have hrb : (responseBodyDirective reg file fuel apiDoc value).isSome = true := by
    unfold responseBodyDirective
    simp only []
    by_cases hc : (containsStr value "\x7b" && hasSuffix value "\x7d") = true
    · rw [if_pos hc]
      exact appendNested_total reg file fuel hfuel apiDoc value
    · rw [if_neg hc]
      by_cases hl : (reg.lookup (resolveOrRaw reg file value)).isSome = true
      · rw [if_pos hl, Option.isSome_map']
        exact hfuel _ _
      · rw [if_neg hl]; rfl
  have hbody : (bodyDirective reg file fuel apiDoc value).isSome = true := by
    unfold bodyDirective
    simp only []
    by_cases hl : (reg.lookup (resolveOrRaw reg file value)).isSome = true
    · rw [if_pos hl, Option.isSome_map']
      exact hfuel _ _
    · rw [if_neg hl]; rfl
  unfold dispatchDirective
  repeat' with_reducible apply ite_isSome
  all_goals first
    | rfl
    | exact hresp
    | exact hrb
    | exact hbody

theorem parseDirective_total (reg : Registry) (file : FileInfo) (fuel : Nat)
    (hfuel : ∀ key pre, (deepParseStruct reg fuel key pre).isSome = true)
    (apiDoc : APIDoc) (commentText : String) :
    (parseDirective reg file fuel apiDoc commentText).isSome = true := by
  unfold parseDirective
  simp only []
  by_cases h1 : trimSpace (trimPrefix commentText "//") = "runapi"
  · rw [if_pos h1]; rfl
  · rw [if_neg h1]
    by_cases h2 : hasPrefix (trimSpace (trimPrefix commentText "//")) "@remark" = true
    · rw [if_pos h2]; rfl
    · rw [if_neg h2]
      cases cutList ' ' (trimSpace (trimPrefix commentText "//")).data with
      | none => rfl
      | some parts =>
        simp only []
        by_cases h3 : trimSpace ⟨' ' :: parts.2⟩ = ""
        · rw [if_pos h3]; rfl
        · rw [if_neg h3]
          exact dispatchDirective_total reg file fuel hfuel apiDoc _ _

theorem parseDirectives_total (reg : Registry) (file : FileInfo) (fuel : Nat)
    (hfuel : ∀ key pre, (deepParseStruct reg fuel key pre).isSome = true)
    (doc : List String) :
    ∀ apiDoc, (parseDirectives reg file fuel apiDoc doc).isSome = true := by
  induction doc with
  | nil => intro apiDoc; rfl
  | cons commentText rest ih =>
    intro apiDoc
    obtain ⟨apiDoc1, h1⟩ :=
      Option.isSome_iff_exists.mp (parseDirective_total reg file fuel hfuel apiDoc commentText)
    unfold parseDirectives
    rw [h1]
    exact ih apiDoc1

theorem deepParseFields_total (reg : Registry) (structInfo : StructInfo) (pre : String)
    (recur : String → String → Option (List ResponseParam)) (fieldList : List ResponseParam)
    (h : ∀ field ∈ fieldList, (fieldPart reg structInfo pre recur field).isSome = true) :
    ∀ params, (deepParseFields reg structInfo pre recur params fieldList).isSome = true := by
  induction fieldList with
  | nil => intro params; rfl
  | cons field rest ih =>
    intro params
    obtain ⟨part, hpart⟩ := Option.isSome_iff_exists.mp (h field (List.mem_cons_self _ _))
    unfold deepParseFields
    rw [deepParseField_eq, hpart]
    exact ih (fun f hf => h f (List.mem_cons_of_mem _ hf)) _

theorem deepParseStruct_of_flat (reg : Registry)
    (hflat : ∀ entry ∈ reg, ∀ field ∈ entry.2.Fields,
      fieldTarget reg entry.2.Package (trimPrefix field.Typ "*") = none)
    (key pre : String) : (deepParseStruct reg 1 key pre).isSome = true := by
  unfold deepParseStruct
  cases hl : reg.lookup key with
  | none => rfl
  | some structInfo =>
    have hmem := GoMap.mem_of_lookup reg key structInfo hl
    apply deepParseFields_total
    intro field hfield
    unfold fieldPart
    rw [hflat (key, structInfo) hmem field hfield]
    rfl

/-- C25, counterexample: a block with the marker and the line `// @body Node`,
where `Node` refers to itself: no bound on the flattening makes the function
return, so no descriptor is produced. -/
theorem marked_block_without_descriptor :
    hasRunAPI ["// runapi", "// @body Node"] = true ∧
    ¬ ∃ fuel apiDocs, parseFunc pkgReg pkgCaller fuel "a.go" []
        { Name := "F", Doc := some ["// runapi", "// @body Node"] } = some apiDocs := by
  refine ⟨by decide, ?_⟩
  rintro ⟨fuel, apiDocs, h⟩
  have hnone := deepParseStruct_none_of_closed pkgReg (fun a => a = "pkg.Node")
    (fun a ha => ⟨"pkg.Node", ha ▸ refers_node, rfl⟩) fuel "pkg.Node" "" rfl
  have h1 : parseDirective pkgReg pkgCaller fuel emptyDoc "// runapi" = some emptyDoc := rfl
  have hkey : resolveOrRaw pkgReg pkgCaller "Node" = "pkg.Node" := by decide
  have hlook : (GoMap.lookup pkgReg "pkg.Node").isSome = true := by decide
  have h2 : parseDirective pkgReg pkgCaller fuel emptyDoc "// @body Node" = none := by
    have hline := parseDirective_line pkgReg pkgCaller fuel emptyDoc " " "@body" "" "Node"
      (by decide) (by decide) (by decide) (by decide) (by decide) (by decide) (by decide)
      (by decide)
    have e : ("//" : String) ++ " " ++ "@body" ++ " " ++ "" ++ "Node" = "// @body Node" := by
      decide
    rw [e] at hline
    rw [hline]
    have hd : dispatchDirective pkgReg pkgCaller fuel emptyDoc "@body" "Node" =
        bodyDirective pkgReg pkgCaller fuel emptyDoc "Node" := rfl
    rw [hd]
    unfold bodyDirective
    simp only [hkey, hlook, if_true, hnone, Option.map_none']
  have hdoc : parseFuncDoc pkgReg pkgCaller fuel ["// runapi", "// @body Node"] = none := by
    simp only [parseFuncDoc, parseDirectives, h1, h2]
  have hrun : hasRunAPI ["// runapi", "// @body Node"] = true := by decide
  simp only [parseFunc, hrun, Bool.not_true, Bool.false_eq_true, if_false, hdoc,
    Option.map_none'] at h
  cases h

/-! ## Fields of a struct declaration -/

/-- C26, as the code has it: for the tag `json:"-"` the function
`extractJSONTagInfo` returns `ok = false`, so the test `jsonName == "-"` that
would skip the field is never reached.  A named field with that tag is
recorded under its Go identifier, and `Password` of `acct.Account` is a
recorded field and a leaf of the flattening. -/
theorem excluded_field_is_recorded :
    extractJSONTagInfo "json:\"-\"" = ("-", false, false) ∧
    (∀ (name : String) (typ : TypeExpr) (comment : Option (List String)),
      fieldParams { Names := [name], Typ := typ, Tag := some "\x60json:\"-\"\x60",
                    Comment := comment } =
        [{ Name := name, Typ := getTypeString typ, Required := false,
           Remark := commentRemark "" comment }]) ∧
    (∃ structInfo, accountReg.lookup "acct.Account" = some structInfo ∧
      { Name := "Password", Typ := "string", Required := false, Remark := "" } ∈
        structInfo.Fields) ∧
    (∃ out, deepParseStruct accountReg 1 "acct.Account" "" = some out ∧
      { Name := "Password", Typ := "string", Required := false, Remark := "" } ∈ out) := by
  refine ⟨by decide, fun name typ comment => rfl, ?_, ?_⟩
  · exact ⟨{ Name := "Account", Package := "acct", PackagePath := "acct",
             Fields := accountLeaves }, by decide, by decide⟩
  · exact ⟨accountLeaves, by decide, by decide⟩

/-- C27, as the code has it: `Required` is set only when the tag has a json
key.  A named field without tag, or with a tag without json key, is recorded
with `Required = false`, although no `omitempty` is there; with the tag
`json:"id"` it is recorded with `Required = true`.  The fields `Age` and
`Email` of `acct.Account` are leaves with `Required = false`. -/
theorem untagged_field_is_optional :
    (∀ (name : String) (typ : TypeExpr) (comment : Option (List String)),
      fieldParams { Names := [name], Typ := typ, Tag := none, Comment := comment } =
        [{ Name := name, Typ := getTypeString typ, Required := false,
           Remark := commentRemark "" comment }]) ∧
    (∀ (name : String) (typ : TypeExpr) (comment : Option (List String)),
      fieldParams { Names := [name], Typ := typ, Tag := some "\x60db:\"email\"\x60",
                    Comment := comment } =
        [{ Name := name, Typ := getTypeString typ, Required := false,
           Remark := commentRemark "" comment }]) ∧
    (∀ (name : String) (typ : TypeExpr) (comment : Option (List String)),
      fieldParams { Names := [name], Typ := typ, Tag := some "\x60json:\"id\"\x60",
                    Comment := comment } =
        [{ Name := "id", Typ := getTypeString typ, Required := true,
           Remark := commentRemark "" comment }]) ∧
    (∃ out, deepParseStruct accountReg 1 "acct.Account" "" = some out ∧
      { Name := "Age", Typ := "int", Required := false, Remark := "" } ∈ out ∧
      { Name := "Email", Typ := "string", Required := false, Remark := "" } ∈ out) := by
  refine ⟨fun name typ comment => rfl, fun name typ comment => rfl,
    fun name typ comment => rfl, ?_⟩
  exact ⟨accountLeaves, by decide, by decide, by decide⟩

/-- C28, as the code has it: the name of the tag replaces the identifier also
when it is empty.  A named field with the tag `json:",omitempty"` is recorded
under the empty name, and the field `Nick` of `acct.Account` gives a leaf of
empty name and no leaf named `Nick`. -/
theorem empty_tag_name_is_recorded :
    extractJSONTagInfo "json:\",omitempty\"" = ("", true, true) ∧
    (∀ (name : String) (typ : TypeExpr) (comment : Option (List String)),
      fieldParams { Names := [name], Typ := typ, Tag := some "\x60json:\",omitempty\"\x60",
                    Comment := comment } =
        [{ Name := "", Typ := getTypeString typ, Required := false,
           Remark := commentRemark "" comment }]) ∧
    (∃ out, deepParseStruct accountReg 1 "acct.Account" "" = some out ∧
      { Name := "", Typ := "string", Required := false, Remark := "" } ∈ out ∧
      ∀ leaf ∈ out, leaf.Name ≠ "Nick") := by
  refine ⟨by decide, fun name typ comment => rfl, ?_⟩
  exact ⟨accountLeaves, by decide, by decide, by decide⟩

/-! ## Composite responses: a name that the base does not have -/

theorem replaceNamed_of_absent (fieldName : String) (params : List ResponseParam)
    (h : ∀ param ∈ params, param.Name ≠ fieldName) : replaceNamed fieldName params = none := by
  induction params with
  | nil => rfl
  | cons param rest ih =>
    unfold replaceNamed
    rw [if_neg (h param (List.mem_cons_self _ _)),
      ih (fun q hq => h q (List.mem_cons_of_mem _ hq))]
    rfl

/-- C29, as the code has it: for a composite token `base{name=typ}` in which
`base` and `typ` resolve to registered structs, no recorded field of `base` is
named `name`, and the flattening of `typ` under `name.` returns `nested`,
`parseNestedResponse` returns the recorded fields of `base`, then one leaf
named `name` of type `object`, then `nested`, in that order; every leaf of
`nested` has a name that begins with `name.`. -/
theorem parseNestedResponse_absent (reg : Registry) (file : FileInfo) (fuel : Nat)
    (base name typ : String) (baseInfo : StructInfo) (nested : List ResponseParam)
    (hbrace : '{' ∉ base.data) (hbase : trimSpace base = base)
    (hname1 : '=' ∉ name.data) (hname2 : ',' ∉ name.data) (hname3 : trimSpace name = name)
    (hcomma : ',' ∉ typ.data) (htyp : trimSpace typ = typ)
    (hB : reg.lookup (resolveOrRaw reg file base) = some baseInfo)
    (hT : (reg.lookup (resolveOrRaw reg file typ)).isSome = true)
    (habsent : ∀ param ∈ baseInfo.Fields, param.Name ≠ name)
    (hflat : deepParseStruct reg fuel (resolveOrRaw reg file typ) (name ++ ".") = some nested) :
    parseNestedResponse reg file fuel (base ++ "\x7b" ++ name ++ "=" ++ typ ++ "\x7d") =
      some (.ok (baseInfo.Fields ++
        [{ Name := name, Typ := "object", Required := false, Remark := name ++ "信息" }] ++
        nested)) ∧
    (∀ q ∈ nested, hasPrefix q.Name (name ++ ".") = true) := by
  refine ⟨?_, deepParseStruct_names reg fuel _ _ nested hflat⟩
  rw [parseNestedResponse_one reg file fuel base name typ hbrace hbase hname1 hname2 hname3
    hcomma htyp, hB]
  simp only [overrideField, hT, if_true, replaceNamed_of_absent name _ habsent, hflat]
  rfl

/-- C29, witness: `Stats{extra=UserInfo}` on the registry of `apiFile`. -/
theorem parseNestedResponse_absent_witness :
    parseNestedResponse apiReg apiCaller 1
        ("Stats" ++ "\x7b" ++ "extra" ++ "=" ++ "UserInfo" ++ "\x7d") =
      some (.ok ([{ Name := "total", Typ := "int64", Required := true, Remark := "" }] ++
        [{ Name := "extra", Typ := "object", Required := false, Remark := "extra" ++ "信息" }] ++
        [{ Name := "extra.id", Typ := "int", Required := true, Remark := "" },
         { Name := "extra.name", Typ := "string", Required := true, Remark := "" }])) :=
  (parseNestedResponse_absent apiReg apiCaller 1 "Stats" "extra" "UserInfo"
    { Name := "Stats", Package := "api", PackagePath := "api",
      Fields := [{ Name := "total", Typ := "int64", Required := true, Remark := "" }] }
    [{ Name := "extra.id", Typ := "int", Required := true, Remark := "" },
     { Name := "extra.name", Typ := "string", Required := true, Remark := "" }]
    (by decide) (by decide) (by decide) (by decide) (by decide) (by decide) (by decide)
    (by decide) (by decide) (by decide) (by decide)).1

/-! ## Directives that name a missing type -/

theorem parseDirectives_skip (reg : Registry) (file : FileInfo) (fuel : Nat)
    (commentText : String)
    (hline : ∀ apiDoc, parseDirective reg file fuel apiDoc commentText = some apiDoc)
    (before after : List String) :
    ∀ apiDoc, parseDirectives reg file fuel apiDoc (before ++ commentText :: after) =
      parseDirectives reg file fuel apiDoc (before ++ after) := by
  induction before with
  | nil =>
    intro apiDoc
    show parseDirectives reg file fuel apiDoc (commentText :: after) = _
    unfold parseDirectives
    rw [hline apiDoc]
    cases after <;> rfl
  | cons first rest ih =>
    intro apiDoc
    simp only [List.cons_append]
    unfold parseDirectives
    cases parseDirective reg file fuel apiDoc first with
    | none => rfl
    | some apiDoc1 => exact ih apiDoc1

/-- C30: a `@body` line whose type token resolves to no key of the registry
leaves every descriptor unchanged, and `parseFuncDoc` returns on a block with
that line what it returns on the block without it, for every bound; the same
holds for a `@response_body` line whose token is not a composite one. -/
theorem missing_type_line_is_dropped (reg : Registry) (file : FileInfo) (fuel : Nat)
    (before after : List String) (typ : String)
    (htyp1 : typ ≠ "") (htyp2 : trimSpace typ = typ)
    (hmiss : reg.lookup (resolveOrRaw reg file typ) = none) :
    (∀ apiDoc, parseDirective reg file fuel apiDoc ("// @body " ++ typ) = some apiDoc) ∧
    parseFuncDoc reg file fuel (before ++ ("// @body " ++ typ) :: after) =
      parseFuncDoc reg file fuel (before ++ after) ∧
    ((containsStr typ "\x7b" && hasSuffix typ "\x7d") = false →
      (∀ apiDoc, parseDirective reg file fuel apiDoc ("// @response_body " ++ typ) =
        some apiDoc) ∧
      parseFuncDoc reg file fuel (before ++ ("// @response_body " ++ typ) :: after) =
        parseFuncDoc reg file fuel (before ++ after)) := by
  have hbody : ∀ apiDoc, parseDirective reg file fuel apiDoc ("// @body " ++ typ) =
      some apiDoc := by
    intro apiDoc
    have e : ("// @body " : String) = "//" ++ " " ++ "@body" ++ " " ++ "" := by decide
    rw [e, parseDirective_line reg file fuel apiDoc " " "@body" "" typ (by decide) (by decide)
      (by decide) (by decide) (by decide) (by decide) htyp1 htyp2]
    show bodyDirective reg file fuel apiDoc typ = some apiDoc
    unfold bodyDirective
    simp only [hmiss, Option.isSome_none, Bool.false_eq_true, if_false]
  refine ⟨hbody, parseDirectives_skip reg file fuel _ hbody before after emptyDoc, fun hc => ?_⟩
  have hresp : ∀ apiDoc, parseDirective reg file fuel apiDoc ("// @response_body " ++ typ) =
      some apiDoc := by
    intro apiDoc
    have e : ("// @response_body " : String) = "//" ++ " " ++ "@response_body" ++ " " ++ "" := by
      decide
    rw [e, parseDirective_line reg file fuel apiDoc " " "@response_body" "" typ (by decide)
      (by decide) (by decide) (by decide) (by decide) (by decide) htyp1 htyp2]
    show responseBodyDirective reg file fuel apiDoc typ = some apiDoc
    unfold responseBodyDirective
    simp only [hc, hmiss, Option.isSome_none, Bool.false_eq_true, if_false]
  exact ⟨hresp, parseDirectives_skip reg file fuel _ hresp before after emptyDoc⟩

/-- C30, witness: a block of the example server with and without a line that
names the unregistered type `Missing`. -/
theorem missing_type_line_is_dropped_witness :
    parseFuncDoc apiReg apiCaller 1
        (["// runapi", "// @title x"] ++ ("// @body " ++ "Missing") :: ["// @response_body UserInfo"]) =
      parseFuncDoc apiReg apiCaller 1
        (["// runapi", "// @title x"] ++ ["// @response_body UserInfo"]) ∧
    parseFuncDoc apiReg apiCaller 1
        (["// runapi", "// @title x"] ++ ("// @response_body " ++ "Missing") ::
          ["// @response_body UserInfo"]) =
      parseFuncDoc apiReg apiCaller 1
        (["// runapi", "// @title x"] ++ ["// @response_body UserInfo"]) ∧
    parseFuncDoc apiReg apiCaller 1 (["// runapi", "// @title x"] ++ ["// @response_body UserInfo"]) =
      some { emptyDoc with
        Title := "x",
        ResponseBody := [{ Name := "id", Typ := "int", Required := true, Remark := "" },
                         { Name := "name", Typ := "string", Required := true, Remark := "" }] } :=
  ⟨(missing_type_line_is_dropped apiReg apiCaller 1 ["// runapi", "// @title x"]
      ["// @response_body UserInfo"] "Missing" (by decide) (by decide) (by decide)).2.1,
   ((missing_type_line_is_dropped apiReg apiCaller 1 ["// runapi", "// @title x"]
      ["// @response_body UserInfo"] "Missing" (by decide) (by decide) (by decide)).2.2
      (by decide)).2,
   by decide⟩

/-! ## Flattening: the name prefix -/

theorem withPrefix_withPrefix (p q : String) (leaf : ResponseParam) :
    withPrefix p (withPrefix q leaf) = withPrefix (p ++ q) leaf := by
  simp [withPrefix, String.append_assoc]

theorem withPrefix_empty (leaf : ResponseParam) : withPrefix "" leaf = leaf := by
  cases leaf
  simp [withPrefix]

theorem fieldPrefix_append (p : String) (field : ResponseParam) :
    fieldPrefix p field = p ++ fieldPrefix "" field := by
  unfold fieldPrefix
  by_cases h : field.Name = field.Typ
  · simp [h]
  · simp [h, String.append_assoc]

theorem fieldLeaf_withPrefix (p : String) (field : ResponseParam) :
    fieldLeaf p field = withPrefix p (fieldLeaf "" field) := by
  simp [fieldLeaf, withPrefix]

theorem fieldPart_withPrefix (reg : Registry) (structInfo : StructInfo) (p : String)
    (recur : String → String → Option (List ResponseParam))
    (hrecur : ∀ key q, recur key q = (recur key "").map (List.map (withPrefix q)))
    (field : ResponseParam) :
    fieldPart reg structInfo p recur field =
      (fieldPart reg structInfo "" recur field).map (List.map (withPrefix p)) := by
  unfold fieldPart
  cases fieldTarget reg structInfo.Package (trimPrefix field.Typ "*") with
  | none =>
    by_cases h : field.Name = field.Typ
    · simp [h]
    · simp [h, fieldLeaf_withPrefix p field]
  | some target =>
    simp only []
    rw [fieldPrefix_append p field, hrecur target (p ++ fieldPrefix "" field),
      hrecur target (fieldPrefix "" field)]
    cases recur target "" with
    | none => rfl
    | some out =>
      simp only [Option.map_some', List.map_map]
      congr 1
      apply List.map_congr_left
      intro leaf _
      exact (withPrefix_withPrefix p _ leaf).symm

theorem deepParseFields_withPrefix (reg : Registry) (structInfo : StructInfo) (p : String)
    (recur : String → String → Option (List ResponseParam))
    (hrecur : ∀ key q, recur key q = (recur key "").map (List.map (withPrefix q)))
    (fieldList : List ResponseParam) :
    ∀ params, deepParseFields reg structInfo p recur (params.map (withPrefix p)) fieldList =
      (deepParseFields reg structInfo "" recur params fieldList).map
        (List.map (withPrefix p)) := by
  induction fieldList with
  | nil => intro params; rfl
  | cons field rest ih =>
    intro params
    unfold deepParseFields
    rw [deepParseField_eq, deepParseField_eq, fieldPart_withPrefix reg structInfo p recur hrecur]
    cases fieldPart reg structInfo "" recur field with
    | none => rfl
    | some part =>
      simp only [Option.map_some']
      rw [← List.map_append]
      exact ih (params ++ part)

theorem deepParseStruct_withPrefix (reg : Registry) :
    ∀ (fuel : Nat) (structName p : String),
      deepParseStruct reg fuel structName p =
        (deepParseStruct reg fuel structName "").map (List.map (withPrefix p)) := by
  intro fuel
  induction fuel with
  | zero => intro structName p; rfl
  | succ n ih =>
    intro structName p
    unfold deepParseStruct
    cases reg.lookup structName with
    | none => rfl
    | some structInfo =>
      exact deepParseFields_withPrefix reg structInfo p (deepParseStruct reg n) ih
        structInfo.Fields []

/-- C34: flattening commutes with the name prefix.  For every registry, key,
prefix `p` and bound, `deepParseStruct` under `p` returns what it returns
under the empty prefix with `p` put before the name of every leaf: the same
leaves in the same order, with the same type, required flag and remark; in
particular an expansion that returns under the empty prefix returns under
every prefix, with a list of the same length. -/
theorem flattening_commutes_with_prefix (reg : Registry) (fuel : Nat) (structName p : String) :
    deepParseStruct reg fuel structName p =
      (deepParseStruct reg fuel structName "").map (List.map (withPrefix p)) ∧
    (∀ out, Flattens reg structName "" out →
      Flattens reg structName p (out.map (withPrefix p)) ∧
      (out.map (withPrefix p)).length = out.length) := by
  refine ⟨deepParseStruct_withPrefix reg fuel structName p, ?_⟩
  rintro out ⟨n, hn⟩
  refine ⟨⟨n, ?_⟩, List.length_map _ _⟩
  rw [deepParseStruct_withPrefix reg n structName p, hn]
  rfl

/-! ## Flattening: unqualified type tokens -/

/-- C33, as the code has it: `extractJSONTagInfo` splits the tag at the spaces
and looks at the first part only.  For the tag
`gorm:"x" json:"name,omitempty"` it reports no json name (`ok = false`), where
`json:"name,omitempty"` alone gives the name `name` with the optional marker
set; a field with the first tag is recorded under its Go identifier.  With the
json key in the first place the tag is read. -/
theorem json_key_after_another_key_is_missed :
    extractJSONTagInfo "gorm:\"x\" json:\"name,omitempty\"" = ("", false, false) ∧
    extractJSONTagInfo "json:\"name,omitempty\"" = ("name", true, true) ∧
    (∀ (name : String) (typ : TypeExpr) (comment : Option (List String)),
      fieldParams { Names := [name], Typ := typ,
                    Tag := some "\x60gorm:\"x\" json:\"name,omitempty\"\x60",
                    Comment := comment } =
        [{ Name := name, Typ := getTypeString typ, Required := false,
           Remark := commentRemark "" comment }]) ∧
    extractJSONTagInfo "json:\"name,omitempty\" gorm:\"x\"" = ("name", true, true) := by
  refine ⟨by decide, by decide, fun name typ comment => rfl, by decide⟩

/-! ## Diff: the route of a document -/

theorem getRouter_of_router (doc : APIDoc) (h : doc.Router ≠ "") : getRouter doc = doc.Router := by
  unfold getRouter
  rw [if_pos h]

/-- C39: for a document with a non-empty router and any other url, the
document and its copy with that url have the same diff key and are equal under
`docsEqual`, and no enumeration of any two maps makes `CompareDocuments`
report the pair as a change. -/
theorem url_ignored_when_router_set (doc : APIDoc) (url : String) (hrouter : doc.Router ≠ "") :
    getDocKey { doc with URL := url } = getDocKey doc ∧
    docsEqual doc { doc with URL := url } = true ∧
    (∀ (oldEnum newEnum : GoMap APIDoc) (change : DocumentChange),
      change ∈ (compareMaps oldEnum newEnum).Changed →
      ¬ (change.Old = doc ∧ change.New = { doc with URL := url })) := by
  have hr : getRouter { doc with URL := url } = getRouter doc := by
    have h2 : getRouter { doc with URL := url } = doc.Router :=
      getRouter_of_router { doc with URL := url } hrouter
    rw [getRouter_of_router doc hrouter, h2]
  have heq : docsEqual doc { doc with URL := url } = true := by
    have h := docsEqual_refl doc
    unfold docsEqual at h ⊢
    rw [hr]
    exact h
  refine ⟨by unfold getDocKey; rw [hr], heq, ?_⟩
  intro oldEnum newEnum change hchange hpair
  have hN := (compareNew_spec oldEnum newEnum [] []).2 change
  unfold compareMaps at hchange
  rcases hN.mp hchange with h | ⟨key, -, -, hne⟩
  · cases h
  · rw [hpair.1, hpair.2, heq] at hne
    cases hne

/-- C39, witness: `GET /a` against itself with a url added gives an empty
diff. -/
theorem url_ignored_when_router_set_witness :
    docsEqual (docOf "A" "get" "/a") { docOf "A" "get" "/a" with URL := "http://host/a" } = true ∧
    CompareDocuments [docOf "A" "get" "/a"]
        [{ docOf "A" "get" "/a" with URL := "http://host/a" }] =
      { Added := [], Removed := [], Changed := [] } :=
  ⟨(url_ignored_when_router_set (docOf "A" "get" "/a") "http://host/a" (by decide)).2.1,
   by decide⟩

/-! ## ShowDoc page content -/

/-- C40: `MergeWithFullContent base full` has the page title, the title,
description, method and url of the info, the mode, urlencoded, formdata and
jsonDesc of the request parameters, the request headers and query, and the
parameter description and remark of the response of `base`; every other field
(scripts, test cases, extend, cookies, auth, path variables, from, type,
remark and apiStatus of the info, the json of the parameters, and the
remaining response fields) is that of `full`.  The last part gives the whole
result. -/
theorem MergeWithFullContent_frame (base : PageContent) (full : PageContentFull) :
    ((MergeWithFullContent base full).PageTitle = base.PageTitle ∧
     (MergeWithFullContent base full).Info.Title = base.Info.Title ∧
     (MergeWithFullContent base full).Info.Description = base.Info.Description ∧
     (MergeWithFullContent base full).Info.Method = base.Info.Method ∧
     (MergeWithFullContent base full).Info.URL = base.Info.URL ∧
     (MergeWithFullContent base full).Request.Params.Mode = base.Request.Params.Mode ∧
     (MergeWithFullContent base full).Request.Params.URLEncoded =
       base.Request.Params.URLEncoded ∧
     (MergeWithFullContent base full).Request.Params.FormData = base.Request.Params.FormData ∧
     (MergeWithFullContent base full).Request.Params.JSONDesc = base.Request.Params.JSONDesc ∧
     (MergeWithFullContent base full).Request.Headers = base.Request.Headers ∧
     (MergeWithFullContent base full).Request.Query = base.Request.Query ∧
     (MergeWithFullContent base full).Response.ResponseParamsDesc =
       base.Response.ResponseParamsDesc ∧
     (MergeWithFullContent base full).Response.Remark = base.Response.Remark) ∧
    ((MergeWithFullContent base full).Scripts = full.Scripts ∧
     (MergeWithFullContent base full).TestCases = full.TestCases ∧
     (MergeWithFullContent base full).Extend = full.Extend ∧
     (MergeWithFullContent base full).Request.Cookies = full.Request.Cookies ∧
     (MergeWithFullContent base full).Request.Auth = full.Request.Auth ∧
     (MergeWithFullContent base full).Request.PathVariable = full.Request.PathVariable ∧
     (MergeWithFullContent base full).Info.From = full.Info.From ∧
     (MergeWithFullContent base full).Info.Typ = full.Info.Typ ∧
     (MergeWithFullContent base full).Info.Remark = full.Info.Remark ∧
     (MergeWithFullContent base full).Info.APIStatus = full.Info.APIStatus ∧
     (MergeWithFullContent base full).Request.Params.JSON = full.Request.Params.JSON ∧
     (MergeWithFullContent base full).Response.ResponseText = full.Response.ResponseText ∧
     (MergeWithFullContent base full).Response.ResponseOriginal =
       full.Response.ResponseOriginal ∧
     (MergeWithFullContent base full).Response.ResponseExample =
       full.Response.ResponseExample ∧
     (MergeWithFullContent base full).Response.ResponseHeader = full.Response.ResponseHeader ∧
     (MergeWithFullContent base full).Response.ResponseStatus = full.Response.ResponseStatus ∧
     (MergeWithFullContent base full).Response.ResponseTime = full.Response.ResponseTime ∧
     (MergeWithFullContent base full).Response.ResponseFailExample =
       full.Response.ResponseFailExample ∧
     (MergeWithFullContent base full).Response.ResponseFailParamsDesc =
       full.Response.ResponseFailParamsDesc ∧
     (MergeWithFullContent base full).Response.ResponseSize = full.Response.ResponseSize) ∧
    MergeWithFullContent base full =
      { PageTitle := base.PageTitle,
        Info := { From := full.Info.From, Typ := full.Info.Typ, Title := base.Info.Title,
                  Description := base.Info.Description, Method := base.Info.Method,
                  URL := base.Info.URL, Remark := full.Info.Remark,
                  APIStatus := full.Info.APIStatus },
        Request := { Params := { Mode := base.Request.Params.Mode,
                                 URLEncoded := base.Request.Params.URLEncoded,
                                 FormData := base.Request.Params.FormData,
                                 JSON := full.Request.Params.JSON,
                                 JSONDesc := base.Request.Params.JSONDesc },
                     Headers := base.Request.Headers,
                     Cookies := full.Request.Cookies,
                     Auth := full.Request.Auth,
                     Query := base.Request.Query,
                     PathVariable := full.Request.PathVariable },
        Response := { ResponseText := full.Response.ResponseText,
                      ResponseOriginal := full.Response.ResponseOriginal,
                      ResponseExample := full.Response.ResponseExample,
                      ResponseHeader := full.Response.ResponseHeader,
                      ResponseStatus := full.Response.ResponseStatus,
                      ResponseTime := full.Response.ResponseTime,
                      ResponseParamsDesc := base.Response.ResponseParamsDesc,
                      ResponseFailExample := full.Response.ResponseFailExample,
                      ResponseFailParamsDesc := full.Response.ResponseFailParamsDesc,
                      Remark := base.Response.Remark,
                      ResponseSize := full.Response.ResponseSize },
        Scripts := full.Scripts,
        TestCases := full.TestCases,
        Extend := full.Extend } := by
  refine ⟨⟨rfl, rfl, rfl, rfl, rfl, rfl, rfl, rfl, rfl, rfl, rfl, rfl, rfl⟩,
    ⟨rfl, rfl, rfl, rfl, rfl, rfl, rfl, rfl, rfl, rfl, rfl, rfl, rfl, rfl, rfl, rfl, rfl, rfl,
     rfl, rfl⟩, rfl⟩

/-! ## Directives: a qualified token whose alias the file does not bind -/

theorem resolveOrRaw_of_no_alias (reg : Registry) (file : FileInfo) (imports : GoMap String)
    (packageAlias structName : String) (hdot : '.' ∉ packageAlias.data)
    (himports : file.Imports = some imports) (halias : imports.lookup packageAlias = none) :
    resolveStructReference reg file (packageAlias ++ "." ++ structName) =
      .error (.noAlias packageAlias) ∧
    resolveOrRaw reg file (packageAlias ++ "." ++ structName) =
      packageAlias ++ "." ++ structName := by
  have h : resolveStructReference reg file (packageAlias ++ "." ++ structName) =
      .error (.noAlias packageAlias) := by
    rw [qualified_resolution_unfold reg file packageAlias structName hdot, himports]
    simp only [halias]
  refine ⟨h, ?_⟩
  unfold resolveOrRaw
  rw [h]

/-- The fallback of the directives to the raw token: for a token `alias.Name`
in a file whose import table has no entry for `alias`,
`resolveStructReference` fails, and when the registry has the key
`alias.Name` itself the line `// @body alias.Name` adds the flattening of that
key under the empty prefix, each leaf turned into a request parameter by
`bodyParam`, to the body, and the line `// @response_body alias.Name` adds the
flattening to the response body: the directive returns exactly when the
flattening does. -/
theorem raw_token_fallback (reg : Registry) (file : FileInfo) (fuel : Nat) (apiDoc : APIDoc)
    (imports : GoMap String) (packageAlias structName : String)
    (hdot : '.' ∉ packageAlias.data)
    (htoken1 : trimSpace (packageAlias ++ "." ++ structName) = packageAlias ++ "." ++ structName)
    (himports : file.Imports = some imports) (halias : imports.lookup packageAlias = none)
    (hkey : (reg.lookup (packageAlias ++ "." ++ structName)).isSome = true) :
    resolveStructReference reg file (packageAlias ++ "." ++ structName) =
      .error (.noAlias packageAlias) ∧
    parseDirective reg file fuel apiDoc ("// @body " ++ (packageAlias ++ "." ++ structName)) =
      (deepParseStruct reg fuel (packageAlias ++ "." ++ structName) "").map
        (fun nestedParams => { apiDoc with Body := apiDoc.Body ++ nestedParams.map bodyParam }) ∧
    ((containsStr (packageAlias ++ "." ++ structName) "\x7b" &&
        hasSuffix (packageAlias ++ "." ++ structName) "\x7d") = false →
      parseDirective reg file fuel apiDoc
          ("// @response_body " ++ (packageAlias ++ "." ++ structName)) =
        (deepParseStruct reg fuel (packageAlias ++ "." ++ structName) "").map
          (fun nestedParams =>
            { apiDoc with ResponseBody := apiDoc.ResponseBody ++ nestedParams })) := by
  obtain ⟨herr, hraw⟩ := resolveOrRaw_of_no_alias reg file imports packageAlias structName hdot
    himports halias
  have hne : packageAlias ++ "." ++ structName ≠ "" := by
    intro h
    have := congrArg String.data h
    simp [String.data_append] at this
  refine ⟨herr, ?_, fun hc => ?_⟩
  · have e : ("// @body " : String) = "//" ++ " " ++ "@body" ++ " " ++ "" := by decide
    rw [e, parseDirective_line reg file fuel apiDoc " " "@body" "" _ (by decide) (by decide)
      (by decide) (by decide) (by decide) (by decide) hne htoken1]
    show bodyDirective reg file fuel apiDoc _ = _
    unfold bodyDirective
    simp only [hraw, hkey, if_true]
  · have e : ("// @response_body " : String) = "//" ++ " " ++ "@response_body" ++ " " ++ "" := by
      decide
    rw [e, parseDirective_line reg file fuel apiDoc " " "@response_body" "" _ (by decide)
      (by decide) (by decide) (by decide) (by decide) (by decide) hne htoken1]
    show responseBodyDirective reg file fuel apiDoc _ = _
    unfold responseBodyDirective
    simp only [hc, hraw, hkey, if_true, Bool.false_eq_true, if_false]

/-- The line `// @response_body user.User` in a file without imports, on the
registry of `userFile`. -/
theorem raw_token_fallback_witness :
    resolveStructReference userReg { Package := some "main", Imports := some [] }
        ("user" ++ "." ++ "User") = .error (.noAlias "user") ∧
    parseDirective userReg { Package := some "main", Imports := some [] } 1 emptyDoc
        ("// @response_body " ++ ("user" ++ "." ++ "User")) =
      (deepParseStruct userReg 1 ("user" ++ "." ++ "User") "").map
        (fun nestedParams =>
          { emptyDoc with ResponseBody := emptyDoc.ResponseBody ++ nestedParams }) ∧
    deepParseStruct userReg 1 "user.User" "" =
      some [{ Name := "id", Typ := "int", Required := true, Remark := "用户ID" },
            { Name := "username", Typ := "string", Required := true, Remark := "用户名" }] ∧
    parseDirective userReg { Package := some "main", Imports := some [] } 1 emptyDoc
        "// @response_body user.User" =
      some { emptyDoc with ResponseBody :=
        [{ Name := "id", Typ := "int", Required := true, Remark := "用户ID" },
         { Name := "username", Typ := "string", Required := true, Remark := "用户名" }] } :=
  ⟨(raw_token_fallback userReg { Package := some "main", Imports := some [] } 1 emptyDoc []
      "user" "User" (by decide) (by decide) rfl (by decide) (by decide)).1,
   (raw_token_fallback userReg { Package := some "main", Imports := some [] } 1 emptyDoc []
      "user" "User" (by decide) (by decide) rfl (by decide) (by decide)).2.2 (by decide),
   by decide, by decide⟩

/-! ## Diff: documents that share a key -/

theorem compareNew_added (oldDocMap : GoMap APIDoc) (enum : GoMap APIDoc) :
    ∀ (added : List APIDoc) (changed : List DocumentChange),
      (compareNew oldDocMap enum (added, changed)).1 =
        added ++ (enum.filter (fun e => (oldDocMap.lookup e.1).isNone)).map Prod.snd := by
  induction enum with
  | nil => intro added changed; simp [compareNew]
  | cons e rest ih =>
    obtain ⟨k, newDoc⟩ := e
    intro added changed
    rw [compareNew]
    cases hlook : oldDocMap.lookup k with
    | none =>
      simp only []
      rw [ih]
      simp [List.filter_cons, hlook]
    | some oldDoc =>
      simp only []
      by_cases heq : docsEqual oldDoc newDoc = true
      · simp only [heq, Bool.not_true, Bool.false_eq_true, if_false]
        rw [ih]
        simp [List.filter_cons, hlook]
      · have heq2 : docsEqual oldDoc newDoc = false := by simpa using heq
        simp only [heq2, Bool.not_false, if_true]
        rw [ih]
        simp [List.filter_cons, hlook]

theorem compareNew_changed_keys (oldDocMap : GoMap APIDoc) (enum : GoMap APIDoc)
    (hkeys : ∀ e ∈ enum, getDocKey e.2 = e.1) :
    ∀ (added : List APIDoc) (changed : List DocumentChange),
      ∃ sub, List.Sublist sub (enum.map Prod.fst) ∧
        (compareNew oldDocMap enum (added, changed)).2.map (fun change => getDocKey change.New) =
          changed.map (fun change => getDocKey change.New) ++ sub := by
  induction enum with
  | nil => intro added changed; exact ⟨[], List.Sublist.refl _, by simp [compareNew]⟩
  | cons e rest ih =>
    obtain ⟨k, newDoc⟩ := e
    have hk : getDocKey newDoc = k := hkeys (k, newDoc) (List.mem_cons_self _ _)
    have hrest : ∀ e ∈ rest, getDocKey e.2 = e.1 := fun e he =>
      hkeys e (List.mem_cons_of_mem _ he)
    intro added changed
    rw [compareNew]
    cases hlook : oldDocMap.lookup k with
    | none =>
      simp only []
      obtain ⟨sub, hsub, heq⟩ := ih hrest (added ++ [newDoc]) changed
      exact ⟨sub, hsub.trans (List.sublist_cons_self _ _), heq⟩
    | some oldDoc =>
      simp only []
      by_cases heq : docsEqual oldDoc newDoc = true
      · simp only [heq, Bool.not_true, Bool.false_eq_true, if_false]
        obtain ⟨sub, hsub, hres⟩ := ih hrest added changed
        exact ⟨sub, hsub.trans (List.sublist_cons_self _ _), hres⟩
      · have heq2 : docsEqual oldDoc newDoc = false := by simpa using heq
        simp only [heq2, Bool.not_false, if_true]
        obtain ⟨sub, hsub, hres⟩ := ih hrest added (changed ++ [{ Old := oldDoc, New := newDoc }])
        refine ⟨k :: sub, ?_, ?_⟩
        · simp only [List.map_cons]
          exact hsub.cons₂ k
        · rw [hres]
          simp [hk]

theorem compareOld_removed (newDocMap : GoMap APIDoc) (enum : GoMap APIDoc) :
    ∀ (removed : List APIDoc),
      compareOld newDocMap enum removed =
        removed ++ (enum.filter (fun e => (newDocMap.lookup e.1).isNone)).map Prod.snd := by
  induction enum with
  | nil => intro removed; simp [compareOld]
  | cons e rest ih =>
    obtain ⟨k, oldDoc⟩ := e
    intro removed
    rw [compareOld]
    cases hlook : newDocMap.lookup k with
    | none =>
      simp only []
      rw [ih]
      simp [List.filter_cons, hlook]
    | some newDoc =>
      simp only []
      rw [ih]
      simp [List.filter_cons, hlook]

theorem filter_keys_nodup (enum : GoMap APIDoc) (hwf : enum.WF)
    (hkeys : ∀ e ∈ enum, getDocKey e.2 = e.1) (p : String × APIDoc → Bool) :
    (((enum.filter p).map Prod.snd).map getDocKey).Nodup := by
  have hmap : ((enum.filter p).map Prod.snd).map getDocKey = (enum.filter p).map Prod.fst := by
    rw [List.map_map]
    apply List.map_congr_left
    intro e he
    exact hkeys e (List.mem_of_mem_filter he)
  rw [hmap]
  exact List.Nodup.sublist ((List.filter_sublist _).map Prod.fst) hwf

theorem docMap_enum_keys (docs : List APIDoc) (enum : GoMap APIDoc)
    (hperm : List.Perm enum (docMap docs)) : ∀ e ∈ enum, getDocKey e.2 = e.1 := by
  rintro ⟨key, doc⟩ he
  exact (lastWithKey_some docs key doc ((docMap_mem_iff docs enum hperm key doc).mp he)).2

/-- C38: for all lists of old and new documents and every order in which the
two maps are enumerated, each document of `Added`, `Removed` and `Changed` is
the last one of its list with its diff key; the keys of `Added` are pairwise
distinct, and so are those of `Removed` and those of `Changed`; and no key
occurs in two of the three. -/
theorem CompareDocuments_last_of_each_key (oldDocs newDocs : List APIDoc)
    (oldEnum newEnum : GoMap APIDoc)
    (hold : List.Perm oldEnum (docMap oldDocs)) (hnew : List.Perm newEnum (docMap newDocs)) :
    ((∀ doc ∈ (compareMaps oldEnum newEnum).Added,
        lastWithKey newDocs (getDocKey doc) = some doc) ∧
     (∀ doc ∈ (compareMaps oldEnum newEnum).Removed,
        lastWithKey oldDocs (getDocKey doc) = some doc) ∧
     (∀ change ∈ (compareMaps oldEnum newEnum).Changed,
        lastWithKey oldDocs (getDocKey change.New) = some change.Old ∧
        lastWithKey newDocs (getDocKey change.New) = some change.New)) ∧
    (((compareMaps oldEnum newEnum).Added.map getDocKey).Nodup ∧
     ((compareMaps oldEnum newEnum).Removed.map getDocKey).Nodup ∧
     ((compareMaps oldEnum newEnum).Changed.map (fun change => getDocKey change.New)).Nodup) ∧
    (∀ key, ¬ (key ∈ (compareMaps oldEnum newEnum).Added.map getDocKey ∧
        key ∈ (compareMaps oldEnum newEnum).Removed.map getDocKey) ∧
      ¬ (key ∈ (compareMaps oldEnum newEnum).Added.map getDocKey ∧
        key ∈ (compareMaps oldEnum newEnum).Changed.map (fun change => getDocKey change.New)) ∧
      ¬ (key ∈ (compareMaps oldEnum newEnum).Removed.map getDocKey ∧
        key ∈ (compareMaps oldEnum newEnum).Changed.map
          (fun change => getDocKey change.New))) := by
  have hN := compareNew_spec oldEnum newEnum [] []
  have hO := compareOld_spec newEnum oldEnum []
  have hwfO : oldEnum.WF := GoMap.WF_of_perm _ _ hold (docMap_WF oldDocs)
  have hwfN : newEnum.WF := GoMap.WF_of_perm _ _ hnew (docMap_WF newDocs)
  have hkO := docMap_enum_keys oldDocs oldEnum hold
  have hkN := docMap_enum_keys newDocs newEnum hnew
  have hA : ∀ doc ∈ (compareMaps oldEnum newEnum).Added,
      lastWithKey newDocs (getDocKey doc) = some doc ∧
      lastWithKey oldDocs (getDocKey doc) = none := by
    intro doc hdoc
    rcases (hN.1 doc).mp hdoc with h | ⟨key, hmem, hnone⟩
    · cases h
    · have hk : getDocKey doc = key := hkN (key, doc) hmem
      rw [hk]
      exact ⟨(docMap_mem_iff newDocs newEnum hnew key doc).mp hmem,
        by rw [← docMap_enum_lookup oldDocs oldEnum hold]; exact hnone⟩
  have hR : ∀ doc ∈ (compareMaps oldEnum newEnum).Removed,
      lastWithKey oldDocs (getDocKey doc) = some doc ∧
      lastWithKey newDocs (getDocKey doc) = none := by
    intro doc hdoc
    rcases (hO doc).mp hdoc with h | ⟨key, hmem, hnone⟩
    · cases h
    · have hk : getDocKey doc = key := hkO (key, doc) hmem
      rw [hk]
      exact ⟨(docMap_mem_iff oldDocs oldEnum hold key doc).mp hmem,
        by rw [← docMap_enum_lookup newDocs newEnum hnew]; exact hnone⟩
  have hC : ∀ change ∈ (compareMaps oldEnum newEnum).Changed,
      lastWithKey oldDocs (getDocKey change.New) = some change.Old ∧
      lastWithKey newDocs (getDocKey change.New) = some change.New := by
    intro change hchange
    rcases (hN.2 change).mp hchange with h | ⟨key, hmem, hsome, -⟩
    · cases h
    · have hk : getDocKey change.New = key := hkN (key, change.New) hmem
      rw [hk]
      exact ⟨by rw [← docMap_enum_lookup oldDocs oldEnum hold]; exact hsome,
        (docMap_mem_iff newDocs newEnum hnew key change.New).mp hmem⟩
  refine ⟨⟨fun doc hdoc => (hA doc hdoc).1, fun doc hdoc => (hR doc hdoc).1, hC⟩,
    ⟨?_, ?_, ?_⟩, fun key => ⟨?_, ?_, ?_⟩⟩
  · show ((compareNew oldEnum newEnum ([], [])).1.map getDocKey).Nodup
    rw [compareNew_added, List.nil_append]
    exact filter_keys_nodup newEnum hwfN hkN _
  · show ((compareOld newEnum oldEnum []).map getDocKey).Nodup
    rw [compareOld_removed, List.nil_append]
    exact filter_keys_nodup oldEnum hwfO hkO _
  · show ((compareNew oldEnum newEnum ([], [])).2.map (fun change => getDocKey change.New)).Nodup
    obtain ⟨sub, hsub, heq⟩ := compareNew_changed_keys oldEnum newEnum hkN [] []
    rw [heq, List.map_nil, List.nil_append]
    exact List.Nodup.sublist hsub hwfN
  · rintro ⟨ha, hr⟩
    obtain ⟨doc, hdoc, rfl⟩ := List.mem_map.mp ha
    obtain ⟨doc2, hdoc2, hk2⟩ := List.mem_map.mp hr
    have h1 := (hA doc hdoc).1
    have h2 := (hR doc2 hdoc2).2
    rw [hk2, h1] at h2
    cases h2
  · rintro ⟨ha, hc⟩
    obtain ⟨doc, hdoc, rfl⟩ := List.mem_map.mp ha
    obtain ⟨change, hchange, hk2⟩ := List.mem_map.mp hc
    have h1 := (hA doc hdoc).2
    have h2 := (hC change hchange).1
    rw [hk2, h1] at h2
    cases h2
  · rintro ⟨hr, hc⟩
    obtain ⟨doc, hdoc, rfl⟩ := List.mem_map.mp hr
    obtain ⟨change, hchange, hk2⟩ := List.mem_map.mp hc
    have h1 := (hR doc hdoc).2
    have h2 := (hC change hchange).2
    rw [hk2, h1] at h2
    cases h2

/-- C38, witness: `GET /a` twice in the old list and twice in the new one,
`GET /c` twice in the new one: one change, between the last of each list, and
one addition. -/
theorem CompareDocuments_last_of_each_key_witness :
    CompareDocuments [docOf "A" "get" "/a", docOf "A1" "get" "/a", docOf "B" "post" "/b"]
        [docOf "A2" "get" "/a", docOf "A" "get" "/a", docOf "C" "get" "/c",
         docOf "C2" "get" "/c"] =
      { Added := [docOf "C2" "get" "/c"], Removed := [docOf "B" "post" "/b"],
        Changed := [{ Old := docOf "A1" "get" "/a", New := docOf "A" "get" "/a" }] } ∧
    ((compareMaps
        (docMap [docOf "A" "get" "/a", docOf "A1" "get" "/a", docOf "B" "post" "/b"])
        (docMap [docOf "A2" "get" "/a", docOf "A" "get" "/a", docOf "C" "get" "/c",
          docOf "C2" "get" "/c"])).Added.map getDocKey).Nodup :=
  ⟨by decide,
   (CompareDocuments_last_of_each_key
      [docOf "A" "get" "/a", docOf "A1" "get" "/a", docOf "B" "post" "/b"]
      [docOf "A2" "get" "/a", docOf "A" "get" "/a", docOf "C" "get" "/c", docOf "C2" "get" "/c"]
      _ _ (List.Perm.refl _) (List.Perm.refl _)).2.1.1⟩

/-! ## Reference resolution: the order of the enumeration -/

theorem hasSuffix_count (s suf : String) (c : Char) (h : hasSuffix s suf = true) :
    suf.data.count c ≤ s.data.count c := by
  unfold hasSuffix at h
  rw [List.isPrefixOf_iff_prefix, List.reverse_prefix] at h
  exact h.sublist.count_le c

theorem findQualifiedKey_of_scanKeys (reg : Registry) (hkeys : ScanKeys reg) (cleanType : String)
    (hdot : containsStr cleanType "." = true) (hlook : reg.lookup cleanType = none) :
    findQualifiedKey reg cleanType = none := by
  have hmemdot : '.' ∈ cleanType.data := by
    unfold containsStr at hdot
    rw [show (".": String).data = ['.'] from rfl, containsList_singleton] at hdot
    exact hdot
  have hnotkey := (GoMap.lookup_eq_none_iff reg cleanType).mp hlook
  clear hlook
  induction reg with
  | nil => rfl
  | cons e rest ih =>
    obtain ⟨key, info⟩ := e
    unfold findQualifiedKey
    have hone : key.data.count '.' = 1 := hkeys (key, info) (List.mem_cons_self _ _)
    have hsuf : hasSuffix key ("." ++ cleanType) = false := by
      by_contra hs
      simp only [Bool.not_eq_false] at hs
      have hle := hasSuffix_count key ("." ++ cleanType) '.' hs
      have hpos : 0 < cleanType.data.count '.' := List.count_pos_iff.mpr hmemdot
      simp only [String.data_append, List.count_append] at hle
      have hd : List.count '.' ['.'] = 1 := by decide
      omega
    have hne : (key == cleanType) = false := by
      rw [beq_eq_false_iff_ne]
      intro heq
      apply hnotkey
      rw [← heq]
      exact List.mem_map.mpr ⟨(key, info), List.mem_cons_self _ _, rfl⟩
    rw [hsuf, hne]
    simp only [Bool.or_self, Bool.false_eq_true, if_false]
    apply ih (fun e he => hkeys e (List.mem_cons_of_mem _ he))
    intro hmem
    exact hnotkey (by simp only [List.map_cons, List.mem_cons]; exact Or.inr hmem)

theorem fieldTarget_of_perm (reg1 reg2 : Registry) (hperm : List.Perm reg1 reg2)
    (hwf : reg1.WF) (hkeys : ScanKeys reg1) (currentPackage cleanType : String) :
    fieldTarget reg1 currentPackage cleanType = fieldTarget reg2 currentPackage cleanType := by
  have hkeys2 : ScanKeys reg2 := fun e he => hkeys e (hperm.mem_iff.mpr he)
  have hlook : ∀ key, reg2.lookup key = reg1.lookup key := fun key =>
    GoMap.lookup_of_perm reg2 reg1 hperm.symm hwf key
  unfold fieldTarget
  simp only [hlook]
  by_cases h1 : (reg1.lookup cleanType).isSome = true
  · rw [if_pos h1, if_pos h1]
  · rw [if_neg h1, if_neg h1]
    by_cases h2 : containsStr cleanType "." = true
    · have hnone : reg1.lookup cleanType = none := by
        cases h : reg1.lookup cleanType with
        | none => rfl
        | some v => rw [h] at h1; exact absurd rfl h1
      rw [if_pos h2, if_pos h2, findQualifiedKey_of_scanKeys reg1 hkeys cleanType h2 hnone,
        findQualifiedKey_of_scanKeys reg2 hkeys2 cleanType h2 (by rw [hlook]; exact hnone)]
    · rw [if_neg h2, if_neg h2]

theorem deepParseFields_congr (reg1 reg2 : Registry)
    (htarget : ∀ currentPackage cleanType,
      fieldTarget reg1 currentPackage cleanType = fieldTarget reg2 currentPackage cleanType)
    (structInfo : StructInfo) (pre : String)
    (r1 r2 : String → String → Option (List ResponseParam)) (hr : ∀ key q, r1 key q = r2 key q)
    (fieldList : List ResponseParam) :
    ∀ params, deepParseFields reg1 structInfo pre r1 params fieldList =
      deepParseFields reg2 structInfo pre r2 params fieldList := by
  induction fieldList with
  | nil => intro params; rfl
  | cons field rest ih =>
    intro params
    have hpart : fieldPart reg1 structInfo pre r1 field = fieldPart reg2 structInfo pre r2 field := by
      unfold fieldPart
      rw [htarget]
      cases fieldTarget reg2 structInfo.Package (trimPrefix field.Typ "*") with
      | none => rfl
      | some target => exact hr _ _
    unfold deepParseFields
    rw [deepParseField_eq, deepParseField_eq, hpart]
    cases fieldPart reg2 structInfo pre r2 field with
    | none => rfl
    | some part => exact ih _

/-- C32: for two enumerations of one registry whose keys are those of a scan,
`deepParseStruct` gives the same result for every key, prefix and bound: the
same ordered list of leaves, or no result for both. -/
theorem deepParseStruct_order (reg1 reg2 : Registry) (hperm : List.Perm reg1 reg2)
    (hwf : reg1.WF) (hkeys : ScanKeys reg1) :
    ∀ (fuel : Nat) (structName pre : String),
      deepParseStruct reg1 fuel structName pre = deepParseStruct reg2 fuel structName pre := by
  intro fuel
  induction fuel with
  | zero => intro structName pre; rfl
  | succ n ih =>
    intro structName pre
    unfold deepParseStruct
    rw [GoMap.lookup_of_perm reg2 reg1 hperm.symm hwf structName]
    cases reg1.lookup structName with
    | none => rfl
    | some structInfo =>
      exact deepParseFields_congr reg1 reg2 (fieldTarget_of_perm reg1 reg2 hperm hwf hkeys)
        structInfo pre _ _ ih structInfo.Fields []

theorem count_dot_key (packageName name : String) (h1 : '.' ∉ packageName.data)
    (h2 : '.' ∉ name.data) : (packageName ++ "." ++ name).data.count '.' = 1 := by
  simp only [String.data_append, List.count_append, List.count_eq_zero_of_not_mem h1,
    List.count_eq_zero_of_not_mem h2]
  decide

theorem assign_mem {V : Type} (m : GoMap V) (k : String) (v : V) :
    ∀ e ∈ m.assign k v, e ∈ m ∨ e.1 = k := by
  induction m with
  | nil =>
    intro e he
    simp only [GoMap.assign, List.mem_singleton] at he
    right; rw [he]
  | cons x rest ih =>
    obtain ⟨k1, v1⟩ := x
    intro e he
    unfold GoMap.assign at he
    by_cases h : k1 = k
    · rw [if_pos h] at he
      rcases List.mem_cons.mp he with rfl | he
      · right; exact h
      · left; exact List.mem_cons_of_mem _ he
    · rw [if_neg h] at he
      rcases List.mem_cons.mp he with rfl | he
      · left; exact List.mem_cons_self _ _
      · rcases ih e he with h1 | h1
        · left; exact List.mem_cons_of_mem _ h1
        · right; exact h1

theorem parseStructs_scanKeys (files : List SourceFile)
    (hfiles : ∀ file ∈ files, '.' ∉ file.PackageName.data ∧
      ∀ decl ∈ file.Structs, '.' ∉ decl.Name.data) :
    ScanKeys (parseStructs files) ∧ (parseStructs files).WF := by
  have hstep : ∀ (packageName relPath : String) (decls : List StructDecl) (reg : Registry),
      '.' ∉ packageName.data → (∀ decl ∈ decls, '.' ∉ decl.Name.data) →
      ScanKeys reg ∧ reg.WF →
      ScanKeys (decls.foldl (registerStruct packageName relPath) reg) ∧
        (decls.foldl (registerStruct packageName relPath) reg).WF := by
    intro packageName relPath decls
    induction decls with
    | nil => intro reg _ _ h; exact h
    | cons decl rest ih =>
      intro reg hp hd h
      rw [List.foldl_cons]
      apply ih _ hp (fun d hd2 => hd d (List.mem_cons_of_mem _ hd2))
      refine ⟨?_, GoMap.WF_assign reg h.2 _ _⟩
      intro e he
      rcases assign_mem reg _ _ e he with h1 | h1
      · exact h.1 e h1
      · rw [h1]
        exact count_dot_key packageName decl.Name hp (hd decl (List.mem_cons_self _ _))
  have hall : ∀ (fs : List SourceFile) (reg : Registry),
      (∀ file ∈ fs, '.' ∉ file.PackageName.data ∧ ∀ decl ∈ file.Structs, '.' ∉ decl.Name.data) →
      ScanKeys reg ∧ reg.WF →
      ScanKeys (fs.foldl (fun reg file =>
        file.Structs.foldl (registerStruct file.PackageName file.RelPath) reg) reg) ∧
      (fs.foldl (fun reg file =>
        file.Structs.foldl (registerStruct file.PackageName file.RelPath) reg) reg).WF := by
    intro fs
    induction fs with
    | nil => intro reg _ h; exact h
    | cons f rest ih =>
      intro reg hf h
      rw [List.foldl_cons]
      apply ih _ (fun g hg => hf g (List.mem_cons_of_mem _ hg))
      exact hstep f.PackageName f.RelPath f.Structs reg (hf f (List.mem_cons_self _ _)).1
        (hf f (List.mem_cons_self _ _)).2 h
  have hnil : ScanKeys ([] : Registry) := fun e he => by cases he
  have hwfnil : GoMap.WF ([] : Registry) := by simp [GoMap.WF]
  exact hall files [] hfiles ⟨hnil, hwfnil⟩

/-- C32, witness: the registry of `userFile` and its reverse give the leaves
of `user.LoginResponse` in the same order. -/
theorem deepParseStruct_order_witness :
    deepParseStruct userReg 2 "user.LoginResponse" "" =
      deepParseStruct userReg.reverse 2 "user.LoginResponse" "" ∧
    deepParseStruct userReg.reverse 2 "user.LoginResponse" "" = some loginLeaves :=
  ⟨deepParseStruct_order userReg userReg.reverse (List.reverse_perm userReg).symm
      (parseStructs_scanKeys [userFile] (by decide)).2
      (parseStructs_scanKeys [userFile] (by decide)).1 2 "user.LoginResponse" "",
   by decide⟩

/-- The hypothesis `ScanKeys` of the theorem on the order of the enumeration
cannot be dropped: among keys with two dots, which the scan never builds, the
loop of `deepParseStruct` over the registry takes the first match of the
enumeration. -/
theorem findQualifiedKey_first_match :
    findQualifiedKey
        [("a.x.T", { Name := "T", Package := "a.x", PackagePath := "a", Fields := [] }),
         ("b.x.T", { Name := "T", Package := "b.x", PackagePath := "b", Fields := [] })]
        "x.T" = some "a.x.T" ∧
    findQualifiedKey
        [("b.x.T", { Name := "T", Package := "b.x", PackagePath := "b", Fields := [] }),
         ("a.x.T", { Name := "T", Package := "a.x", PackagePath := "a", Fields := [] })]
        "x.T" = some "b.x.T" := by
  decide

/-! ## Flattening: termination -/

theorem findQualifiedKey_mem (reg : Registry) (cleanType key : String)
    (h : findQualifiedKey reg cleanType = some key) : key ∈ reg.map Prod.fst := by
  induction reg with
  | nil => cases h
  | cons e rest ih =>
    obtain ⟨k, info⟩ := e
    unfold findQualifiedKey at h
    by_cases hc : (hasSuffix k ("." ++ cleanType) || k == cleanType) = true
    · rw [if_pos hc] at h
      obtain rfl := Option.some.inj h
      exact List.mem_cons_self _ _
    · rw [if_neg hc] at h
      exact List.mem_cons_of_mem _ (ih h)

theorem fieldTarget_mem (reg : Registry) (currentPackage cleanType target : String)
    (h : fieldTarget reg currentPackage cleanType = some target) :
    target ∈ reg.map Prod.fst := by
  have hkey : ∀ key, (reg.lookup key).isSome = true → key ∈ reg.map Prod.fst := by
    intro key hk
    by_contra hn
    rw [(GoMap.lookup_eq_none_iff reg key).mpr hn] at hk
    cases hk
  unfold fieldTarget at h
  by_cases h1 : (reg.lookup cleanType).isSome = true
  · rw [if_pos h1] at h
    obtain rfl := Option.some.inj h
    exact hkey _ h1
  · rw [if_neg h1] at h
    by_cases h2 : containsStr cleanType "." = true
    · rw [if_pos h2] at h
      exact findQualifiedKey_mem reg cleanType target h
    · rw [if_neg h2] at h
      by_cases h3 : (reg.lookup (currentPackage ++ "." ++ cleanType)).isSome = true
      · rw [if_pos h3] at h
        obtain rfl := Option.some.inj h
        exact hkey _ h3
      · rw [if_neg h3] at h
        cases h

theorem fields_fuel (reg : Registry) (structInfo : StructInfo)
    (fieldList : List ResponseParam)
    (h : ∀ field ∈ fieldList, ∀ target,
      fieldTarget reg structInfo.Package (trimPrefix field.Typ "*") = some target →
      ∃ fuel, ∀ pre, (deepParseStruct reg fuel target pre).isSome = true) :
    ∃ fuel, ∀ field ∈ fieldList, ∀ pre,
      (fieldPart reg structInfo pre (deepParseStruct reg fuel) field).isSome = true := by
  induction fieldList with
  | nil => exact ⟨0, fun field hf => by cases hf⟩
  | cons first rest ih =>
    obtain ⟨n, hn⟩ := ih (fun field hf => h field (List.mem_cons_of_mem _ hf))
    have hfirst : ∃ m, ∀ pre,
        (fieldPart reg structInfo pre (deepParseStruct reg m) first).isSome = true := by
      cases ht : fieldTarget reg structInfo.Package (trimPrefix first.Typ "*") with
      | none => exact ⟨0, fun pre => by unfold fieldPart; rw [ht]; rfl⟩
      | some target =>
        obtain ⟨m, hm⟩ := h first (List.mem_cons_self _ _) target ht
        exact ⟨m, fun pre => by unfold fieldPart; rw [ht]; exact hm _⟩
    obtain ⟨m, hm⟩ := hfirst
    refine ⟨max n m, ?_⟩
    intro field hf pre
    have hmono : ∀ k, k ≤ max n m →
        (fieldPart reg structInfo pre (deepParseStruct reg k) field).isSome = true →
        (fieldPart reg structInfo pre (deepParseStruct reg (max n m)) field).isSome = true := by
      intro k hk hsome
      obtain ⟨part, hpart⟩ := Option.isSome_iff_exists.mp hsome
      rw [fieldPart_mono reg structInfo pre _ (deepParseStruct reg (max n m))
        (fun a b out hab => deepParseStruct_mono reg a b out k (max n m) hk hab) field part hpart]
      rfl
    rcases List.mem_cons.mp hf with rfl | hf
    · exact hmono m (le_max_right _ _) (hm pre)
    · exact hmono n (le_max_left _ _) (hn field hf pre)

theorem deepParseStruct_total_of_acyclic (reg : Registry) (structName : String)
    (hacyclic : ∀ c, Relation.ReflTransGen (Refers reg) structName c →
      ¬ Relation.TransGen (Refers reg) c c) :
    ∃ fuel, ∀ pre, (deepParseStruct reg fuel structName pre).isSome = true := by
  let S : Set String := {c | c ∈ reg.map Prod.fst ∧ Relation.ReflTransGen (Refers reg) structName c}
  have hfin : S.Finite :=
    Set.Finite.subset (List.finite_toSet (reg.map Prod.fst)) (fun c hc => hc.1)
  haveI : Finite S := hfin.to_subtype
  let r : S → S → Prop := fun x y => Relation.TransGen (Refers reg) y.1 x.1
  haveI : IsTrans S r := ⟨fun a b c hab hbc => Relation.TransGen.trans hbc hab⟩
  haveI : IsIrrefl S r := ⟨fun a ha => hacyclic a.1 a.2.2 ha⟩
  have hwf : WellFounded r := Finite.wellFounded_of_trans_of_irrefl r
  have hall : ∀ x : S, ∃ fuel, ∀ pre, (deepParseStruct reg fuel x.1 pre).isSome = true := by
    intro x
    induction x using hwf.induction with
    | _ x ih =>
      cases hlook : reg.lookup x.1 with
      | none => exact ⟨1, fun pre => by unfold deepParseStruct; rw [hlook]; rfl⟩
      | some structInfo =>
        obtain ⟨n, hn⟩ := fields_fuel reg structInfo structInfo.Fields (by
          intro field hfield target htarget
          have href : Refers reg x.1 target := ⟨structInfo, field, hlook, hfield, htarget⟩
          have hmem : target ∈ S :=
            ⟨fieldTarget_mem reg _ _ target htarget, Relation.ReflTransGen.tail x.2.2 href⟩
          exact ih ⟨target, hmem⟩ (Relation.TransGen.single href))
        refine ⟨n + 1, fun pre => ?_⟩
        unfold deepParseStruct
        rw [hlook]
        exact deepParseFields_total reg structInfo pre _ structInfo.Fields
          (fun field hf => hn field hf pre) []
  cases hlook : reg.lookup structName with
  | none => exact ⟨1, fun pre => by unfold deepParseStruct; rw [hlook]; rfl⟩
  | some structInfo =>
    have hkey : structName ∈ reg.map Prod.fst := by
      by_contra hn
      rw [(GoMap.lookup_eq_none_iff reg structName).mpr hn] at hlook
      cases hlook
    exact hall ⟨structName, hkey, Relation.ReflTransGen.refl⟩

/-- C35: when no struct that the expansion of `structName` can reach refers
back to itself through one or more fields, some bound on the depth makes
`deepParseStruct` return for every prefix. -/
theorem deepParseStruct_terminates (reg : Registry) (structName : String)
    (hacyclic : ∀ c, Relation.ReflTransGen (Refers reg) structName c →
      ¬ Relation.TransGen (Refers reg) c c) :
    ∃ fuel, ∀ pre, ∃ out, deepParseStruct reg fuel structName pre = some out := by
  obtain ⟨fuel, h⟩ := deepParseStruct_total_of_acyclic reg structName hacyclic
  exact ⟨fuel, fun pre => Option.isSome_iff_exists.mp (h pre)⟩

theorem refers_of_entries (reg : Registry) (P : String → String → Prop)
    (h : ∀ entry ∈ reg, ∀ field ∈ entry.2.Fields,
      ∀ target ∈ (fieldTarget reg entry.2.Package (trimPrefix field.Typ "*")).toList,
        P entry.1 target) :
    ∀ a b, Refers reg a b → P a b := by
  rintro a b ⟨structInfo, field, hlook, hfield, htarget⟩
  exact h (a, structInfo) (GoMap.mem_of_lookup reg a structInfo hlook) field hfield b
    (by rw [htarget]; simp)

theorem acyclic_of_rank (reg : Registry) (rank : String → Nat)
    (h : ∀ a b, Refers reg a b → rank b < rank a) :
    ∀ c, ¬ Relation.TransGen (Refers reg) c c := by
  have hlt : ∀ a b, Relation.TransGen (Refers reg) a b → rank b < rank a := by
    intro a b hab
    induction hab with
    | single h1 => exact h _ _ h1
    | tail _ h2 ih => exact lt_trans (h _ _ h2) ih
  intro c hc
  exact lt_irrefl _ (hlt c c hc)

/-- C35, witness: in the registry of `userFile` the only reference goes from
`user.LoginResponse` to `user.User`, so the flattening of
`user.LoginResponse` returns for every prefix. -/
theorem deepParseStruct_terminates_witness :
    ∃ fuel, ∀ pre, ∃ out, deepParseStruct userReg fuel "user.LoginResponse" pre = some out :=
  deepParseStruct_terminates userReg "user.LoginResponse" (fun c _ =>
    acyclic_of_rank userReg (fun key => if key = "user.LoginResponse" then 1 else 0)
      (refers_of_entries userReg
        (fun a b => (if b = "user.LoginResponse" then 1 else 0) <
          (if a = "user.LoginResponse" then 1 else 0))
        (by decide)) c)

/-! ## Functions of a file: the flattenings that a block starts -/

theorem keyFlattening_isSome (reg : Registry) (fuel : Nat) (structKey pre : String)
    {β : Type} (f : List ResponseParam → β) (other : β) :
    ((if (reg.lookup structKey).isSome then (deepParseStruct reg fuel structKey pre).map f
      else some other).isSome = true) ↔
      ∀ kp ∈ keyFlattening reg structKey pre, (deepParseStruct reg fuel kp.1 kp.2).isSome = true := by
  unfold keyFlattening
  by_cases h : (reg.lookup structKey).isSome = true
  · rw [if_pos h, if_pos h, Option.isSome_map']
    simp only [List.mem_singleton, forall_eq]
  · rw [if_neg h, if_neg h]
    simp

theorem overrideField_isSome (reg : Registry) (file : FileInfo) (fuel : Nat)
    (params : List ResponseParam) (fieldName structName : String) :
    (overrideField reg file fuel params fieldName structName).isSome = true ↔
      ∀ kp ∈ keyFlattening reg (resolveOrRaw reg file structName) (fieldName ++ "."),
        (deepParseStruct reg fuel kp.1 kp.2).isSome = true := by
  unfold overrideField keyFlattening
  simp only []
  by_cases h : (reg.lookup (resolveOrRaw reg file structName)).isSome = true
  · rw [if_pos h, if_pos h]
    simp only [List.mem_singleton, forall_eq]
    cases replaceNamed fieldName params <;> simp only [Option.isSome_map']
  · rw [if_neg h, if_neg h]
    simp

theorem applyOverride_isSome (reg : Registry) (file : FileInfo) (fuel : Nat)
    (params : List ResponseParam) (field : String) :
    (applyOverride reg file fuel params field).isSome = true ↔
      ∀ kp ∈ overrideFlattenings reg file field,
        (deepParseStruct reg fuel kp.1 kp.2).isSome = true := by
  unfold applyOverride overrideFlattenings
  simp only []
  by_cases hempty : trimSpace field = ""
  · rw [if_pos hempty, if_pos hempty]
    simp
  · rw [if_neg hempty, if_neg hempty]
    cases cutList '=' (trimSpace field).data with
    | none => simp
    | some parts => exact overrideField_isSome reg file fuel params _ _

theorem applyOverrides_isSome (reg : Registry) (file : FileInfo) (fuel : Nat)
    (overrides : List String) :
    ∀ params, (applyOverrides reg file fuel params overrides).isSome = true ↔
      ∀ kp ∈ (overrides.map (overrideFlattenings reg file)).flatten,
        (deepParseStruct reg fuel kp.1 kp.2).isSome = true := by
  induction overrides with
  | nil => intro params; simp [applyOverrides]
  | cons field rest ih =>
    intro params
    have hstep := applyOverride_isSome reg file fuel params field
    unfold applyOverrides
    simp only [List.map_cons, List.flatten_cons, List.mem_append]
    cases hres : applyOverride reg file fuel params field with
    | none =>
      rw [hres] at hstep
      simp only [Option.isSome_none, Bool.false_eq_true, false_iff] at hstep ⊢
      intro hall
      exact hstep (fun kp hkp => hall kp (Or.inl hkp))
    | some params1 =>
      rw [hres] at hstep
      simp only [Option.isSome_some, true_iff] at hstep
      simp only []
      rw [ih params1]
      constructor
      · intro h kp hkp
        rcases hkp with hkp | hkp
        · exact hstep kp hkp
        · exact h kp hkp
      · intro h kp hkp
        exact h kp (Or.inr hkp)

theorem appendNested_isSome (reg : Registry) (file : FileInfo) (fuel : Nat) (apiDoc : APIDoc)
    (responseValue : String) :
    (appendNested reg file fuel apiDoc responseValue).isSome = true ↔
      ∀ kp ∈ nestedFlattenings reg file responseValue,
        (deepParseStruct reg fuel kp.1 kp.2).isSome = true := by
  have hnested : (parseNestedResponse reg file fuel responseValue).isSome = true ↔
      ∀ kp ∈ nestedFlattenings reg file responseValue,
        (deepParseStruct reg fuel kp.1 kp.2).isSome = true := by
    unfold parseNestedResponse nestedFlattenings
    simp only []
    by_cases hform : (!containsStr responseValue "\x7b" || !hasSuffix responseValue "\x7d") = true
    · rw [if_pos hform, if_pos hform]
      simp
    · rw [if_neg hform, if_neg hform]
      by_cases hinner : trimSuffix (trimPrefix responseValue
          (trimSpace (splitFirst responseValue '{').1 ++ "\x7b")) "\x7d" = ""
      · rw [if_pos hinner, if_pos hinner]
        simp
      · rw [if_neg hinner, if_neg hinner, Option.isSome_map']
        exact applyOverrides_isSome reg file fuel _ _
  rw [← hnested]
  unfold appendNested
  cases parseNestedResponse reg file fuel responseValue with
  | none => simp
  | some r =>
    cases r with
    | error e => simp
    | ok nestedParams =>
      by_cases hlen : nestedParams.length > 0
      · simp only [hlen, if_true, Option.isSome_some]
      · simp only [hlen, if_false, Option.isSome_some]

theorem dispatchDirective_isSome (reg : Registry) (file : FileInfo) (fuel : Nat)
    (apiDoc : APIDoc) (key value : String) :
    (dispatchDirective reg file fuel apiDoc key value).isSome = true ↔
      ∀ kp ∈ dispatchFlattenings reg file key value,
        (deepParseStruct reg fuel kp.1 kp.2).isSome = true := by
  by_cases h1 : key = "@response"
  · subst h1
    have hd : dispatchDirective reg file fuel apiDoc "@response" value =
        responseDirective reg file fuel apiDoc value := rfl
    have hf : dispatchFlattenings reg file "@response" value =
        match fields value with
        | _ :: _ :: _ :: _ => []
        | _ =>
          if containsStr value "\x7b" && hasSuffix value "\x7d" then
            nestedFlattenings reg file value
          else keyFlattening reg value "" := rfl
    rw [hd, hf]
    unfold responseDirective
    have hshort : ((if containsStr value "\x7b" && hasSuffix value "\x7d" then
          appendNested reg file fuel apiDoc value
        else if (reg.lookup value).isSome then
          (deepParseStruct reg fuel value "").map fun nestedParams =>
            { apiDoc with ResponseBody := apiDoc.ResponseBody ++ nestedParams }
        else some apiDoc).isSome = true) ↔
        ∀ kp ∈ (if containsStr value "\x7b" && hasSuffix value "\x7d" then
            nestedFlattenings reg file value
          else keyFlattening reg value ""),
          (deepParseStruct reg fuel kp.1 kp.2).isSome = true := by
      by_cases hc : (containsStr value "\x7b" && hasSuffix value "\x7d") = true
      · rw [if_pos hc, if_pos hc]
        exact appendNested_isSome reg file fuel apiDoc value
      · rw [if_neg hc, if_neg hc]
        exact keyFlattening_isSome reg fuel value "" _ apiDoc
    generalize fields value = toks
    rcases toks with _ | ⟨a, _ | ⟨b, _ | ⟨c, more⟩⟩⟩
    · exact hshort
    · exact hshort
    · exact hshort
    · simp only [List.not_mem_nil, false_imp_iff, implies_true, iff_true]
      repeat' with_reducible apply ite_isSome
      all_goals rfl
  · by_cases h2 : key = "@response_body"
    · subst h2
      have hd : dispatchDirective reg file fuel apiDoc "@response_body" value =
          responseBodyDirective reg file fuel apiDoc value := rfl
      have hf : dispatchFlattenings reg file "@response_body" value =
          if containsStr value "\x7b" && hasSuffix value "\x7d" then
            nestedFlattenings reg file value
          else keyFlattening reg (resolveOrRaw reg file value) "" := rfl
      rw [hd, hf]
      unfold responseBodyDirective
      simp only []
      by_cases hc : (containsStr value "\x7b" && hasSuffix value "\x7d") = true
      · rw [if_pos hc, if_pos hc]
        exact appendNested_isSome reg file fuel apiDoc value
      · rw [if_neg hc, if_neg hc]
        exact keyFlattening_isSome reg fuel _ "" _ apiDoc
    · by_cases h3 : key = "@body"
      · subst h3
        have hd : dispatchDirective reg file fuel apiDoc "@body" value =
            bodyDirective reg file fuel apiDoc value := rfl
        have hf : dispatchFlattenings reg file "@body" value =
            keyFlattening reg (resolveOrRaw reg file value) "" := rfl
        rw [hd, hf]
        unfold bodyDirective
        simp only []
        exact keyFlattening_isSome reg fuel _ "" _ apiDoc
      · have hf : dispatchFlattenings reg file key value = [] := by
          unfold dispatchFlattenings
          rw [if_neg h1, if_neg h2, if_neg h3]
        rw [hf]
        simp only [List.not_mem_nil, false_imp_iff, implies_true, iff_true]
        unfold dispatchDirective
        by_cases c1 : key = "@catalog"
        · rw [if_pos c1]; rfl
        rw [if_neg c1]
        by_cases c2 : key = "@title"
        · rw [if_pos c2]; rfl
        rw [if_neg c2]
        by_cases c3 : key = "@description"
        · rw [if_pos c3]; rfl
        rw [if_neg c3]
        by_cases c4 : key = "@method"
        · rw [if_pos c4]; rfl
        rw [if_neg c4]
        by_cases c5 : key = "@router"
        · rw [if_pos c5]; rfl
        rw [if_neg c5]
        by_cases c6 : key = "@url"
        · rw [if_pos c6]; rfl
        rw [if_neg c6]
        by_cases c7 : key = "@param"
        · rw [if_pos c7]; rfl
        rw [if_neg c7, if_neg h1, if_neg h2, if_neg h3]
        rfl

theorem parseDirective_isSome (reg : Registry) (file : FileInfo) (fuel : Nat)
    (apiDoc : APIDoc) (commentText : String) :
    (parseDirective reg file fuel apiDoc commentText).isSome = true ↔
      ∀ kp ∈ lineFlattenings reg file commentText,
        (deepParseStruct reg fuel kp.1 kp.2).isSome = true := by
  unfold parseDirective lineFlattenings
  simp only []
  by_cases h1 : trimSpace (trimPrefix commentText "//") = "runapi"
  · rw [if_pos h1, if_pos h1]; simp
  · rw [if_neg h1, if_neg h1]
    by_cases h2 : hasPrefix (trimSpace (trimPrefix commentText "//")) "@remark" = true
    · rw [if_pos h2, if_pos h2]; simp
    · rw [if_neg h2, if_neg h2]
      cases cutList ' ' (trimSpace (trimPrefix commentText "//")).data with
      | none => simp
      | some parts =>
        simp only []
        by_cases h3 : trimSpace ⟨' ' :: parts.2⟩ = ""
        · rw [if_pos h3, if_pos h3]; simp
        · rw [if_neg h3, if_neg h3]
          exact dispatchDirective_isSome reg file fuel apiDoc _ _

theorem parseDirectives_isSome (reg : Registry) (file : FileInfo) (fuel : Nat)
    (doc : List String) :
    ∀ apiDoc, (parseDirectives reg file fuel apiDoc doc).isSome = true ↔
      ∀ commentText ∈ doc, ∀ kp ∈ lineFlattenings reg file commentText,
        (deepParseStruct reg fuel kp.1 kp.2).isSome = true := by
  induction doc with
  | nil => intro apiDoc; simp [parseDirectives]
  | cons commentText rest ih =>
    intro apiDoc
    have hstep := parseDirective_isSome reg file fuel apiDoc commentText
    unfold parseDirectives
    cases hres : parseDirective reg file fuel apiDoc commentText with
    | none =>
      rw [hres] at hstep
      simp only [Option.isSome_none, Bool.false_eq_true, false_iff] at hstep ⊢
      intro hall
      exact hstep (hall commentText (List.mem_cons_self _ _))
    | some apiDoc1 =>
      rw [hres] at hstep
      simp only [Option.isSome_some, true_iff] at hstep
      simp only []
      rw [ih apiDoc1]
      constructor
      · intro h line hline
        rcases List.mem_cons.mp hline with rfl | hline
        · exact hstep
        · exact h line hline
      · intro h line hline
        exact h line (List.mem_cons_of_mem _ hline)

theorem uniform_bound (reg : Registry) (calls : List (String × String))
    (h : ∀ kp ∈ calls, ∃ fuel out, deepParseStruct reg fuel kp.1 kp.2 = some out) :
    ∃ fuel, ∀ kp ∈ calls, (deepParseStruct reg fuel kp.1 kp.2).isSome = true := by
  induction calls with
  | nil => exact ⟨0, fun kp hkp => by cases hkp⟩
  | cons first rest ih =>
    obtain ⟨n, hn⟩ := ih (fun kp hkp => h kp (List.mem_cons_of_mem _ hkp))
    obtain ⟨m, out, hm⟩ := h first (List.mem_cons_self _ _)
    refine ⟨max n m, fun kp hkp => ?_⟩
    rcases List.mem_cons.mp hkp with rfl | hkp
    · rw [deepParseStruct_mono reg _ _ out m (max n m) (le_max_right _ _) hm]
      rfl
    · obtain ⟨out2, hout2⟩ := Option.isSome_iff_exists.mp (hn kp hkp)
      rw [deepParseStruct_mono reg _ _ out2 n (max n m) (le_max_left _ _) hout2]
      rfl

theorem returns_of_bound (reg : Registry) (fuel : Nat) (calls : List (String × String))
    (h : ∀ kp ∈ calls, (deepParseStruct reg fuel kp.1 kp.2).isSome = true) :
    ∀ kp ∈ calls, ∃ fuel out, deepParseStruct reg fuel kp.1 kp.2 = some out :=
  fun kp hkp => ⟨fuel, Option.isSome_iff_exists.mp (h kp hkp)⟩

/-- C25, as the code has it: the marker is found exactly when some comment of
the block, blanks around it removed, is `// runapi`.  Without the marker the
function adds no descriptor, whatever the bound on the flattening.  With the
marker, the function adds a descriptor, with the path of the file and the name
of the function, at the end of the list for some bound, exactly when every
flattening that the lines of the block start returns: the flattenings of the
rest of the registry play no part. -/
theorem parseFunc_marker (reg : Registry) (file : FileInfo) (filePath : String)
    (apiDocs : List APIDoc) (functionName : String) (doc : List String) :
    (hasRunAPI doc = true ↔ ∃ commentText ∈ doc, trimSpace commentText = "// runapi") ∧
    (hasRunAPI doc = false → ∀ fuel,
      parseFunc reg file fuel filePath apiDocs { Name := functionName, Doc := some doc } =
        some apiDocs) ∧
    (hasRunAPI doc = true →
      ((∀ kp ∈ (doc.map (lineFlattenings reg file)).flatten,
          ∃ fuel out, deepParseStruct reg fuel kp.1 kp.2 = some out) ↔
        ∃ fuel apiDoc, parseFuncDoc reg file fuel doc = some apiDoc ∧
          parseFunc reg file fuel filePath apiDocs { Name := functionName, Doc := some doc } =
            some (apiDocs ++
              [{ apiDoc with FilePath := filePath, FunctionName := functionName }]))) := by
  refine ⟨hasRunAPI_iff doc, fun h fuel => ?_, fun h => ⟨fun hall => ?_, ?_⟩⟩
  · simp only [parseFunc, h, Bool.not_false, if_true]
  · obtain ⟨fuel, hfuel⟩ := uniform_bound reg _ hall
    have hsome : (parseDirectives reg file fuel emptyDoc doc).isSome = true := by
      rw [parseDirectives_isSome]
      intro line hline kp hkp
      exact hfuel kp (List.mem_flatten.mpr ⟨_, List.mem_map.mpr ⟨line, hline, rfl⟩, hkp⟩)
    obtain ⟨apiDoc, hdoc⟩ := Option.isSome_iff_exists.mp hsome
    have hdoc2 : parseFuncDoc reg file fuel doc = some apiDoc := hdoc
    refine ⟨fuel, apiDoc, hdoc2, ?_⟩
    simp only [parseFunc, h, Bool.not_true, Bool.false_eq_true, if_false, hdoc2, Option.map_some']
  · rintro ⟨fuel, apiDoc, hdoc, -⟩ kp hkp
    obtain ⟨calls, hcalls, hmem⟩ := List.mem_flatten.mp hkp
    obtain ⟨line, hline, rfl⟩ := List.mem_map.mp hcalls
    have hsome : (parseDirectives reg file fuel emptyDoc doc).isSome = true := by
      have : parseDirectives reg file fuel emptyDoc doc = some apiDoc := hdoc
      rw [this]; rfl
    exact ⟨fuel, Option.isSome_iff_exists.mp
      ((parseDirectives_isSome reg file fuel doc emptyDoc).mp hsome line hline kp hmem)⟩

/-- C25, witness: on the registry of `pkgFile`, in which `pkg.Node` refers to
itself, the block with the marker between blanks and the line `// @body User`
starts the flattening of `pkg.User` only and yields a descriptor; the block
with `//runapi` yields none, even with the line `// @body Node`. -/
theorem parseFunc_marker_witness :
    hasRunAPI ["// @title x", "  // runapi ", "// @body User"] = true ∧
    (pkgReg.lookup "pkg.Node").isSome = true ∧
    (["// @title x", "  // runapi ", "// @body User"].map
      (lineFlattenings pkgReg pkgCaller)).flatten = [("pkg.User", "")] ∧
    (∃ fuel apiDoc,
      parseFuncDoc pkgReg pkgCaller fuel ["// @title x", "  // runapi ", "// @body User"] =
        some apiDoc ∧
      parseFunc pkgReg pkgCaller fuel "a.go" []
          { Name := "F", Doc := some ["// @title x", "  // runapi ", "// @body User"] } =
        some ([] ++ [{ apiDoc with FilePath := "a.go", FunctionName := "F" }])) ∧
    hasRunAPI ["// @title x", "//runapi", "// @body Node"] = false ∧
    parseFunc pkgReg pkgCaller 0 "a.go" []
        { Name := "F", Doc := some ["// @title x", "//runapi", "// @body Node"] } = some [] :=
  ⟨by decide, by decide, by decide,
   ((parseFunc_marker pkgReg pkgCaller "a.go" [] "F"
      ["// @title x", "  // runapi ", "// @body User"]).2.2 (by decide)).mp
      (returns_of_bound pkgReg 1 _ (by decide)),
   by decide,
   (parseFunc_marker pkgReg pkgCaller "a.go" [] "F"
      ["// @title x", "//runapi", "// @body Node"]).2.1 (by decide) 0⟩

/-! ## Fields whose recorded name equals their type token -/

/-- C1, as the code has it: a field is taken for embedded when its recorded
name equals its type token.  The named field `Status Status` without tag, whose
type is no registered struct, is recorded with name and type `Status` and gives
no leaf: the flattening of `task.Task` is the leaf `Title` alone, for every
bound under which it returns. -/
theorem named_field_without_leaf :
    fieldParams { Names := ["Status"], Typ := .ident "Status", Tag := none, Comment := none } =
      [{ Name := "Status", Typ := "Status", Required := false, Remark := "" }] ∧
    taskReg.lookup "task.Task" =
      some { Name := "Task", Package := "task", PackagePath := "task",
             Fields := [{ Name := "Status", Typ := "Status", Required := false, Remark := "" },
                        { Name := "Title", Typ := "string", Required := false, Remark := "" }] } ∧
    fieldTarget taskReg "task" "Status" = none ∧
    deepParseStruct taskReg 1 "task.Task" "" =
      some [{ Name := "Title", Typ := "string", Required := false, Remark := "" }] ∧
    (∀ fuel out, deepParseStruct taskReg fuel "task.Task" "" = some out →
      ∀ leaf ∈ out, leaf.Name ≠ "Status") := by
  refine ⟨by decide, by decide, by decide, by decide, ?_⟩
  intro fuel out h
  have h1 : deepParseStruct taskReg 1 "task.Task" "" =
      some [{ Name := "Title", Typ := "string", Required := false, Remark := "" }] := by decide
  have huniq : out = [{ Name := "Title", Typ := "string", Required := false, Remark := "" }] :=
    Flattens.unique ⟨fuel, h⟩ ⟨1, h1⟩
  rw [huniq]
  decide

/-! ## Reference resolution: the path test of the claims -/

/-- C6, as the code has it: the candidates are chosen by the path test of the
code, whose third test asks whether the import path is a suffix of the package
path.  The declaration `model.User` of package path `model`, a prefix of the path
`model/v2` of the import, has the package identifier of the alias and is not
returned: the resolution fails.  Of the two declarations named `User`, the one
of package path `user` passes the test of the claim and the one of package
path `x/model/user` does not, and `u.User` resolves to the second. -/
theorem qualified_resolution_misses_prefix_match :
    (pathMatchSpec "model" "model/v2" = true ∧
     resolveStructReference versionedReg versionedFile "model.User" =
       .error (.notFound "model" "User" "model/v2")) ∧
    (pathMatchSpec "user" "model/user" = true ∧
     pathMatchSpec "x/model/user" "model/user" = false ∧
     resolveStructReference nestedPathReg nestedPathFile "u.User" = .ok "pb.User") := by
  decide

/-- C9, as the code has it: the error depends on the path test of the code.
The package path `api` is a prefix of the import path `api/v1` and the
resolution of `v1.User` fails; the package path `x/model/user` passes none of
the four tests of the claim against the import path `model/user` and the
resolution of `u.User` returns its key. -/
theorem resolution_error_by_code_path_test :
    (pathMatchSpec "api" "api/v1" = true ∧
     resolveStructReference prefixReg prefixFile "v1.User" =
       .error (.notFound "v1" "User" "api/v1")) ∧
    (pathMatchSpec "x/model/user" "model/user" = false ∧
     resolveStructReference suffixReg nestedPathFile "u.User" = .ok "userx.User") := by
  decide

/-! ## Composite responses: an override by a type that refers to itself -/

/-- C29, counterexample: in `User{extra=Node}` both `User` and `Node` resolve
to registered structs and `User` has no field named `extra`, but `Node` refers
to itself: `parseNestedResponse` returns under no bound. -/
theorem absent_override_of_cyclic_type :
    resolveOrRaw pkgReg pkgCaller "User" = "pkg.User" ∧
    (pkgReg.lookup "pkg.User").map (fun structInfo => structInfo.Fields) =
      some [{ Name := "Id", Typ := "int", Required := false, Remark := "" }] ∧
    resolveOrRaw pkgReg pkgCaller "Node" = "pkg.Node" ∧
    (pkgReg.lookup "pkg.Node").isSome = true ∧
    ¬ ∃ fuel result,
      parseNestedResponse pkgReg pkgCaller fuel "User\x7bextra=Node\x7d" = some result := by
  refine ⟨by decide, by decide, by decide, by decide, ?_⟩
  rintro ⟨fuel, result, h⟩
  have hnone := deepParseStruct_none_of_closed pkgReg (fun a => a = "pkg.Node")
    (fun a ha => ⟨"pkg.Node", ha ▸ refers_node, rfl⟩) fuel "pkg.Node" "extra." rfl
  have htoken : ("User\x7bextra=Node\x7d" : String) =
      "User" ++ "\x7b" ++ "extra" ++ "=" ++ "Node" ++ "\x7d" := by decide
  have hkey : resolveOrRaw pkgReg pkgCaller "Node" = "pkg.Node" := by decide
  have hlook : (GoMap.lookup pkgReg "pkg.Node").isSome = true := by decide
  have hdot : ("extra" : String) ++ "." = "extra." := by decide
  rw [htoken, parseNestedResponse_one pkgReg pkgCaller fuel "User" "extra" "Node" (by decide)
    (by decide) (by decide) (by decide) (by decide) (by decide) (by decide)] at h
  have hover : ∀ params, overrideField pkgReg pkgCaller fuel params "extra" "Node" = none := by
    intro params
    unfold overrideField
    simp only [hkey, hlook, if_true, hdot, hnone, Option.map_none']
    cases replaceNamed "extra" params <;> rfl
  rw [hover] at h
  cases h

/-! ## Directives: the raw token of `@body` -/

/-- C37, as the code has it: in a file without an entry for the alias `api`
the token `api.Metrics` does not resolve, and both directives fall back to the
key `api.Metrics`.  The line `// @response_body api.Metrics` adds the
flattening of the key; the line `// @body api.Metrics` adds parameters of type
`object` where the flattening has `long`, `boolean`, `number` and `array`. -/
theorem raw_token_body_types_mapped_twice :
    resolveStructReference metricsReg apiCaller "api.Metrics" = .error (.noAlias "api") ∧
    deepParseStruct metricsReg 1 "api.Metrics" "" = some metricsLeaves ∧
    parseDirective metricsReg apiCaller 1 emptyDoc "// @response_body api.Metrics" =
      some { emptyDoc with ResponseBody := metricsLeaves } ∧
    parseDirective metricsReg apiCaller 1 emptyDoc "// @body api.Metrics" =
      some { emptyDoc with Body :=
        [{ Name := "count", Typ := "object", Require := "true", Remark := "总数" },
         { Name := "ok", Typ := "object", Require := "true", Remark := "" },
         { Name := "ratio", Typ := "object", Require := "true", Remark := "" },
         { Name := "score", Typ := "object", Require := "true", Remark := "" },
         { Name := "tags", Typ := "object", Require := "true", Remark := "" },
         { Name := "label", Typ := "string", Require := "false", Remark := "" }] } ∧
    metricsLeaves.map (fun leaf => leaf.Typ) =
      ["long", "boolean", "number", "number", "array", "string"] := by
  decide

end RunApi
